import Mathlib

/-!
# GrooveBox audio engine (`src/host/engine/cpp/audio_engine.cpp`)

A shallow embedding of `CppAudioEngine` and a verification of its block
processing.

Modelling conventions.

* `float` values are elements of a linearly ordered field `α` with a floor
  function (`ℚ` for evaluation, `ℝ` where `std::tanh` is needed).  The sums and
  products of `process` are exact.  The `float` constants are their binary32
  values (`0.8f` is `13421773 / 2 ^ 24`), and the start-offset conversion of
  `play_sound`, whose result is a frame count, rounds its product to binary32
  (`roundF32`) before the cast.  `std::tanh` is a parameter `tanh : α → α` of
  `process`.
* `int` members are `Int` (signed overflow is outside the model), `%` on
  `int` is `Int.tmod` (truncated, as in C++), and a modulo by zero is a fault.
* `size_t`/`unsigned long` values are `Nat`; the one subtraction that can wrap
  (`sample_len - 1` with an empty sample) wraps to `SIZE_MAX`.
* `std::vector<float>` is `List α`; every indexed read or write is checked and
  an out-of-range index makes the operation return `none` (a fault).
* The six function-static scratch arrays `mix_l … dly_r` are zeroed on
  `[0, safe_frames)` at the start of every call and only ever indexed below
  `safe_frames ≤ 1024`, so they are modelled as per-call functions `Nat → α`.
* The mutex and PortAudio calls have no sequential effect and are omitted.
-/

namespace GrooveBox

/-- Largest value of `size_t` (64-bit). -/
def SIZE_MAX : Nat := 2 ^ 64 - 1

/-- Capacity of the static scratch arrays in `process`. -/
def MAX_BLOCK : Nat := 1024

/-- The C cast `(int)x` of a floating value: truncation toward zero. -/
def toInt {α : Type} [LinearOrderedField α] [FloorRing α] (x : α) : Int :=
  if 0 ≤ x then Int.floor x else Int.ceil x

/-- Smallest value of `int` (32-bit). -/
def INT_MIN : Int := -2 ^ 31

/-- The conversion `(int)x` of a `float` to the 32-bit `int`: truncation toward
zero when the truncated value is an `int`.  Otherwise the conversion is
undefined in C++; the value taken is the one the x86-64 conversion instruction
gives, `INT_MIN`. -/
def toInt32 {α : Type} [LinearOrderedField α] [FloorRing α] (x : α) : Int :=
  if INT_MIN ≤ toInt x ∧ toInt x < 2 ^ 31 then toInt x else INT_MIN

/-- Rounding to the nearest integer, ties to the even one. -/
def roundHalfEven {α : Type} [LinearOrderedField α] [FloorRing α] (y : α) : Int :=
  let m := Int.floor y
  if y - (m : α) < 1 / 2 then m
  else if 1 / 2 < y - (m : α) then m + 1
  else if m % 2 = 0 then m else m + 1

/-- The binary32 value of a real number (IEEE 754 round to nearest, ties to
even): with `e = max (floor (log2 |x|)) (-126)` the value is the multiple of
`2 ^ (e - 23)` nearest to `x`.  This is the result of a `float` operation whose
exact result is `x`, and of the conversion of an `int` `x` to `float`; overflow
to infinity (from `2 ^ 128`) is not represented. -/
def roundF32 {α : Type} [LinearOrderedField α] [FloorRing α] (x : α) : α :=
  let e : Int := max (Int.log 2 |x|) (-126)
  (roundHalfEven (x / 2 ^ (e - 23)) : α) * 2 ^ (e - 23)

/-- The struct `Voice`. -/
structure Voice (α : Type) where
  pad_id : Int
  pos : Nat
  velocity : α
  reverb_send : α
  delay_send : α
  active : Bool
  start_delay_frames : Int

/-- The scratch buses of one `process` call. -/
structure Buses (α : Type) where
  mix_l : Nat → α
  mix_r : Nat → α
  rev_l : Nat → α
  rev_r : Nat → α
  dly_l : Nat → α
  dly_r : Nat → α

/-- The data members of `CppAudioEngine` (without the stream and the mutex).
`samples_` is the `std::map<int, std::vector<float>>`. -/
structure CppAudioEngine (α : Type) where
  sample_rate_ : Int
  samples_ : Int → Option (List α)
  voices_ : List (Voice α)
  pending_voices_ : List (Voice α)
  delay_buffer_ : List α
  delay_len_ : Int
  delay_write_pos_ : Int
  delay_time_samples_ : Int
  delay_feedback_ : α
  reverb_buffer_ : List α
  reverb_len_ : Int
  reverb_write_pos_ : Int
  reverb_feedback_ : α

section Engine

set_option linter.unusedSectionVars false

variable {α : Type} [LinearOrderedField α] [FloorRing α]

/-- Checked read `buf[idx]` with an `int` index. -/
def readAt (buf : List α) (idx : Int) : Option α :=
  if 0 ≤ idx then buf[idx.toNat]? else none

/-- Checked write `buf[idx] = x` with an `int` index. -/
def writeAt (buf : List α) (idx : Int) (x : α) : Option (List α) :=
  if 0 ≤ idx ∧ idx.toNat < buf.length then some (buf.set idx.toNat x) else none

/-- The constructor `CppAudioEngine(int sample_rate)`.  The constant `0.5f` is
`1 / 2`; the constant `0.8f` is the binary32 number `13421773 / 2 ^ 24`. -/
def new (sample_rate : Int) : CppAudioEngine α :=
  { sample_rate_ := sample_rate
    samples_ := fun _ => none
    voices_ := []
    pending_voices_ := []
    delay_len_ := sample_rate * 2
    delay_buffer_ := List.replicate (sample_rate * 2 * 2).toNat 0
    delay_write_pos_ := 0
    delay_time_samples_ := toInt ((sample_rate : α) * 0.375)
    delay_feedback_ := 0.5
    reverb_len_ := sample_rate * 3
    reverb_buffer_ := List.replicate (sample_rate * 3 * 2).toNat 0
    reverb_write_pos_ := 0
    reverb_feedback_ := 13421773 / 16777216 }

/-- The method `load_sample`: `samples_[pad_id] = data`. -/
def load_sample (st : CppAudioEngine α) (pad_id : Int) (data : List α) :
    CppAudioEngine α :=
  { st with samples_ := fun p => if p = pad_id then some data else st.samples_ p }

/-- The method `play_sound`.  In `(int)(start_offset_seconds * sample_rate_)`
the `int` is converted to `float`, the product is a `float` product, and the
result is converted to `int`. -/
def play_sound (st : CppAudioEngine α) (pad_id : Int)
    (velocity reverb delay start_offset_seconds : α) : CppAudioEngine α :=
  match st.samples_ pad_id with
  | none => st
  | some _ =>
    let delay_frames : Int :=
      toInt32 (roundF32 (start_offset_seconds * roundF32 (st.sample_rate_ : α)))
    { st with
      pending_voices_ := st.pending_voices_ ++
        [{ pad_id := pad_id, pos := 0, velocity := velocity, reverb_send := reverb,
           delay_send := delay, active := true, start_delay_frames := delay_frames }] }

/-- All six buses zero (the `std::fill` calls on the scratch arrays). -/
def zeroBuses : Buses α :=
  { mix_l := fun _ => 0, mix_r := fun _ => 0, rev_l := fun _ => 0,
    rev_r := fun _ => 0, dly_l := fun _ => 0, dly_r := fun _ => 0 }

/-- The pending drain at the top of `process`. -/
def drainPending (st : CppAudioEngine α) : CppAudioEngine α :=
  if st.pending_voices_.isEmpty then st
  else { st with voices_ := st.voices_ ++ st.pending_voices_, pending_voices_ := [] }

/-- The inner frame loop of one voice, `for (i = start_idx; i < safe_frames; ++i)`,
with `n` iterations left and the loop variable at `i`.  The guard compares the
cursor with `sample_len - 1` computed in `size_t`.  `voice.pos += 2` is only
reached after `sample[voice.pos + 1]` was read in range, so it cannot wrap. -/
def renderLoop (sample : List α) : Nat → Nat → Voice α → Buses α →
    Option (Voice α × Buses α)
  | 0, _, voice, b => some (voice, b)
  | n + 1, i, voice, b =>
    let sample_len := sample.length
    if voice.pos ≥ (if sample_len = 0 then SIZE_MAX else sample_len - 1) then
      some ({ voice with active := false }, b)
    else
      match sample[voice.pos]?, sample[voice.pos + 1]? with
      | some s_l, some s_r =>
        let v := voice.velocity
        renderLoop sample n (i + 1) { voice with pos := voice.pos + 2 }
          { mix_l := Function.update b.mix_l i (b.mix_l i + s_l * v)
            mix_r := Function.update b.mix_r i (b.mix_r i + s_r * v)
            rev_l := Function.update b.rev_l i (b.rev_l i + s_l * v * voice.reverb_send)
            rev_r := Function.update b.rev_r i (b.rev_r i + s_r * v * voice.reverb_send)
            dly_l := Function.update b.dly_l i (b.dly_l i + s_l * v * voice.delay_send)
            dly_r := Function.update b.dly_r i (b.dly_r i + s_r * v * voice.delay_send) }
      | _, _ => none

/-- The body of `for (auto& voice : voices_)` for one voice.  The lookup
`samples_[voice.pad_id]` default-inserts an empty vector for a missing key. -/
def renderVoice (safe_frames : Nat) (voice : Voice α) (samples : Int → Option (List α))
    (b : Buses α) : Option (Voice α × (Int → Option (List α)) × Buses α) :=
  if !voice.active then some (voice, samples, b)
  else if voice.start_delay_frames > 0 ∧ voice.start_delay_frames ≥ (safe_frames : Int) then
    some ({ voice with start_delay_frames := voice.start_delay_frames - (safe_frames : Int) },
      samples, b)
  else
    let sample : List α := (samples voice.pad_id).getD []
    let samples1 : Int → Option (List α) :=
      match samples voice.pad_id with
      | some _ => samples
      | none => fun p => if p = voice.pad_id then some [] else samples p
    let start_idx : Nat :=
      if voice.start_delay_frames > 0 then voice.start_delay_frames.toNat else 0
    let voice1 : Voice α :=
      if voice.start_delay_frames > 0 then { voice with start_delay_frames := 0 } else voice
    (renderLoop sample (safe_frames - start_idx) start_idx voice1 b).map
      (fun r => (r.1, samples1, r.2))

/-- The loop `for (auto& voice : voices_)`. -/
def voiceLoop (safe_frames : Nat) : List (Voice α) → (Int → Option (List α)) → Buses α →
    Option (List (Voice α) × (Int → Option (List α)) × Buses α)
  | [], samples, b => some ([], samples, b)
  | voice :: rest, samples, b =>
    match renderVoice safe_frames voice samples b with
    | none => none
    | some (voice1, samples1, b1) =>
      match voiceLoop safe_frames rest samples1 b1 with
      | none => none
      | some (rest1, samples2, b2) => some (voice1 :: rest1, samples2, b2)

/-- One frame of a feedback line: read the tap, store `in + tap * feedback`
at the write cursor, advance the cursor.  Returns the new buffer, the new
cursor and the tapped pair. -/
def lineStep (len tap : Int) (feedback : α) (buf : List α) (write_pos : Int)
    (x_l x_r : α) : Option (List α × Int × α × α) :=
  if len = 0 then none
  else
    let read_pos := Int.tmod (write_pos - tap + len) len
    match readAt buf (read_pos * 2), readAt buf (read_pos * 2 + 1) with
    | some d_l, some d_r =>
      let in_l := x_l + d_l * feedback
      let in_r := x_r + d_r * feedback
      match writeAt buf (write_pos * 2) in_l with
      | none => none
      | some buf1 =>
        match writeAt buf1 (write_pos * 2 + 1) in_r with
        | none => none
        | some buf2 => some (buf2, Int.tmod (write_pos + 1) len, d_l, d_r)
    | _, _ => none

/-- An effect loop `for (i = 0; i < safe_frames; ++i)` of `process`, with `n`
iterations left and the loop variable at `i`; `wet` is what is added to the
mix from the tapped value (`d` for the delay, `r * 0.5` for the reverb). -/
def effectLoop (len tap : Int) (feedback : α) (wet : α → α) (in_l in_r : Nat → α) :
    Nat → Nat → List α → Int → (Nat → α) → (Nat → α) →
    Option (List α × Int × (Nat → α) × (Nat → α))
  | 0, _, buf, write_pos, mix_l, mix_r => some (buf, write_pos, mix_l, mix_r)
  | n + 1, i, buf, write_pos, mix_l, mix_r =>
    match lineStep len tap feedback buf write_pos (in_l i) (in_r i) with
    | none => none
    | some (buf1, write_pos1, d_l, d_r) =>
      effectLoop len tap feedback wet in_l in_r n (i + 1) buf1 write_pos1
        (Function.update mix_l i (mix_l i + wet d_l))
        (Function.update mix_r i (mix_r i + wet d_r))

/-- The output loop: `out[i*2] = tanh(mix_l[i]); out[i*2+1] = tanh(mix_r[i])`
for `i` from `i` with `n` iterations left. -/
def writeOut (tanh : α → α) (mix_l mix_r : Nat → α) : Nat → Nat → List α → List α
  | 0, _, out => out
  | n + 1, i, out =>
    writeOut tanh mix_l mix_r n (i + 1)
      ((out.set (i * 2) (tanh (mix_l i))).set (i * 2 + 1) (tanh (mix_r i)))

/-- The block ceiling `safe_frames = (frames > 1024) ? 1024 : frames`. -/
def safeFrames (frames : Nat) : Nat :=
  if frames > MAX_BLOCK then MAX_BLOCK else frames

/-- The first part of `process`: pending drain, voice loop and the
`erase(remove_if(...))` retirement.  Returns the buses after the voice loop. -/
def voiceStage (st : CppAudioEngine α) (safe_frames : Nat) :
    Option (CppAudioEngine α × Buses α) :=
  let st1 := drainPending st
  match voiceLoop safe_frames st1.voices_ st1.samples_ zeroBuses with
  | none => none
  | some (voices1, samples1, b) =>
    some ({ st1 with samples_ := samples1, voices_ := voices1.filter (fun v => v.active) }, b)

/-- Everything `process` does before the output loop: the voice stage, then
the delay loop and the reverb loop.  Returns the final mix buses. -/
def mixStage (st : CppAudioEngine α) (safe_frames : Nat) :
    Option (CppAudioEngine α × (Nat → α) × (Nat → α)) :=
  match voiceStage st safe_frames with
  | none => none
  | some (st2, b) =>
    match effectLoop st2.delay_len_ st2.delay_time_samples_ st2.delay_feedback_
        (fun d => d) b.dly_l b.dly_r safe_frames 0 st2.delay_buffer_ st2.delay_write_pos_
        b.mix_l b.mix_r with
    | none => none
    | some (dbuf, dpos, mix_l1, mix_r1) =>
      match effectLoop st2.reverb_len_ (toInt ((st2.sample_rate_ : α) * 0.1))
          st2.reverb_feedback_ (fun r => r * 0.5) b.rev_l b.rev_r safe_frames 0
          st2.reverb_buffer_ st2.reverb_write_pos_ mix_l1 mix_r1 with
      | none => none
      | some (rbuf, rpos, mix_l2, mix_r2) =>
        some ({ st2 with delay_buffer_ := dbuf, delay_write_pos_ := dpos,
                         reverb_buffer_ := rbuf, reverb_write_pos_ := rpos }, mix_l2, mix_r2)

/-- The method `process(out, frames)`: returns the new engine state and the
`frames * 2` floats written to `out`, or `none` on a fault.  (The C++ return
value is always `paContinue`.) -/
def process (tanh : α → α) (st : CppAudioEngine α) (frames : Nat) :
    Option (CppAudioEngine α × List α) :=
  let out0 : List α := List.replicate (frames * 2) 0
  let safe_frames := safeFrames frames
  match mixStage st safe_frames with
  | none => none
  | some (st1, mix_l, mix_r) =>
    some (st1, writeOut tanh mix_l mix_r safe_frames 0 out0)

/-- The engine after `k` successive `process` calls of `frames` frames each. -/
def processBlocks (tanh : α → α) (frames : Nat) : Nat → CppAudioEngine α →
    Option (CppAudioEngine α)
  | 0, st => some st
  | k + 1, st =>
    match process tanh st frames with
    | none => none
    | some (st1, _) => processBlocks tanh frames k st1


/-! ## Specification-side definitions -/

/-- Accumulation of `x 0, x 1, …, x (m-1)` onto `f` at indices `i, …, i+m-1`. -/
def addRange (f : Nat → α) (i m : Nat) (x : Nat → α) : Nat → α :=
  fun j => if i ≤ j ∧ j < i + m then f j + x (j - i) else f j

/-- The buses after a voice has rendered `m` sample frames from its cursor
into bus indices `i, …, i+m-1`. -/
def accumBuses (sample : List α) (voice : Voice α) (i m : Nat) (b : Buses α) : Buses α :=
  { mix_l := addRange b.mix_l i m
      (fun t => sample.getD (voice.pos + 2 * t) 0 * voice.velocity)
    mix_r := addRange b.mix_r i m
      (fun t => sample.getD (voice.pos + 2 * t + 1) 0 * voice.velocity)
    rev_l := addRange b.rev_l i m
      (fun t => sample.getD (voice.pos + 2 * t) 0 * voice.velocity * voice.reverb_send)
    rev_r := addRange b.rev_r i m
      (fun t => sample.getD (voice.pos + 2 * t + 1) 0 * voice.velocity * voice.reverb_send)
    dly_l := addRange b.dly_l i m
      (fun t => sample.getD (voice.pos + 2 * t) 0 * voice.velocity * voice.delay_send)
    dly_r := addRange b.dly_r i m
      (fun t => sample.getD (voice.pos + 2 * t + 1) 0 * voice.velocity * voice.delay_send) }

/-- Number of stereo frames a cursor at `pos` can still read from a sample of
length `len` before the guard `pos >= len - 1` fires. -/
def framesLeft (len pos : Nat) : Nat := (len - pos) / 2

/-- The voice created by a trigger with start delay `k` frames on a pad whose
sample has `M` frame pairs, after `T` output frames have been processed. -/
def voiceAt (pad : Int) (v r d : α) (k M T : Nat) : Voice α :=
  { pad_id := pad, pos := 2 * min (T - k) M, velocity := v, reverb_send := r,
    delay_send := d, active := decide (T - k ≤ M),
    start_delay_frames := ((k - T : Nat) : Int) }

/-- Index validity of a feedback line: positive length, tap offset within the
length, write cursor in range, buffer of `2 * len` floats. -/
def LineOK (len tap : Int) (buf : List α) (write_pos : Int) : Prop :=
  0 < len ∧ 0 ≤ tap ∧ tap ≤ len ∧ 0 ≤ write_pos ∧ write_pos < len ∧
    (buf.length : Int) = len * 2

/-- Index validity of both effect lines of an engine. -/
def LinesOK (st : CppAudioEngine α) : Prop :=
  LineOK st.delay_len_ st.delay_time_samples_ st.delay_buffer_ st.delay_write_pos_ ∧
  LineOK st.reverb_len_ (toInt ((st.sample_rate_ : α) * 0.1)) st.reverb_buffer_
    st.reverb_write_pos_

/-- An engine whose only voice is the one triggered on `pad` (holding `sample`,
`M` frame pairs) with start delay `k`, `T` output frames after the trigger; the
voice is gone once it has been found finished. -/
def SoloInv (pad : Int) (sample : List α) (v r d : α) (k M T : Nat)
    (st : CppAudioEngine α) : Prop :=
  st.samples_ pad = some sample ∧
  st.voices_ ++ st.pending_voices_ =
    (if T - k ≤ M then [voiceAt pad v r d k M T] else []) ∧
  LinesOK st

/-- A feedback line run block by block the way `process` runs its delay loop:
for each block the send bus holds the block's input frames, the mix bus starts
at zero, and the frames read off the mix bus after the loop are the block's wet
output. -/
def effectBlocks (len tap : Int) (feedback : α) (wet : α → α) :
    List (List (α × α)) → List α → Int → Option (List α × Int × List (List (α × α)))
  | [], buf, write_pos => some (buf, write_pos, [])
  | blk :: rest, buf, write_pos =>
    match effectLoop len tap feedback wet (fun i => (blk.getD i (0, 0)).1)
        (fun i => (blk.getD i (0, 0)).2) blk.length 0 buf write_pos
        (fun _ => 0) (fun _ => 0) with
    | none => none
    | some (buf1, write_pos1, mix_l, mix_r) =>
      match effectBlocks len tap feedback wet rest buf1 write_pos1 with
      | none => none
      | some (buf2, write_pos2, outs) =>
        some (buf2, write_pos2,
          (List.range blk.length).map (fun i => (mix_l i, mix_r i)) :: outs)

/-- The echo of a unit impulse at frame `m` on a line with tap offset `D` and
feedback gain `g`: `g ^ (k - 1)` when `m = k * D` with `k ≥ 1`, else 0. -/
def echo (g : α) (D m : Nat) : α :=
  if m ≠ 0 ∧ D ∣ m then g ^ (m / D - 1) else 0

/-- The buffer of a line of `L` frames with write cursor `W` holds, in the
order in which its slots will be overwritten, the values `Yl, Yr` at times
`m, …, m + L - 1`. -/
def LineHist (L : Nat) (buf : List α) (W : Nat) (Yl Yr : Nat → α) (m : Nat) : Prop :=
  buf.length = 2 * L ∧ W < L ∧
    ∀ t, t < L → buf[2 * ((W + t) % L)]? = some (Yl (m + t)) ∧
      buf[2 * ((W + t) % L) + 1]? = some (Yr (m + t))

/-- The values written into a silent line of `L` frames by a unit impulse, on
the time axis of `LineHist` (time `L + t` is frame `t`). -/
def impulseHist (g : α) (L D j : Nat) : α :=
  if L ≤ j ∧ D ∣ (j - L) then g ^ ((j - L) / D) else 0

/-- The frames tapped by `n` successive frames of a feedback line (the loop body
of both effect loops of `process`, without the mixing), fed from the send bus
`in_l`, `in_r` at indices `i, …, i + n - 1`. -/
def lineRun (len tap : Int) (feedback : α) (in_l in_r : Nat → α) :
    Nat → Nat → List α → Int → Option (List α × Int × List (α × α))
  | 0, _, buf, write_pos => some (buf, write_pos, [])
  | n + 1, i, buf, write_pos =>
    match lineStep len tap feedback buf write_pos (in_l i) (in_r i) with
    | none => none
    | some (buf1, write_pos1, d_l, d_r) =>
      match lineRun len tap feedback in_l in_r n (i + 1) buf1 write_pos1 with
      | none => none
      | some (buf2, write_pos2, taps) => some (buf2, write_pos2, (d_l, d_r) :: taps)

/-- The engine states reachable from `CppAudioEngine(sample_rate)` by the public
methods `load_sample`, `play_sound` and (returning) `process` calls. -/
inductive Reachable (sample_rate : Int) : CppAudioEngine α → Prop
  | init : Reachable sample_rate (new sample_rate)
  | load (st : CppAudioEngine α) (pad_id : Int) (data : List α) :
      Reachable sample_rate st → Reachable sample_rate (load_sample st pad_id data)
  | play (st : CppAudioEngine α) (pad_id : Int) (velocity reverb delay off : α) :
      Reachable sample_rate st →
      Reachable sample_rate (play_sound st pad_id velocity reverb delay off)
  | block (tanh : α → α) (st st1 : CppAudioEngine α) (frames : Nat) (out : List α) :
      Reachable sample_rate st → process tanh st frames = some (st1, out) →
      Reachable sample_rate st1

/-- The line parameters of an engine constructed with `sample_rate`, together
with the index validity of both lines. -/
def LinesOf (sample_rate : Int) (st : CppAudioEngine α) : Prop :=
  st.sample_rate_ = sample_rate ∧ st.delay_len_ = sample_rate * 2 ∧
  st.delay_time_samples_ = toInt ((sample_rate : α) * 0.375) ∧
  st.reverb_len_ = sample_rate * 3 ∧ LinesOK st

/-- Every voice of the list whose `active` flag is set is on a pad that holds
a non-empty sample. -/
def VoicesOK (samples : Int → Option (List α)) (vs : List (Voice α)) : Prop :=
  ∀ v ∈ vs, v.active = true → ∃ s, samples v.pad_id = some s ∧ s.length ≠ 0

theorem addRange_zero (f : Nat → α) (i : Nat) (x : Nat → α) : addRange f i 0 x = f := by
  funext j
  simp [addRange]

theorem addRange_step (f : Nat → α) (i m : Nat) (x y : Nat → α) (c : α)
    (hc : c = x 0) (hy : ∀ t, y t = x (t + 1)) :
    addRange (Function.update f i (f i + c)) (i + 1) m y = addRange f i (m + 1) x := by
  funext j
  unfold addRange
  by_cases h1 : j = i
  · subst h1
    simp [hc]
  · by_cases h2 : i + 1 ≤ j ∧ j < i + 1 + m
    · have h3 : i ≤ j ∧ j < i + (m + 1) := by omega
      have h4 : j - (i + 1) + 1 = j - i := by omega
      simp [h2, h3, h1, hy, h4, Function.update_noteq]
    · have h3 : ¬ (i ≤ j ∧ j < i + (m + 1)) := by omega
      simp [h2, h3, h1, Function.update_noteq]

theorem accumBuses_zero (sample : List α) (voice : Voice α) (i : Nat) (b : Buses α) :
    accumBuses sample voice i 0 b = b := by
  cases b
  simp [accumBuses, addRange_zero]

theorem renderLoop_eq (sample : List α) (hlen : sample.length ≠ 0) :
    ∀ (n i : Nat) (voice : Voice α) (b : Buses α),
      renderLoop sample n i voice b =
        some ({ voice with
                  pos := voice.pos + 2 * min n (framesLeft sample.length voice.pos)
                  active := voice.active && decide (n ≤ framesLeft sample.length voice.pos) },
              accumBuses sample voice i (min n (framesLeft sample.length voice.pos)) b) := by
  intro n
  induction n with
  | zero =>
    intro i voice b
    cases voice
    simp [renderLoop, accumBuses_zero]
  | succ n ih =>
    intro i voice b
    by_cases hend : voice.pos ≥ sample.length - 1
    · have ha : framesLeft sample.length voice.pos = 0 := by
        unfold framesLeft
        omega
      simp [renderLoop, hlen, hend, ha, accumBuses_zero]
    · have h0 : voice.pos < sample.length := by omega
      have h1 : voice.pos + 1 < sample.length := by omega
      have ha : framesLeft sample.length (voice.pos + 2)
          = framesLeft sample.length voice.pos - 1 := by
        unfold framesLeft
        omega
      have ha1 : 1 ≤ framesLeft sample.length voice.pos := by
        unfold framesLeft
        omega
      have hmin : min (n + 1) (framesLeft sample.length voice.pos)
          = min n (framesLeft sample.length voice.pos - 1) + 1 := by omega
      have hdec : decide (n ≤ framesLeft sample.length voice.pos - 1)
          = decide (n + 1 ≤ framesLeft sample.length voice.pos) := by
        apply decide_eq_decide.mpr
        omega
      have e0 : sample[voice.pos]? = some (sample.getD voice.pos 0) := by
        simp [List.getD_eq_getElem?_getD, List.getElem?_eq_getElem h0]
      have e1 : sample[voice.pos + 1]? = some (sample.getD (voice.pos + 1) 0) := by
        simp [List.getD_eq_getElem?_getD, List.getElem?_eq_getElem h1]
      rw [renderLoop]
      simp only [hlen, if_false, hend, e0, e1]
      rw [ih]
      simp only [ha, hmin, hdec]
      refine congrArg some (Prod.ext ?_ ?_)
      · simp only [Voice.mk.injEq, and_true, true_and]
        omega
      · simp only [accumBuses, Buses.mk.injEq]
        refine ⟨?_, ?_, ?_, ?_, ?_, ?_⟩
        · exact addRange_step _ _ _ _ _ _ (by simp) (fun t => by
            rw [show voice.pos + 2 + 2 * t = voice.pos + 2 * (t + 1) by omega])
        · exact addRange_step _ _ _ _ _ _ (by simp) (fun t => by
            rw [show voice.pos + 2 + 2 * t + 1 = voice.pos + 2 * (t + 1) + 1 by omega])
        · exact addRange_step _ _ _ _ _ _ (by simp) (fun t => by
            rw [show voice.pos + 2 + 2 * t = voice.pos + 2 * (t + 1) by omega])
        · exact addRange_step _ _ _ _ _ _ (by simp) (fun t => by
            rw [show voice.pos + 2 + 2 * t + 1 = voice.pos + 2 * (t + 1) + 1 by omega])
        · exact addRange_step _ _ _ _ _ _ (by simp) (fun t => by
            rw [show voice.pos + 2 + 2 * t = voice.pos + 2 * (t + 1) by omega])
        · exact addRange_step _ _ _ _ _ _ (by simp) (fun t => by
            rw [show voice.pos + 2 + 2 * t + 1 = voice.pos + 2 * (t + 1) + 1 by omega])


theorem renderVoice_voiceAt (sample : List α) (M : Nat) (hM : 1 ≤ M)
    (hlen : sample.length = 2 * M) (samples : Int → Option (List α)) (pad : Int)
    (hs : samples pad = some sample) (v r d : α) (k T N : Nat) (b : Buses α) :
    renderVoice N (voiceAt pad v r d k M T) samples b =
      some (voiceAt pad v r d k M (T + N), samples,
        accumBuses sample (voiceAt pad v r d k M T) (k - T)
          (min (N - (k - T)) (M - (T - k))) b) := by
  have hne : sample.length ≠ 0 := by omega
  unfold renderVoice
  by_cases hact : T - k ≤ M
  · by_cases hskip : 0 < k - T ∧ N ≤ k - T
    · have h1 : (voiceAt pad v r d k M T).active = true := by simp [voiceAt, hact]
      have h2 : (voiceAt pad v r d k M T).start_delay_frames > 0 ∧
          (voiceAt pad v r d k M T).start_delay_frames ≥ (N : Int) := by
        simp only [voiceAt]
        omega
      have h3 : min (N - (k - T)) (M - (T - k)) = 0 := by omega
      simp only [h1, h2, h3, accumBuses_zero]
      simp only [Bool.not_true, Bool.false_eq_true, if_false, and_self, if_true]
      refine congrArg some (Prod.ext ?_ rfl)
      simp only [voiceAt, Voice.mk.injEq, true_and, decide_eq_decide]
      refine ⟨by omega, ?_, by omega⟩
      first
        | omega
        | (simp only [hact, decide_True, Bool.true_and, decide_eq_decide,
            true_eq_decide_iff]; omega)
    · have h1 : (voiceAt pad v r d k M T).active = true := by simp [voiceAt, hact]
      have h2 : ¬ ((voiceAt pad v r d k M T).start_delay_frames > 0 ∧
          (voiceAt pad v r d k M T).start_delay_frames ≥ (N : Int)) := by
        simp only [voiceAt]
        omega
      have h3 : (voiceAt pad v r d k M T).pad_id = pad := rfl
      simp only [h1, h2, h3, hs]
      simp only [Bool.not_true, Bool.false_eq_true, if_false, Option.getD_some]
      rw [renderLoop_eq sample hne]
      simp only [Option.map_some']
      refine congrArg some (Prod.ext ?_ (Prod.ext rfl ?_))
      · by_cases hpos : (voiceAt pad v r d k M T).start_delay_frames > 0
        · have hk : 0 < k - T := by
            simp only [voiceAt] at hpos
            omega
          simp only [hpos, if_true]
          simp only [voiceAt, Voice.mk.injEq, true_and, hlen, framesLeft, Int.toNat_ofNat,
            Bool.true_and, decide_eq_decide, Bool.and_eq_true, decide_eq_true_eq]
          refine ⟨by omega, by omega, by omega⟩
        · have hk : k - T = 0 := by
            simp only [voiceAt] at hpos
            omega
          simp only [hpos, if_false]
          simp only [voiceAt, Voice.mk.injEq, true_and, hlen, framesLeft,
            Bool.true_and, decide_eq_decide, Bool.and_eq_true, decide_eq_true_eq]
          refine ⟨by omega, ?_, by omega⟩
          first
            | omega
            | (simp only [hact, decide_True, Bool.true_and, decide_eq_decide,
                true_eq_decide_iff]; omega)
      · by_cases hpos : (voiceAt pad v r d k M T).start_delay_frames > 0
        · have hk : 0 < k - T := by
            simp only [voiceAt] at hpos
            omega
          simp only [hpos, if_true]
          have e : min (N - ((voiceAt pad v r d k M T).start_delay_frames).toNat)
              (framesLeft sample.length (voiceAt pad v r d k M T).pos)
              = min (N - (k - T)) (M - (T - k)) := by
            simp only [voiceAt, hlen, framesLeft, Int.toNat_ofNat]
            omega
          have e2 : ((voiceAt pad v r d k M T).start_delay_frames).toNat = k - T := by
            simp only [voiceAt, Int.toNat_ofNat]
          simp only [e2] at e ⊢
          simp only [e]
          rfl
        · have hk : k - T = 0 := by
            simp only [voiceAt] at hpos
            omega
          simp only [hpos, if_false]
          have e : min (N - 0) (framesLeft sample.length (voiceAt pad v r d k M T).pos)
              = min (N - (k - T)) (M - (T - k)) := by
            simp only [voiceAt, hlen, framesLeft]
            omega
          simp only [e, hk]
  · have h1 : (voiceAt pad v r d k M T).active = false := by simp [voiceAt, hact]
    have h3 : min (N - (k - T)) (M - (T - k)) = 0 := by omega
    simp only [h1, h3, accumBuses_zero]
    simp only [Bool.not_false, if_true]
    refine congrArg some (Prod.ext ?_ rfl)
    simp only [voiceAt, Voice.mk.injEq, true_and, decide_eq_decide]
    refine ⟨by omega, by omega, by omega⟩


/-! ## The feedback lines -/

theorem readAt_of_lt (buf : List α) (idx : Int) (h0 : 0 ≤ idx)
    (h1 : idx < (buf.length : Int)) :
    ∃ x, readAt buf idx = some x ∧ x ∈ buf := by
  have h2 : idx.toNat < buf.length := by omega
  refine ⟨buf[idx.toNat], ?_, List.getElem_mem h2⟩
  simp [readAt, h0, List.getElem?_eq_getElem h2]

theorem writeAt_of_lt (buf : List α) (idx : Int) (x : α) (h0 : 0 ≤ idx)
    (h1 : idx < (buf.length : Int)) :
    writeAt buf idx x = some (buf.set idx.toNat x) := by
  have h2 : idx.toNat < buf.length := by omega
  simp [writeAt, h0, h2]

theorem lineStep_ok (len tap : Int) (g : α) (buf : List α) (w : Int) (x_l x_r : α)
    (hok : LineOK len tap buf w) :
    ∃ buf1 d_l d_r,
      lineStep len tap g buf w x_l x_r = some (buf1, Int.tmod (w + 1) len, d_l, d_r) ∧
      LineOK len tap buf1 (Int.tmod (w + 1) len) ∧ d_l ∈ buf ∧ d_r ∈ buf ∧
      ∀ x ∈ buf1, x ∈ buf ∨ x = x_l + d_l * g ∨ x = x_r + d_r * g := by
  obtain ⟨hlen, htap0, htap, hw0, hw, hbuf⟩ := hok
  have hne : len ≠ 0 := by omega
  have hrp : Int.tmod (w - tap + len) len = (w - tap + len) % len :=
    Int.tmod_eq_emod (by omega) (by omega)
  have hrp0 : 0 ≤ (w - tap + len) % len := Int.emod_nonneg _ hne
  have hrp1 : (w - tap + len) % len < len := Int.emod_lt_of_pos _ hlen
  have hwp : Int.tmod (w + 1) len = (w + 1) % len :=
    Int.tmod_eq_emod (by omega) (by omega)
  have hwp0 : 0 ≤ (w + 1) % len := Int.emod_nonneg _ hne
  have hwp1 : (w + 1) % len < len := Int.emod_lt_of_pos _ hlen
  obtain ⟨d_l, hdl, hdlm⟩ := readAt_of_lt buf ((w - tap + len) % len * 2) (by omega) (by omega)
  obtain ⟨d_r, hdr, hdrm⟩ :=
    readAt_of_lt buf ((w - tap + len) % len * 2 + 1) (by omega) (by omega)
  have hw1 := writeAt_of_lt buf (w * 2) (x_l + d_l * g) (by omega) (by omega)
  have hw2 := writeAt_of_lt (buf.set (w * 2).toNat (x_l + d_l * g)) (w * 2 + 1)
    (x_r + d_r * g) (by omega) (by rw [List.length_set]; omega)
  refine ⟨(buf.set (w * 2).toNat (x_l + d_l * g)).set (w * 2 + 1).toNat (x_r + d_r * g),
    d_l, d_r, ?_, ?_, hdlm, hdrm, ?_⟩
  · simp only [lineStep, hne, if_false, hrp, hdl, hdr, hw1, hw2]
  · rw [hwp]
    refine ⟨hlen, htap0, htap, hwp0, hwp1, ?_⟩
    rw [List.length_set, List.length_set]
    exact hbuf
  · intro x hx
    rcases List.mem_or_eq_of_mem_set hx with h | h
    · rcases List.mem_or_eq_of_mem_set h with h' | h'
      · exact Or.inl h'
      · exact Or.inr (Or.inl h')
    · exact Or.inr (Or.inr h)

theorem effectLoop_pred (len tap : Int) (g : α) (wet : α → α) (in_l in_r : Nat → α)
    (P : α → Prop) :
    ∀ (n i : Nat) (buf : List α) (w : Int) (mix_l mix_r : Nat → α),
      LineOK len tap buf w → (∀ x ∈ buf, P x) →
      (∀ j, i ≤ j → j < i + n → ∀ d, P d → P (in_l j + d * g) ∧ P (in_r j + d * g)) →
      ∃ (buf1 : List α) (w1 : Int) (dl dr : Nat → α),
        effectLoop len tap g wet in_l in_r n i buf w mix_l mix_r =
          some (buf1, w1, addRange mix_l i n (fun s => wet (dl s)),
            addRange mix_r i n (fun s => wet (dr s))) ∧
        LineOK len tap buf1 w1 ∧ (∀ x ∈ buf1, P x) ∧ (∀ s, s < n → P (dl s) ∧ P (dr s)) := by
  intro n
  induction n with
  | zero =>
    intro i buf w mix_l mix_r hok hP _
    exact ⟨buf, w, fun _ => 0, fun _ => 0, by simp [effectLoop, addRange_zero], hok, hP,
      fun s hs => absurd hs (Nat.not_lt_zero s)⟩
  | succ n ih =>
    intro i buf w mix_l mix_r hok hP hin
    obtain ⟨buf1, d_l, d_r, hstep, hok1, hdl, hdr, hmem⟩ :=
      lineStep_ok len tap g buf w (in_l i) (in_r i) hok
    have hPd := hin i (Nat.le_refl i) (by omega)
    have hP1 : ∀ x ∈ buf1, P x := by
      intro x hx
      rcases hmem x hx with h | h | h
      · exact hP x h
      · rw [h]
        exact (hPd d_l (hP d_l hdl)).1
      · rw [h]
        exact (hPd d_r (hP d_r hdr)).2
    obtain ⟨buf2, w2, dl, dr, hrun, hok2, hP2, hd⟩ :=
      ih (i + 1) buf1 (Int.tmod (w + 1) len)
        (Function.update mix_l i (mix_l i + wet d_l))
        (Function.update mix_r i (mix_r i + wet d_r)) hok1 hP1
        (fun j hj1 hj2 => hin j (by omega) (by omega))
    refine ⟨buf2, w2, fun s => if s = 0 then d_l else dl (s - 1),
      fun s => if s = 0 then d_r else dr (s - 1), ?_, hok2, hP2, ?_⟩
    · rw [effectLoop]
      simp only [hstep]
      rw [hrun]
      refine congrArg some (Prod.ext rfl (Prod.ext rfl (Prod.ext ?_ ?_)))
      · exact addRange_step mix_l i n (fun s => wet (if s = 0 then d_l else dl (s - 1)))
          (fun s => wet (dl s)) (wet d_l) (by simp) (fun t => by simp)
      · exact addRange_step mix_r i n (fun s => wet (if s = 0 then d_r else dr (s - 1)))
          (fun s => wet (dr s)) (wet d_r) (by simp) (fun t => by simp)
    · intro s hs
      by_cases h0 : s = 0
      · subst h0
        exact ⟨hP d_l hdl, hP d_r hdr⟩
      · simp only [h0, if_false]
        exact hd (s - 1) (by omega)


/-! ## The output loop -/

theorem writeOut_length (tanh : α → α) (mix_l mix_r : Nat → α) :
    ∀ (n i : Nat) (out : List α), (writeOut tanh mix_l mix_r n i out).length = out.length := by
  intro n
  induction n with
  | zero => intro i out; rfl
  | succ n ih =>
    intro i out
    rw [writeOut, ih, List.length_set, List.length_set]

theorem writeOut_getElem? (tanh : α → α) (mix_l mix_r : Nat → α) :
    ∀ (n i : Nat) (out : List α) (j : Nat),
      (writeOut tanh mix_l mix_r n i out)[j]? =
        if 2 * i ≤ j ∧ j < 2 * (i + n) ∧ j < out.length then
          some (if j % 2 = 0 then tanh (mix_l (j / 2)) else tanh (mix_r (j / 2)))
        else out[j]? := by
  intro n
  induction n with
  | zero =>
    intro i out j
    have h : ¬ (2 * i ≤ j ∧ j < 2 * (i + 0) ∧ j < out.length) := by omega
    simp only [writeOut, h, if_false]
  | succ n ih =>
    intro i out j
    rw [writeOut, ih]
    simp only [List.length_set, List.getElem?_set]
    have hnone : ¬ j < out.length → out[j]? = none := fun h =>
      List.getElem?_eq_none (by omega)
    by_cases h1 : j = i * 2
    · subst h1
      have e3 : i * 2 % 2 = 0 := by omega
      have e4 : i * 2 / 2 = i := by omega
      simp only [e3, e4, if_true]
      split_ifs <;> first | rfl | omega | (rw [hnone (by omega)])
    · by_cases h2 : j = i * 2 + 1
      · subst h2
        have e3 : ¬ ((i * 2 + 1) % 2 = 0) := by omega
        have e4 : (i * 2 + 1) / 2 = i := by omega
        simp only [e3, e4, if_false]
        split_ifs <;> first | rfl | omega | (rw [hnone (by omega)])
      · split_ifs <;> first | rfl | omega

theorem drainPending_eq (st : CppAudioEngine α) :
    drainPending st =
      { st with voices_ := st.voices_ ++ st.pending_voices_, pending_voices_ := [] } := by
  unfold drainPending
  cases st with
  | mk sr sa vo pe db dl dw dt df rb rl rw rf =>
    cases pe with
    | nil => simp
    | cons p ps => simp


/-! ## One block of an engine with a single voice -/

theorem voiceStage_solo (pad : Int) (sample : List α) (v r d : α) (k M T : Nat)
    (hM : 1 ≤ M) (hlen : sample.length = 2 * M) (st : CppAudioEngine α)
    (hs : st.samples_ pad = some sample)
    (hv : st.voices_ ++ st.pending_voices_ =
      (if T - k ≤ M then [voiceAt pad v r d k M T] else [])) (N : Nat) :
    voiceStage st N =
      some ({ st with
                voices_ := if T + N - k ≤ M then [voiceAt pad v r d k M (T + N)] else []
                pending_voices_ := [] },
            accumBuses sample (voiceAt pad v r d k M T) (k - T)
              (min (N - (k - T)) (M - (T - k))) zeroBuses) := by
  unfold voiceStage
  rw [drainPending_eq]
  simp only [hv]
  by_cases hact : T - k ≤ M
  · simp only [hact, if_true, voiceLoop]
    rw [renderVoice_voiceAt sample M hM hlen st.samples_ pad hs]
    simp only [List.filter_cons, List.filter_nil]
    refine congrArg some (Prod.ext ?_ rfl)
    by_cases h2 : T + N - k ≤ M
    · simp [voiceAt, h2]
    · simp [voiceAt, h2]
  · have h2 : ¬ (T + N - k ≤ M) := by omega
    have h3 : min (N - (k - T)) (M - (T - k)) = 0 := by omega
    simp only [hact, h2, h3, if_false, voiceLoop, accumBuses_zero, List.filter_nil]

theorem mixStage_pred (P : α → Prop) (st st2 : CppAudioEngine α) (b : Buses α) (n : Nat)
    (hvs : voiceStage st n = some (st2, b)) (hok : LinesOK st2)
    (hPd : ∀ x ∈ st2.delay_buffer_, P x) (hPr : ∀ x ∈ st2.reverb_buffer_, P x)
    (hind : ∀ j, j < n → ∀ x, P x →
      P (b.dly_l j + x * st2.delay_feedback_) ∧ P (b.dly_r j + x * st2.delay_feedback_))
    (hinr : ∀ j, j < n → ∀ x, P x →
      P (b.rev_l j + x * st2.reverb_feedback_) ∧ P (b.rev_r j + x * st2.reverb_feedback_)) :
    ∃ (dbuf : List α) (dpos : Int) (rbuf : List α) (rpos : Int) (dl dr rl rr : Nat → α),
      mixStage st n =
        some ({ st2 with delay_buffer_ := dbuf, delay_write_pos_ := dpos,
                         reverb_buffer_ := rbuf, reverb_write_pos_ := rpos },
              addRange (addRange b.mix_l 0 n dl) 0 n (fun s => rl s * 0.5),
              addRange (addRange b.mix_r 0 n dr) 0 n (fun s => rr s * 0.5)) ∧
      LineOK st2.delay_len_ st2.delay_time_samples_ dbuf dpos ∧
      LineOK st2.reverb_len_ (toInt ((st2.sample_rate_ : α) * 0.1)) rbuf rpos ∧
      (∀ x ∈ dbuf, P x) ∧ (∀ x ∈ rbuf, P x) ∧
      (∀ s, s < n → P (dl s) ∧ P (dr s) ∧ P (rl s) ∧ P (rr s)) := by
  obtain ⟨hd, hr⟩ := hok
  obtain ⟨dbuf, dpos, dl, dr, hdrun, hdok, hdP, hdw⟩ :=
    effectLoop_pred st2.delay_len_ st2.delay_time_samples_ st2.delay_feedback_ (fun d => d)
      b.dly_l b.dly_r P n 0 st2.delay_buffer_ st2.delay_write_pos_ b.mix_l b.mix_r hd hPd
      (fun j _ hj => hind j (by omega))
  obtain ⟨rbuf, rpos, rl, rr, hrrun, hrok, hrP, hrw⟩ :=
    effectLoop_pred st2.reverb_len_ (toInt ((st2.sample_rate_ : α) * 0.1))
      st2.reverb_feedback_ (fun x => x * 0.5) b.rev_l b.rev_r P n 0 st2.reverb_buffer_
      st2.reverb_write_pos_ (addRange b.mix_l 0 n (fun s => dl s))
      (addRange b.mix_r 0 n (fun s => dr s)) hr hPr (fun j _ hj => hinr j (by omega))
  refine ⟨dbuf, dpos, rbuf, rpos, dl, dr, rl, rr, ?_, hdok, hrok, hdP, hrP,
    fun s hs => ⟨(hdw s hs).1, (hdw s hs).2, (hrw s hs).1, (hrw s hs).2⟩⟩
  unfold mixStage
  simp only [hvs, hdrun, hrrun]

theorem process_eq (tanh : α → α) (st : CppAudioEngine α) (frames : Nat) :
    process tanh st frames =
      (mixStage st (safeFrames frames)).map (fun r =>
        (r.1, writeOut tanh r.2.1 r.2.2 (safeFrames frames) 0
          (List.replicate (frames * 2) 0))) := by
  rcases h : mixStage st (safeFrames frames) with _ | ⟨st1, mix_l, mix_r⟩ <;>
    simp [process, h]

theorem process_solo (tanh : α → α) (pad : Int) (sample : List α) (v r d : α) (k M T : Nat)
    (hM : 1 ≤ M) (hlen : sample.length = 2 * M) (st : CppAudioEngine α)
    (hinv : SoloInv pad sample v r d k M T st) (N : Nat) :
    ∃ st1 out, process tanh st N = some (st1, out) ∧
      SoloInv pad sample v r d k M (T + safeFrames N) st1 ∧
      st1.voices_ = (if T + safeFrames N - k ≤ M
        then [voiceAt pad v r d k M (T + safeFrames N)] else []) := by
  have hvs := voiceStage_solo pad sample v r d k M T hM hlen st hinv.1 hinv.2.1 (safeFrames N)
  obtain ⟨dbuf, dpos, rbuf, rpos, dl, dr, rl, rr, hmix, hdok, hrok, _⟩ :=
    mixStage_pred (fun _ => True) st _ _ (safeFrames N) hvs hinv.2.2
      (fun _ _ => trivial) (fun _ _ => trivial) (fun _ _ _ _ => ⟨trivial, trivial⟩)
      (fun _ _ _ _ => ⟨trivial, trivial⟩)
  refine ⟨_, _, by rw [process_eq, hmix]; rfl, ?_, rfl⟩
  exact ⟨hinv.1, by simp, hdok, hrok⟩

theorem processBlocks_solo (tanh : α → α) (pad : Int) (sample : List α) (v r d : α)
    (k M : Nat) (hM : 1 ≤ M) (hlen : sample.length = 2 * M) (N : Nat) :
    ∀ (b T : Nat) (st : CppAudioEngine α), SoloInv pad sample v r d k M T st →
      ∃ st1, processBlocks tanh N b st = some st1 ∧
        SoloInv pad sample v r d k M (T + b * safeFrames N) st1 ∧
        (1 ≤ b → st1.voices_ = (if T + b * safeFrames N - k ≤ M
          then [voiceAt pad v r d k M (T + b * safeFrames N)] else [])) := by
  intro b
  induction b with
  | zero =>
    intro T st hinv
    exact ⟨st, rfl, by simpa using hinv, fun h => absurd h (by omega)⟩
  | succ b ih =>
    intro T st hinv
    obtain ⟨st1, out, hp, hinv1, hv1⟩ :=
      process_solo tanh pad sample v r d k M T hM hlen st hinv N
    obtain ⟨st2, hb, hinv2, hv2⟩ := ih (T + safeFrames N) st1 hinv1
    have e : T + safeFrames N + b * safeFrames N = T + (b + 1) * safeFrames N := by ring
    refine ⟨st2, by simp only [processBlocks, hp, hb], by rw [← e]; exact hinv2, fun _ => ?_⟩
    rw [← e]
    by_cases hb0 : 1 ≤ b
    · exact hv2 hb0
    · have hb1 : b = 0 := by omega
      subst hb1
      simp only [processBlocks] at hb
      cases hb
      simpa using hv1


/-! ## Construction and trigger -/

theorem toInt_of_nonneg (x : α) (hx : 0 ≤ x) : toInt x = Int.floor x := by
  simp [toInt, hx]

theorem toInt_natCast (k : Nat) : toInt (k : α) = (k : Int) := by
  rw [toInt_of_nonneg _ (Nat.cast_nonneg k)]
  exact Int.floor_natCast k

theorem toInt_bounds (x : α) (n : Int) (hx : 0 ≤ x) (hn : x ≤ (n : α)) :
    0 ≤ toInt x ∧ toInt x ≤ n := by
  rw [toInt_of_nonneg x hx]
  refine ⟨Int.floor_nonneg.mpr hx, ?_⟩
  have h := Int.floor_le x
  have h2 : ((Int.floor x : Int) : α) ≤ (n : α) := le_trans h hn
  exact_mod_cast h2

/-! ## Binary32 rounding -/

theorem roundHalfEven_eq (y : α) (n : Int) (h1 : (n : α) - 1 / 2 < y)
    (h2 : y < (n : α) + 1 / 2) : roundHalfEven y = n := by
  unfold roundHalfEven
  rcases le_or_lt (n : α) y with h | h
  · have hf : Int.floor y = n := by
      rw [Int.floor_eq_iff]
      exact ⟨h, by linarith⟩
    simp only [hf]
    rw [if_pos (by linarith)]
  · have hf : Int.floor y = n - 1 := by
      rw [Int.floor_eq_iff]
      push_cast
      exact ⟨by linarith, by linarith⟩
    simp only [hf]
    push_cast
    rw [if_neg (by linarith), if_pos (by linarith)]
    omega

theorem roundHalfEven_intCast (n : Int) : roundHalfEven (n : α) = n :=
  roundHalfEven_eq _ n (by linarith) (by linarith)

theorem roundHalfEven_nonneg (y : α) (hy : 0 ≤ y) : 0 ≤ roundHalfEven y := by
  unfold roundHalfEven
  have h := Int.floor_nonneg.mpr hy
  simp only
  split_ifs <;> omega

theorem roundF32_zero : roundF32 (0 : α) = 0 := by
  have h : roundHalfEven (0 : α) = 0 := by
    have h0 : roundHalfEven (((0 : Int) : α)) = 0 := roundHalfEven_intCast 0
    simpa using h0
  unfold roundF32
  simp only [zero_div]
  rw [h]
  simp

theorem log2_eq (x : α) (e : Int) (hlo : (2 : α) ^ e ≤ x) (hhi : x < (2 : α) ^ (e + 1)) :
    Int.log 2 x = e := by
  have hpos : (0 : α) < x := lt_of_lt_of_le (zpow_pos (by norm_num) e) hlo
  have h1 : e ≤ Int.log 2 x := by
    rw [← Int.zpow_le_iff_le_log (by norm_num) hpos]
    simpa using hlo
  have h2 : Int.log 2 x < e + 1 := by
    rw [← Int.lt_zpow_iff_log_lt (by norm_num) hpos]
    simpa using hhi
  omega

theorem roundF32_eq (x : α) (e : Int) (he : -126 ≤ e) (hlo : (2 : α) ^ e ≤ |x|)
    (hhi : |x| < (2 : α) ^ (e + 1)) :
    roundF32 x = (roundHalfEven (x / 2 ^ (e - 23)) : α) * 2 ^ (e - 23) := by
  unfold roundF32
  simp only [log2_eq |x| e hlo hhi, max_eq_left he]

theorem roundF32_nonneg (x : α) (hx : 0 ≤ x) : 0 ≤ roundF32 x := by
  unfold roundF32
  simp only
  have hq : (0 : α) < 2 ^ (max (Int.log 2 |x|) (-126) - 23) := zpow_pos (by norm_num) _
  have h := roundHalfEven_nonneg (x / 2 ^ (max (Int.log 2 |x|) (-126) - 23))
    (div_nonneg hx (le_of_lt hq))
  exact mul_nonneg (by exact_mod_cast h) (le_of_lt hq)

theorem toInt32_of_range (x : α) (h0 : 0 ≤ x) (h1 : x < 2 ^ 31) :
    toInt32 x = Int.floor x := by
  unfold toInt32
  rw [toInt_of_nonneg x h0]
  have a : 0 ≤ Int.floor x := Int.floor_nonneg.mpr h0
  have b : Int.floor x < 2 ^ 31 := by
    rw [Int.floor_lt]
    exact_mod_cast h1
  rw [if_pos ⟨by unfold INT_MIN; omega, b⟩]

theorem toInt32_roundF32_zero : toInt32 (roundF32 (0 : α)) = 0 := by
  rw [roundF32_zero, toInt32_of_range _ (le_refl 0) (by norm_num)]
  simp

theorem startDelay_zero (x : α) : toInt32 (roundF32 ((0 : α) * x)) = ((0 : Nat) : Int) := by
  rw [zero_mul, roundF32_zero, toInt32_of_range _ (le_refl 0) (by norm_num)]
  simp

theorem roundF32_exact (n e : Int) (he : -126 ≤ e) (hn1 : 2 ^ 23 ≤ n) (hn2 : n < 2 ^ 24) :
    roundF32 ((n : α) * 2 ^ (e - 23)) = (n : α) * 2 ^ (e - 23) := by
  have hq : (0 : α) < 2 ^ (e - 23) := zpow_pos (by norm_num) _
  have hnpos : (0 : α) < (n : α) := by exact_mod_cast (by omega : (0 : Int) < n)
  have hx : |(n : α) * 2 ^ (e - 23)| = (n : α) * 2 ^ (e - 23) :=
    abs_of_pos (mul_pos hnpos hq)
  have e1 : (2 : α) ^ e = 2 ^ (23 : Int) * 2 ^ (e - 23) := by
    rw [← zpow_add₀ (by norm_num : (2 : α) ≠ 0)]
    congr 1
    omega
  have e2 : (2 : α) ^ (e + 1) = 2 ^ (24 : Int) * 2 ^ (e - 23) := by
    rw [← zpow_add₀ (by norm_num : (2 : α) ≠ 0)]
    congr 1
    omega
  rw [roundF32_eq _ e he, mul_div_assoc, div_self (ne_of_gt hq), mul_one,
    roundHalfEven_intCast]
  · rw [hx, e1]
    apply mul_le_mul_of_nonneg_right _ (le_of_lt hq)
    have : ((2 ^ 23 : Int) : α) ≤ (n : α) := by exact_mod_cast hn1
    norm_num at this ⊢
    exact this
  · rw [hx, e2]
    apply mul_lt_mul_of_pos_right _ hq
    have : (n : α) < ((2 ^ 24 : Int) : α) := by exact_mod_cast hn2
    norm_num at this ⊢
    exact this

theorem new_linesOK (sample_rate : Int) (hsr : 1 ≤ sample_rate) :
    LinesOK (new sample_rate : CppAudioEngine α) := by
  have hpos : (0 : α) ≤ (sample_rate : α) := by
    exact_mod_cast (by omega : (0 : Int) ≤ sample_rate)
  have h1 : (0 : α) ≤ (sample_rate : α) * 0.375 := mul_nonneg hpos (by norm_num)
  have h2 : (sample_rate : α) * 0.375 ≤ ((sample_rate * 2 : Int) : α) := by
    push_cast
    nlinarith
  have h3 : (0 : α) ≤ (sample_rate : α) * 0.1 := mul_nonneg hpos (by norm_num)
  have h4 : (sample_rate : α) * 0.1 ≤ ((sample_rate * 3 : Int) : α) := by
    push_cast
    nlinarith
  obtain ⟨a1, a2⟩ := toInt_bounds _ _ h1 h2
  obtain ⟨b1, b2⟩ := toInt_bounds _ _ h3 h4
  refine ⟨⟨?_, a1, a2, ?_, ?_, ?_⟩, ⟨?_, b1, b2, ?_, ?_, ?_⟩⟩ <;>
    simp only [new, List.length_replicate] <;> omega

theorem play_sound_registered (st : CppAudioEngine α) (pad : Int) (s : List α)
    (hs : st.samples_ pad = some s) (v r d off : α) :
    play_sound st pad v r d off =
      { st with
        pending_voices_ := st.pending_voices_ ++
          [{ pad_id := pad, pos := 0, velocity := v, reverb_send := r, delay_send := d,
             active := true,
             start_delay_frames :=
               toInt32 (roundF32 (off * roundF32 (st.sample_rate_ : α))) }] } := by
  simp [play_sound, hs]

theorem play_sound_appends_state (st : CppAudioEngine α) (pad : Int) (v r d off : α) :
    (play_sound st pad v r d off).voices_ = st.voices_ ∧
    (play_sound st pad v r d off).samples_ = st.samples_ := by
  unfold play_sound
  split <;> exact ⟨rfl, rfl⟩

theorem voiceAt_zero (pad : Int) (v r d : α) (k M : Nat) :
    voiceAt pad v r d k M 0 =
      { pad_id := pad, pos := 0, velocity := v, reverb_send := r, delay_send := d,
        active := true, start_delay_frames := (k : Int) } := by
  simp [voiceAt]

theorem toInt_frames (k : Nat) (sample_rate : Int) (hsr : 1 ≤ sample_rate) :
    toInt ((k : α) / (sample_rate : α) * (sample_rate : α)) = (k : Int) := by
  have hne : (sample_rate : α) ≠ 0 := by
    have : (0 : α) < (sample_rate : α) := by exact_mod_cast (by omega : (0 : Int) < sample_rate)
    exact ne_of_gt this
  rw [div_mul_cancel₀ _ hne]
  exact toInt_natCast k

theorem soloInv_trigger (sample_rate : Int) (hsr : 1 ≤ sample_rate) (pad : Int)
    (s : List α) (v r d off : α) (k M : Nat)
    (hk : toInt32 (roundF32 (off * roundF32 (sample_rate : α))) = (k : Int)) :
    SoloInv pad s v r d k M 0
      (play_sound (load_sample (new sample_rate) pad s) pad v r d off) := by
  have hs : (load_sample (new sample_rate : CppAudioEngine α) pad s).samples_ pad = some s := by
    simp [load_sample]
  rw [play_sound_registered _ pad s hs]
  refine ⟨hs, ?_, new_linesOK sample_rate hsr⟩
  have e : (load_sample (new sample_rate : CppAudioEngine α) pad s).sample_rate_
      = sample_rate := rfl
  simp only [e, hk, voiceAt_zero]
  simp [load_sample, new]


/-! ## The written output in terms of the final mix -/

theorem safeFrames_le (frames : Nat) : safeFrames frames ≤ frames := by
  unfold safeFrames MAX_BLOCK
  split_ifs <;> omega

theorem safeFrames_of_le (frames : Nat) (h : frames ≤ 1024) : safeFrames frames = frames := by
  unfold safeFrames MAX_BLOCK
  split_ifs <;> omega

theorem process_out (tanh : α → α) (st st1 : CppAudioEngine α) (mix_l mix_r : Nat → α)
    (frames : Nat) (h : mixStage st (safeFrames frames) = some (st1, mix_l, mix_r)) :
    ∃ out, process tanh st frames = some (st1, out) ∧ out.length = frames * 2 ∧
      (∀ i, i < safeFrames frames →
        out[2 * i]? = some (tanh (mix_l i)) ∧ out[2 * i + 1]? = some (tanh (mix_r i))) ∧
      (∀ j, 2 * safeFrames frames ≤ j → j < frames * 2 → out[j]? = some 0) := by
  have hle := safeFrames_le frames
  refine ⟨_, by rw [process_eq, h]; rfl, ?_, ?_, ?_⟩
  · simp only [writeOut_length, List.length_replicate]
  · intro i hi
    simp only [writeOut_getElem?, List.length_replicate]
    have h1 : 2 * 0 ≤ 2 * i ∧ 2 * i < 2 * (0 + safeFrames frames) ∧ 2 * i < frames * 2 := by
      omega
    have h2 : 2 * 0 ≤ 2 * i + 1 ∧ 2 * i + 1 < 2 * (0 + safeFrames frames) ∧
        2 * i + 1 < frames * 2 := by omega
    have h3 : 2 * i % 2 = 0 := by omega
    have h4 : ¬ ((2 * i + 1) % 2 = 0) := by omega
    have h5 : 2 * i / 2 = i := by omega
    have h6 : (2 * i + 1) / 2 = i := by omega
    simp only [h1, h2, h3, h4, h5, h6, if_true, if_false, and_self]
  · intro j hj1 hj2
    simp only [writeOut_getElem?, List.length_replicate]
    have h1 : ¬ (2 * 0 ≤ j ∧ j < 2 * (0 + safeFrames frames) ∧ j < frames * 2) := by omega
    simp only [h1, if_false]
    rw [List.getElem?_eq_getElem (by simpa using hj2)]
    simp


/-! ## Faults -/

theorem renderLoop_empty (n i : Nat) (voice : Voice α) (b : Buses α)
    (hpos : voice.pos < SIZE_MAX) :
    renderLoop ([] : List α) (n + 1) i voice b = none := by
  have h : ¬ (voice.pos ≥ SIZE_MAX) := by omega
  simp [renderLoop, h]

theorem renderVoice_empty_fault (N : Nat) (voice : Voice α)
    (samples : Int → Option (List α)) (b : Buses α) (hact : voice.active = true)
    (hN : 1 ≤ N) (hnow : voice.start_delay_frames < (N : Int)) (hpos : voice.pos < SIZE_MAX)
    (hs : (samples voice.pad_id).getD [] = []) :
    renderVoice N voice samples b = none := by
  have h1 : ¬ (voice.start_delay_frames > 0 ∧ voice.start_delay_frames ≥ (N : Int)) := by
    omega
  unfold renderVoice
  simp only [hact, h1, hs, Bool.not_true, Bool.false_eq_true, if_false]
  by_cases h2 : voice.start_delay_frames > 0
  · simp only [h2, if_true]
    obtain ⟨m, hm⟩ : ∃ m, N - voice.start_delay_frames.toNat = m + 1 :=
      ⟨N - voice.start_delay_frames.toNat - 1, by omega⟩
    rw [hm, renderLoop_empty]
    · rfl
    · exact hpos
  · simp only [h2, if_false]
    obtain ⟨m, hm⟩ : ∃ m, N - 0 = m + 1 := ⟨N - 1, by omega⟩
    rw [hm, renderLoop_empty]
    · rfl
    · exact hpos

theorem safeFrames_pos (frames : Nat) (h : 1 ≤ frames) : 1 ≤ safeFrames frames := by
  unfold safeFrames MAX_BLOCK
  split_ifs <;> omega

theorem process_fault_of_render (tanh : α → α) (st : CppAudioEngine α) (frames : Nat)
    (voice : Voice α) (hv : st.voices_ ++ st.pending_voices_ = [voice])
    (h : renderVoice (safeFrames frames) voice st.samples_ zeroBuses = none) :
    process tanh st frames = none := by
  rw [process_eq]
  unfold mixStage voiceStage
  rw [drainPending_eq]
  simp only [hv, voiceLoop, h, Option.map_none']

theorem empty_sample_fault (tanh : α → α) (sample_rate : Int) (pad : Int) (v r d : α)
    (N : Nat) (hN : 1 ≤ N) :
    process tanh (play_sound (load_sample (new sample_rate) pad []) pad v r d 0) N
      = none := by
  have hs : (load_sample (new sample_rate : CppAudioEngine α) pad []).samples_ pad
      = some [] := by simp [load_sample]
  rw [play_sound_registered _ pad [] hs]
  refine process_fault_of_render tanh _ N _ rfl ?_
  have hp := safeFrames_pos N hN
  refine renderVoice_empty_fault _ _ _ _ rfl hp ?_ (by simp [SIZE_MAX]) (by simp [hs])
  simp only [startDelay_zero]
  omega

theorem reload_empty_fault (tanh : α → α) (sample_rate : Int) (pad : Int) (s : List α)
    (v r d : α) (N : Nat) (hN : 1 ≤ N) :
    process tanh
      (load_sample (play_sound (load_sample (new sample_rate) pad s) pad v r d 0) pad []) N
      = none := by
  have hs : (load_sample (new sample_rate : CppAudioEngine α) pad s).samples_ pad
      = some s := by simp [load_sample]
  rw [play_sound_registered _ pad s hs]
  refine process_fault_of_render tanh _ N _ rfl ?_
  have hp := safeFrames_pos N hN
  refine renderVoice_empty_fault _ _ _ _ rfl hp ?_ (by simp [SIZE_MAX]) (by simp [load_sample])
  simp only [startDelay_zero]
  omega

theorem effectLoop_zero_len (tap : Int) (g : α) (wet : α → α) (in_l in_r : Nat → α)
    (n i : Nat) (buf : List α) (w : Int) (mix_l mix_r : Nat → α) :
    effectLoop 0 tap g wet in_l in_r (n + 1) i buf w mix_l mix_r = none := by
  simp [effectLoop, lineStep]

theorem zero_rate_fault (tanh : α → α) (pad : Int) (s : List α) (M : Nat) (hM : 1 ≤ M)
    (hlen : s.length = 2 * M) (v r d : α) (N : Nat) (hN : 1 ≤ N) :
    process tanh (play_sound (load_sample (new 0) pad s) pad v r d 0) N = none := by
  have hs : (load_sample (new 0 : CppAudioEngine α) pad s).samples_ pad = some s := by
    simp [load_sample]
  have hvs := voiceStage_solo pad s v r d 0 M 0 hM hlen
    (play_sound (load_sample (new 0) pad s) pad v r d 0)
    (by rw [play_sound_registered _ pad s hs]; exact hs)
    (by
      rw [play_sound_registered _ pad s hs]
      simp [voiceAt, load_sample, new, toInt32_roundF32_zero])
    (safeFrames N)
  obtain ⟨m, hm⟩ : ∃ m, safeFrames N = m + 1 :=
    ⟨safeFrames N - 1, by have := safeFrames_pos N hN; omega⟩
  rw [process_eq]
  unfold mixStage
  rw [hvs]
  have e : (play_sound (load_sample (new 0 : CppAudioEngine α) pad s) pad v r d 0).delay_len_
      = 0 := by
    rw [play_sound_registered _ pad s hs]
    simp [load_sample, new]
  simp only [e, hm, effectLoop_zero_len, Option.map_none']


/-! ## The contribution of a triggered voice, frame by frame -/

theorem accumBuses_voiceAt (s : List α) (pad : Int) (v r d : α) (k M T N : Nat)
    (b : Buses α) (i : Nat) :
    let b1 := accumBuses s (voiceAt pad v r d k M T) (k - T)
      (min (N - (k - T)) (M - (T - k))) b
    (b1.mix_l i = if i < N ∧ k ≤ T + i ∧ T + i - k < M
        then b.mix_l i + v * s.getD (2 * (T + i - k)) 0 else b.mix_l i) ∧
    (b1.mix_r i = if i < N ∧ k ≤ T + i ∧ T + i - k < M
        then b.mix_r i + v * s.getD (2 * (T + i - k) + 1) 0 else b.mix_r i) ∧
    (b1.rev_l i = if i < N ∧ k ≤ T + i ∧ T + i - k < M
        then b.rev_l i + v * r * s.getD (2 * (T + i - k)) 0 else b.rev_l i) ∧
    (b1.rev_r i = if i < N ∧ k ≤ T + i ∧ T + i - k < M
        then b.rev_r i + v * r * s.getD (2 * (T + i - k) + 1) 0 else b.rev_r i) ∧
    (b1.dly_l i = if i < N ∧ k ≤ T + i ∧ T + i - k < M
        then b.dly_l i + v * d * s.getD (2 * (T + i - k)) 0 else b.dly_l i) ∧
    (b1.dly_r i = if i < N ∧ k ≤ T + i ∧ T + i - k < M
        then b.dly_r i + v * d * s.getD (2 * (T + i - k) + 1) 0 else b.dly_r i) := by
  intro b1
  by_cases h : i < N ∧ k ≤ T + i ∧ T + i - k < M
  · have h1 : k - T ≤ i ∧ i < k - T + min (N - (k - T)) (M - (T - k)) := by omega
    have e : 2 * min (T - k) M + 2 * (i - (k - T)) = 2 * (T + i - k) := by omega
    simp only [b1, accumBuses, addRange, voiceAt, h, h1, e, and_self, if_true]
    refine ⟨by ring, by ring, by ring, by ring, by ring, by ring⟩
  · have h1 : ¬ (k - T ≤ i ∧ i < k - T + min (N - (k - T)) (M - (T - k))) := by omega
    simp only [b1, accumBuses, addRange, h, h1, if_false, and_self]

theorem solo_run (tanh : α → α) (sample_rate : Int) (hsr : 1 ≤ sample_rate) (pad : Int)
    (s : List α) (M : Nat) (hM : 1 ≤ M) (hs : s.length = 2 * M) (v r d off : α) (k : Nat)
    (hk : toInt32 (roundF32 (off * roundF32 (sample_rate : α))) = (k : Int))
    (N : Nat) (hN : N ≤ 1024) (b : Nat) :
    ∃ st, processBlocks tanh N b
        (play_sound (load_sample (new sample_rate) pad s) pad v r d off) = some st ∧
      st.voices_ ++ st.pending_voices_ =
        (if b * N - k ≤ M then [voiceAt pad v r d k M (b * N)] else []) ∧
      (1 ≤ b → st.pending_voices_ = []) ∧
      ∃ st1, voiceStage st (safeFrames N) =
        some (st1, accumBuses s (voiceAt pad v r d k M (b * N)) (k - b * N)
          (min (N - (k - b * N)) (M - (b * N - k))) zeroBuses) := by
  have hinv := soloInv_trigger sample_rate hsr pad s v r d off k M hk
  obtain ⟨st, hrun, hinv1, hv1⟩ :=
    processBlocks_solo tanh pad s v r d k M hM hs N b 0 _ hinv
  have hsf := safeFrames_of_le N hN
  rw [hsf, Nat.zero_add] at hinv1 hv1
  have hvs := voiceStage_solo pad s v r d k M (b * N) hM hs st hinv1.1 hinv1.2.1 N
  rw [hsf]
  refine ⟨st, hrun, hinv1.2.1, fun hb => ?_, _, hvs⟩
  have h1 := hinv1.2.1
  rw [hv1 hb] at h1
  by_cases h2 : b * N - k ≤ M
  · simp only [h2, if_true] at h1
    simpa using h1
  · simp only [h2, if_false] at h1
    simpa using h1


theorem ceil_div_of_not_dvd (M N : Nat) (hN : 1 ≤ N) (h : ¬ N ∣ M) :
    M < (M + N - 1) / N * N := by
  have h1 : M % N ≠ 0 := fun h0 => h (Nat.dvd_of_mod_eq_zero h0)
  have h2 : M % N < N := Nat.mod_lt M (by omega)
  have h3 := Nat.div_add_mod M N
  have h4 : M + N - 1 = (M % N - 1) + N * (M / N + 1) := by
    rw [Nat.mul_add, Nat.mul_one]
    omega
  have h5 : (M + N - 1) / N = M / N + 1 := by
    rw [h4, Nat.add_mul_div_left _ _ (by omega : 0 < N), Nat.div_eq_of_lt (by omega)]
    omega
  rw [h5, Nat.add_mul, Nat.one_mul, Nat.mul_comm]
  omega

theorem ceil_div_of_dvd (M N : Nat) (hN : 1 ≤ N) (h : N ∣ M) :
    (M + N - 1) / N * N = M := by
  obtain ⟨q, rfl⟩ := h
  have h4 : N * q + N - 1 = (N - 1) + N * q := by omega
  rw [h4, Nat.add_mul_div_left _ _ (by omega : 0 < N), Nat.div_eq_of_lt (by omega)]
  rw [Nat.zero_add, Nat.mul_comm]

/-! ## Claims about voice completion and start offsets -/

/-- C2 (amended): after `b` process calls of `N` frames the voice triggered with
offset 0 on a sample of `M ≥ 1` frame pairs is still in the voice list exactly
when `b * N ≤ M`.  Hence it is removed after `ceil (M / N)` calls when `N` does
not divide `M`; when `N` divides `M` it is still listed (cursor at the end of
the sample) after `ceil (M / N) = M / N` calls and is removed by the next
call. -/
theorem voice_removed_when_found_finished (tanh : α → α) (sample_rate : Int)
    (hsr : 1 ≤ sample_rate) (pad : Int) (s : List α) (M : Nat) (hM : 1 ≤ M)
    (hs : s.length = 2 * M) (v r d : α) (N : Nat) (hN1 : 1 ≤ N) (hN : N ≤ 1024) :
    (∀ b, ∃ st, processBlocks tanh N b
        (play_sound (load_sample (new sample_rate) pad s) pad v r d 0) = some st ∧
      st.voices_ ++ st.pending_voices_ =
        (if b * N ≤ M then [voiceAt pad v r d 0 M (b * N)] else []) ∧
      (1 ≤ b → st.pending_voices_ = [])) ∧
    (¬ N ∣ M → ∃ st, processBlocks tanh N ((M + N - 1) / N)
        (play_sound (load_sample (new sample_rate) pad s) pad v r d 0) = some st ∧
      st.voices_ = [] ∧ st.pending_voices_ = []) ∧
    (N ∣ M → (∃ st, processBlocks tanh N ((M + N - 1) / N)
        (play_sound (load_sample (new sample_rate) pad s) pad v r d 0) = some st ∧
      st.voices_ = [{ pad_id := pad, pos := 2 * M, velocity := v, reverb_send := r,
                      delay_send := d, active := true, start_delay_frames := 0 }]) ∧
      ∃ st, processBlocks tanh N ((M + N - 1) / N + 1)
        (play_sound (load_sample (new sample_rate) pad s) pad v r d 0) = some st ∧
      st.voices_ = [] ∧ st.pending_voices_ = []) := by
  have hk := startDelay_zero (roundF32 (sample_rate : α))
  have run := solo_run tanh sample_rate hsr pad s M hM hs v r d 0 0 hk N hN
  have gone : ∀ b, M < b * N → ∃ st, processBlocks tanh N b
      (play_sound (load_sample (new sample_rate) pad s) pad v r d 0) = some st ∧
      st.voices_ = [] ∧ st.pending_voices_ = [] := by
    intro b hb
    obtain ⟨st, h1, h2, -, -⟩ := run b
    have h3 : ¬ (b * N - 0 ≤ M) := by omega
    simp only [h3, if_false, List.append_eq_nil] at h2
    exact ⟨st, h1, h2⟩
  refine ⟨fun b => ?_, fun hnd => gone _ (ceil_div_of_not_dvd M N hN1 hnd),
    fun hd => ⟨?_, ?_⟩⟩
  · obtain ⟨st, h1, h2, h3, -⟩ := run b
    exact ⟨st, h1, by simpa using h2, h3⟩
  · have hc := ceil_div_of_dvd M N hN1 hd
    obtain ⟨st, h1, h2, h3, -⟩ := run ((M + N - 1) / N)
    have hb : 1 ≤ (M + N - 1) / N := by
      rcases Nat.eq_zero_or_pos ((M + N - 1) / N) with h0 | h0
      · rw [h0] at hc
        omega
      · exact h0
    refine ⟨st, h1, ?_⟩
    rw [h3 hb, List.append_nil, hc] at h2
    simpa [voiceAt] using h2
  · have hc := ceil_div_of_dvd M N hN1 hd
    refine gone _ ?_
    rw [Nat.add_mul, hc]
    omega

/-- C2 (counterexample): with `M = 4` frame pairs and blocks of `N = 4` frames,
after `ceil (4 / 4) = 1` process call the voice is still in the active voice
list, active, with its cursor at the end of the sample. -/
theorem voice_still_listed_when_block_divides :
    ∃ st, processBlocks Real.tanh 4 ((4 + 4 - 1) / 4)
        (play_sound (load_sample (new 44100) 0 [1, 1, 1 / 2, 1 / 2, 0, 0, -1 / 2, -1 / 2])
          0 1 0 0 0) = some st ∧
      st.voices_ = [{ pad_id := 0, pos := 8, velocity := 1, reverb_send := 0,
                      delay_send := 0, active := true, start_delay_frames := 0 }] := by
  have hk := startDelay_zero (roundF32 ((44100 : Int) : ℝ))
  obtain ⟨st, h1, h2, h3, -⟩ := solo_run Real.tanh 44100 (by decide) 0
    [1, 1, 1 / 2, 1 / 2, 0, 0, -1 / 2, -1 / 2] 4 (by decide) rfl 1 0 0 0 0 hk 4 (by decide) 1
  refine ⟨st, h1, ?_⟩
  rw [h3 (le_refl 1), List.append_nil] at h2
  simpa [voiceAt] using h2

/-- C2 (witness): sample rate 44100, the four-frame sample, blocks of 3 frames. -/
theorem voice_removed_when_found_finished_witness :
    ((1 : Int) ≤ 44100 ∧ 1 ≤ 4 ∧
      ([1, 1, 1 / 2, 1 / 2, 0, 0, -1 / 2, -1 / 2] : List ℝ).length = 2 * 4 ∧
      1 ≤ 3 ∧ 3 ≤ 1024 ∧ ¬ 3 ∣ 4) ∧
    ∃ st, processBlocks Real.tanh 3 ((4 + 3 - 1) / 3)
        (play_sound (load_sample (new 44100) 0 [1, 1, 1 / 2, 1 / 2, 0, 0, -1 / 2, -1 / 2])
          0 1 0 0 0) = some st ∧
      st.voices_ = [] ∧ st.pending_voices_ = [] :=
  ⟨⟨by decide, by decide, rfl, by decide, by decide, by decide⟩,
   (voice_removed_when_found_finished Real.tanh 44100 (by decide) 0
      [1, 1, 1 / 2, 1 / 2, 0, 0, -1 / 2, -1 / 2] 4 (by decide) rfl 1 0 0 3 (by decide)
      (by decide)).2.1 (by decide)⟩


/-- C3: a voice triggered with start offset 0 on a sample of `M ≥ 1` frame pairs
is `voiceAt … 0` (first part); in the block that starts at global frame `b * N`
the voice loop body takes it from `voiceAt … (b * N)` to `voiceAt … ((b+1) * N)`
and adds to whatever is on the dry bus exactly `(v * s[2j], v * s[2j+1])` at
every block index `i` whose global frame `j = b * N + i` is below `M`, and
nothing anywhere else (second part); and in a run of a freshly constructed
engine the dry bus of block `b` holds exactly these values (third part). -/
theorem voice_completion_frame_count (tanh : α → α) (pad : Int) (s : List α) (M : Nat)
    (hM : 1 ≤ M) (hs : s.length = 2 * M) (v r d : α) (N : Nat) (hN : N ≤ 1024) (b : Nat) :
    (∀ st : CppAudioEngine α, st.samples_ pad = some s →
      (play_sound st pad v r d 0).pending_voices_ =
        st.pending_voices_ ++ [voiceAt pad v r d 0 M 0]) ∧
    (∀ (samples : Int → Option (List α)) (bus : Buses α), samples pad = some s →
      ∃ bus1, renderVoice (safeFrames N) (voiceAt pad v r d 0 M (b * N)) samples bus =
          some (voiceAt pad v r d 0 M ((b + 1) * N), samples, bus1) ∧
        ∀ i,
          bus1.mix_l i = (if i < N ∧ b * N + i < M
            then bus.mix_l i + v * s.getD (2 * (b * N + i)) 0 else bus.mix_l i) ∧
          bus1.mix_r i = (if i < N ∧ b * N + i < M
            then bus.mix_r i + v * s.getD (2 * (b * N + i) + 1) 0 else bus.mix_r i)) ∧
    (∀ sample_rate : Int, 1 ≤ sample_rate →
      ∃ st st1 bus, processBlocks tanh N b
          (play_sound (load_sample (new sample_rate) pad s) pad v r d 0) = some st ∧
        voiceStage st (safeFrames N) = some (st1, bus) ∧
        ∀ i, i < N →
          bus.mix_l i = (if b * N + i < M then v * s.getD (2 * (b * N + i)) 0 else 0) ∧
          bus.mix_r i = (if b * N + i < M then v * s.getD (2 * (b * N + i) + 1) 0 else 0)) := by
  have hsf := safeFrames_of_le N hN
  refine ⟨fun st hst => ?_, fun samples bus hsamp => ?_, fun sample_rate hsr => ?_⟩
  · rw [play_sound_registered st pad s hst, voiceAt_zero, startDelay_zero]
  · refine ⟨accumBuses s (voiceAt pad v r d 0 M (b * N)) (0 - b * N)
      (min (N - (0 - b * N)) (M - (b * N - 0))) bus, ?_, fun i => ?_⟩
    · rw [hsf, renderVoice_voiceAt s M hM hs samples pad hsamp, Nat.add_mul, Nat.one_mul]
    · have h := accumBuses_voiceAt s pad v r d 0 M (b * N) N bus i
      simp only [Nat.zero_le, true_and, Nat.sub_zero] at h
      exact ⟨h.1, h.2.1⟩
  · have hk := startDelay_zero (roundF32 (sample_rate : α))
    obtain ⟨st, h1, -, -, st1, h2⟩ :=
      solo_run tanh sample_rate hsr pad s M hM hs v r d 0 0 hk N hN b
    refine ⟨st, st1, _, h1, h2, fun i hi => ?_⟩
    have h := accumBuses_voiceAt s pad v r d 0 M (b * N) N zeroBuses i
    simp only [Nat.zero_le, true_and, Nat.sub_zero, hi, zeroBuses, zero_add] at h
    exact ⟨h.1, h.2.1⟩

/-- C3 (witness): the four-frame sample in blocks of 3 frames at 44100 Hz,
second block: frame 3 carries the last sample frame, frames 4 and 5 nothing. -/
theorem voice_completion_frame_count_witness :
    (1 ≤ 4 ∧ ([1, 1, 1 / 2, 1 / 2, 0, 0, -1 / 2, -1 / 2] : List ℚ).length = 2 * 4 ∧
      3 ≤ 1024 ∧ (1 : Int) ≤ 44100) ∧
    ∃ st st1 bus, processBlocks (fun x => x) 3 1
        (play_sound (load_sample (new 44100) 0
          [1, 1, 1 / 2, 1 / 2, 0, 0, -1 / 2, -1 / 2]) 0 1 0 0 0) = some st ∧
      voiceStage st (safeFrames 3) = some (st1, bus) ∧
      ∀ i, i < 3 →
        bus.mix_l i = (if 1 * 3 + i < 4 then
          1 * ([1, 1, 1 / 2, 1 / 2, 0, 0, -1 / 2, -1 / 2] : List ℚ).getD
            (2 * (1 * 3 + i)) 0 else 0) ∧
        bus.mix_r i = (if 1 * 3 + i < 4 then
          1 * ([1, 1, 1 / 2, 1 / 2, 0, 0, -1 / 2, -1 / 2] : List ℚ).getD
            (2 * (1 * 3 + i) + 1) 0 else 0) :=
  ⟨⟨by decide, rfl, by decide, by decide⟩,
   (voice_completion_frame_count (fun x => x) 0 [1, 1, 1 / 2, 1 / 2, 0, 0, -1 / 2, -1 / 2] 4
      (by decide) rfl 1 0 0 3 (by decide) 1).2.2 44100 (by decide)⟩

/-- C4 (amended): a trigger whose converted start delay
`(int)(start_offset_seconds * sample_rate)`, the binary32 product truncated, is
`k` creates the voice `voiceAt … k … 0`, whose start delay is `k` frames (first
part); the converted delay is `k` whenever the binary32 product lies in
`[k, k + 1)` and `k < 2 ^ 31` (second part).  In the block starting at global
frame `b * N` the voice loop body takes `voiceAt … (b * N)` to
`voiceAt … ((b+1) * N)`, leaves all six buses untouched at every index whose
global frame is below `k`, and adds sample frame `j` at the index whose global
frame is `k + j` (third part).  While the remaining start delay is at least
`N` the block only subtracts `N` from the counter: cursor and buses are
unchanged (fourth part).  In a run of a freshly constructed engine the dry bus
of block `b` is silent before global frame `k` and carries sample frame `j` at
global frame `k + j` (fifth part). -/
theorem start_offset_accuracy (tanh : α → α) (pad : Int) (s : List α) (M : Nat)
    (hM : 1 ≤ M) (hs : s.length = 2 * M) (v r d : α) (k N : Nat) (hN1 : 1 ≤ N)
    (hN : N ≤ 1024) (b : Nat) :
    (∀ (st : CppAudioEngine α) (off : α), st.samples_ pad = some s →
      toInt32 (roundF32 (off * roundF32 (st.sample_rate_ : α))) = (k : Int) →
      (play_sound st pad v r d off).pending_voices_ =
        st.pending_voices_ ++ [voiceAt pad v r d k M 0] ∧
      (voiceAt pad v r d k M 0).start_delay_frames = (k : Int)) ∧
    (∀ (sample_rate : Int) (off : α),
      (k : α) ≤ roundF32 (off * roundF32 (sample_rate : α)) →
      roundF32 (off * roundF32 (sample_rate : α)) < (k : α) + 1 → (k : Int) < 2 ^ 31 →
      toInt32 (roundF32 (off * roundF32 (sample_rate : α))) = (k : Int)) ∧
    (∀ (samples : Int → Option (List α)) (bus : Buses α), samples pad = some s →
      ∃ bus1, renderVoice (safeFrames N) (voiceAt pad v r d k M (b * N)) samples bus =
          some (voiceAt pad v r d k M ((b + 1) * N), samples, bus1) ∧
        (∀ i, b * N + i < k →
          bus1.mix_l i = bus.mix_l i ∧ bus1.mix_r i = bus.mix_r i ∧
          bus1.rev_l i = bus.rev_l i ∧ bus1.rev_r i = bus.rev_r i ∧
          bus1.dly_l i = bus.dly_l i ∧ bus1.dly_r i = bus.dly_r i) ∧
        (∀ i j, i < N → j < M → b * N + i = k + j →
          bus1.mix_l i = bus.mix_l i + v * s.getD (2 * j) 0 ∧
          bus1.mix_r i = bus.mix_r i + v * s.getD (2 * j + 1) 0 ∧
          bus1.rev_l i = bus.rev_l i + v * r * s.getD (2 * j) 0 ∧
          bus1.rev_r i = bus.rev_r i + v * r * s.getD (2 * j + 1) 0 ∧
          bus1.dly_l i = bus.dly_l i + v * d * s.getD (2 * j) 0 ∧
          bus1.dly_r i = bus.dly_r i + v * d * s.getD (2 * j + 1) 0)) ∧
    ((b + 1) * N ≤ k →
      (voiceAt pad v r d k M (b * N)).pos = 0 ∧
      (voiceAt pad v r d k M (b * N)).start_delay_frames = (k : Int) - (b * N : Nat) ∧
      ∀ (samples : Int → Option (List α)) (bus : Buses α),
        renderVoice (safeFrames N) (voiceAt pad v r d k M (b * N)) samples bus =
          some ({ voiceAt pad v r d k M (b * N) with
                  start_delay_frames :=
                    (voiceAt pad v r d k M (b * N)).start_delay_frames - (N : Int) },
                samples, bus)) ∧
    (∀ (sample_rate : Int) (off : α), 1 ≤ sample_rate →
      toInt32 (roundF32 (off * roundF32 (sample_rate : α))) = (k : Int) →
      ∃ st st1 bus, processBlocks tanh N b
          (play_sound (load_sample (new sample_rate) pad s) pad v r d off) = some st ∧
        voiceStage st (safeFrames N) = some (st1, bus) ∧
        (∀ i, i < N → b * N + i < k → bus.mix_l i = 0 ∧ bus.mix_r i = 0) ∧
        (∀ i j, i < N → j < M → b * N + i = k + j →
          bus.mix_l i = v * s.getD (2 * j) 0 ∧ bus.mix_r i = v * s.getD (2 * j + 1) 0)) := by
  have hsf := safeFrames_of_le N hN
  refine ⟨fun st off hst hk => ⟨?_, ?_⟩, fun sample_rate off h1 h2 h3 => ?_,
    fun samples bus hsamp => ?_, fun hbk => ⟨?_, ?_, ?_⟩,
    fun sample_rate off hsr hk => ?_⟩
  · rw [play_sound_registered st pad s hst, voiceAt_zero, hk]
  · simp [voiceAt]
  · have h0 : (0 : α) ≤ roundF32 (off * roundF32 (sample_rate : α)) :=
      le_trans (Nat.cast_nonneg k) h1
    have h4 : roundF32 (off * roundF32 (sample_rate : α)) < 2 ^ 31 := by
      have h5 : ((k : Int) : α) + 1 ≤ ((2 ^ 31 : Int) : α) := by exact_mod_cast h3
      push_cast at h5
      linarith
    rw [toInt32_of_range _ h0 h4, Int.floor_eq_iff]
    push_cast
    exact ⟨h1, h2⟩
  · refine ⟨accumBuses s (voiceAt pad v r d k M (b * N)) (k - b * N)
      (min (N - (k - b * N)) (M - (b * N - k))) bus, ?_, fun i hi => ?_,
      fun i j hi hj hij => ?_⟩
    · rw [hsf, renderVoice_voiceAt s M hM hs samples pad hsamp, Nat.add_mul, Nat.one_mul]
    · have h := accumBuses_voiceAt s pad v r d k M (b * N) N bus i
      have hc : ¬ (i < N ∧ k ≤ b * N + i ∧ b * N + i - k < M) := by omega
      simp only [hc, if_false] at h
      exact h
    · have h := accumBuses_voiceAt s pad v r d k M (b * N) N bus i
      have hc : i < N ∧ k ≤ b * N + i ∧ b * N + i - k < M := by omega
      have e : b * N + i - k = j := by omega
      simp only [if_pos hc] at h
      simp only [e] at h
      exact h
  · simp only [voiceAt]
    have e : b * N ≤ k := by
      rw [Nat.add_mul, Nat.one_mul] at hbk
      omega
    omega
  · simp only [voiceAt]
    have e : b * N ≤ k := by
      rw [Nat.add_mul, Nat.one_mul] at hbk
      omega
    omega
  · intro samples bus
    rw [Nat.add_mul, Nat.one_mul] at hbk
    have h1 : (voiceAt pad v r d k M (b * N)).active = true := by
      simp only [voiceAt, decide_eq_true_eq]
      omega
    have h2 : (voiceAt pad v r d k M (b * N)).start_delay_frames > 0 ∧
        (voiceAt pad v r d k M (b * N)).start_delay_frames ≥ (N : Int) := by
      simp only [voiceAt]
      omega
    rw [hsf]
    unfold renderVoice
    simp only [h1, h2, Bool.not_true, Bool.false_eq_true, if_false, and_self, if_true]
  · obtain ⟨st, h1, -, -, st1, h2⟩ :=
      solo_run tanh sample_rate hsr pad s M hM hs v r d off k hk N hN b
    refine ⟨st, st1, _, h1, h2, fun i hi hik => ?_, fun i j hi hj hij => ?_⟩
    · have h := accumBuses_voiceAt s pad v r d k M (b * N) N zeroBuses i
      have hc : ¬ (i < N ∧ k ≤ b * N + i ∧ b * N + i - k < M) := by omega
      simp only [hc, if_false] at h
      exact ⟨h.1, h.2.1⟩
    · have h := accumBuses_voiceAt s pad v r d k M (b * N) N zeroBuses i
      have hc : i < N ∧ k ≤ b * N + i ∧ b * N + i - k < M := by omega
      have e : b * N + i - k = j := by omega
      simp only [if_pos hc] at h
      simp only [e, zeroBuses, zero_add] at h
      exact ⟨h.1, h.2.1⟩

theorem roundF32_sample_rate_44100 : roundF32 (((44100 : Int) : ℚ)) = 44100 := by
  have h : roundF32 ((((11289600 : Int)) : ℚ) * 2 ^ ((15 : Int) - 23)) = _ :=
    roundF32_exact 11289600 15 (by norm_num) (by norm_num) (by norm_num)
  norm_num at h ⊢
  exact h

theorem startDelay_quarter_second :
    toInt32 (roundF32 ((1 / 4 : ℚ) * roundF32 (((44100 : Int) : ℚ)))) = ((11025 : Nat) : Int) := by
  have h : roundF32 ((((11289600 : Int)) : ℚ) * 2 ^ ((13 : Int) - 23)) = _ :=
    roundF32_exact 11289600 13 (by norm_num) (by norm_num) (by norm_num)
  have e : (1 / 4 : ℚ) * 44100 = ((11289600 : Int) : ℚ) * 2 ^ ((13 : Int) - 23) := by norm_num
  rw [roundF32_sample_rate_44100, e, h, toInt32_of_range _ (by norm_num) (by norm_num),
    Int.floor_eq_iff]
  constructor <;> norm_num

theorem startDelay_nearest_7 :
    roundF32 ((10907853 / 2 ^ 36 : ℚ) * roundF32 (((44100 : Int) : ℚ))) = 14680063 / 2 ^ 21 ∧
    toInt32 (roundF32 ((10907853 / 2 ^ 36 : ℚ) * roundF32 (((44100 : Int) : ℚ))))
      = ((6 : Nat) : Int) := by
  have h1 : roundF32 ((10907853 / 2 ^ 36 : ℚ) * 44100) = 14680063 / 2 ^ 21 := by
    rw [roundF32_eq _ 2 (by norm_num)
      (by rw [abs_of_pos (by norm_num)]; norm_num)
      (by rw [abs_of_pos (by norm_num)]; norm_num)]
    rw [roundHalfEven_eq _ 14680063 (by norm_num) (by norm_num)]
    norm_num
  rw [roundF32_sample_rate_44100, h1]
  refine ⟨rfl, ?_⟩
  rw [toInt32_of_range _ (by norm_num) (by norm_num), Int.floor_eq_iff]
  constructor <;> norm_num

/-- C4 (counterexample): at 44100 Hz and `k = 7` the `float` nearest to
`k / sample_rate` is `10907853 / 2 ^ 36`; its binary32 product with the sample
rate is `14680063 / 2 ^ 21 < 7`, the stored start delay is 6 frames, and in the
first block of 8 frames the voice's first sample frame is on the dry bus at
global frame 6: there are 6 leading silent frames, not 7. -/
theorem start_offset_loses_a_frame :
    (((2 : ℚ) ^ 23 ≤ 10907853 ∧ (10907853 : ℚ) < 2 ^ 24) ∧
      |(7 / 44100 : ℚ) - 10907853 / 2 ^ 36| < 1 / 2 ^ 37) ∧
    (play_sound (load_sample (new 44100) 0 [1, 1, 1 / 2, 1 / 2]) 0 1 0 0
        (10907853 / 2 ^ 36 : ℚ)).pending_voices_.map (fun x => x.start_delay_frames) = [6] ∧
    ∃ st1 bus,
      voiceStage (play_sound (load_sample (new 44100) 0 [1, 1, 1 / 2, 1 / 2]) 0 1 0 0
        (10907853 / 2 ^ 36 : ℚ)) (safeFrames 8) = some (st1, bus) ∧
      bus.mix_l 5 = 0 ∧ bus.mix_l 6 = 1 ∧ bus.mix_r 6 = 1 := by
  refine ⟨⟨⟨by norm_num, by norm_num⟩, ?_⟩, ?_, ?_⟩
  · rw [abs_lt]
    constructor <;> norm_num
  · have hs : (load_sample (new 44100 : CppAudioEngine ℚ) 0 [1, 1, 1 / 2, 1 / 2]).samples_ 0
        = some [1, 1, 1 / 2, 1 / 2] := by simp [load_sample]
    rw [play_sound_registered _ 0 _ hs]
    have e1 : (load_sample (new 44100 : CppAudioEngine ℚ) 0 [1, 1, 1 / 2, 1 / 2]).sample_rate_
        = 44100 := rfl
    have e2 : (load_sample (new 44100 : CppAudioEngine ℚ) 0
        [1, 1, 1 / 2, 1 / 2]).pending_voices_ = [] := rfl
    rw [e1, e2, startDelay_nearest_7.2]
    rfl
  · obtain ⟨st, h1, -, -, st1, h2⟩ :=
      solo_run (fun x : ℚ => x) 44100 (by decide) 0 [1, 1, 1 / 2, 1 / 2] 2 (by decide) rfl
        1 0 0 (10907853 / 2 ^ 36) 6 startDelay_nearest_7.2 8 (by decide) 0
    simp only [processBlocks, Option.some.injEq] at h1
    subst h1
    refine ⟨st1, _, h2, ?_, ?_, ?_⟩
    · have h := accumBuses_voiceAt ([1, 1, 1 / 2, 1 / 2] : List ℚ) 0 1 0 0 6 2 (0 * 8) 8
        zeroBuses 5
      have hc : ¬ (5 < 8 ∧ 6 ≤ 0 * 8 + 5 ∧ 0 * 8 + 5 - 6 < 2) := by decide
      simp only [hc, if_false] at h
      exact h.1
    · have h := accumBuses_voiceAt ([1, 1, 1 / 2, 1 / 2] : List ℚ) 0 1 0 0 6 2 (0 * 8) 8
        zeroBuses 6
      have hc : 6 < 8 ∧ 6 ≤ 0 * 8 + 6 ∧ 0 * 8 + 6 - 6 < 2 := by decide
      simp only [if_pos hc] at h
      rw [h.1]
      simp [zeroBuses]
    · have h := accumBuses_voiceAt ([1, 1, 1 / 2, 1 / 2] : List ℚ) 0 1 0 0 6 2 (0 * 8) 8
        zeroBuses 6
      have hc : 6 < 8 ∧ 6 ≤ 0 * 8 + 6 ∧ 0 * 8 + 6 - 6 < 2 := by decide
      simp only [if_pos hc] at h
      rw [h.2.1]
      simp [zeroBuses]

/-- C4 (witness): a start offset of 0.25 s at 44100 Hz, a binary32 number whose
product with the sample rate is exactly 11025 frames; blocks of 1024 frames,
eleventh block (global frames 10240 to 11263): the frames before 11025 are
silent and sample frame `j` lands at global frame `11025 + j`. -/
theorem start_offset_accuracy_witness :
    (1 ≤ 4 ∧ ([1, 1, 1 / 2, 1 / 2, 0, 0, -1 / 2, -1 / 2] : List ℚ).length = 2 * 4 ∧
      1 ≤ 1024 ∧ 1024 ≤ 1024 ∧ (1 : Int) ≤ 44100 ∧
      toInt32 (roundF32 ((1 / 4 : ℚ) * roundF32 (((44100 : Int) : ℚ)))) = ((11025 : Nat) : Int)) ∧
    ∃ st st1 bus, processBlocks (fun x => x) 1024 10
        (play_sound (load_sample (new 44100) 0 [1, 1, 1 / 2, 1 / 2, 0, 0, -1 / 2, -1 / 2])
          0 1 0 0 (1 / 4 : ℚ)) = some st ∧
      voiceStage st (safeFrames 1024) = some (st1, bus) ∧
      (∀ i, i < 1024 → 10 * 1024 + i < 11025 → bus.mix_l i = 0 ∧ bus.mix_r i = 0) ∧
      (∀ i j, i < 1024 → j < 4 → 10 * 1024 + i = 11025 + j →
        bus.mix_l i = 1 * ([1, 1, 1 / 2, 1 / 2, 0, 0, -1 / 2, -1 / 2] : List ℚ).getD (2 * j) 0 ∧
        bus.mix_r i =
          1 * ([1, 1, 1 / 2, 1 / 2, 0, 0, -1 / 2, -1 / 2] : List ℚ).getD (2 * j + 1) 0) :=
  ⟨⟨by decide, rfl, by decide, by decide, by decide, startDelay_quarter_second⟩,
   (start_offset_accuracy (fun x => x) 0 [1, 1, 1 / 2, 1 / 2, 0, 0, -1 / 2, -1 / 2] 4
      (by decide) rfl 1 0 0 11025 1024 (by decide) (by decide) 10).2.2.2.2 44100 (1 / 4)
      (by decide) startDelay_quarter_second⟩

/-! ## The start-offset conversion -/

/-- C5 (amended): on a registered pad `play_sound` stores as start delay the C
cast `(int)(start_offset_seconds * sample_rate)` of the binary32 product (first
part): the truncation toward zero, which is the floor of the binary32 product
for a non-negative offset (and sample rate) whose product is below `2 ^ 31`
(second part), and its ceiling when the product is negative and above
`-2 ^ 31 - 1` (third part). -/
theorem start_delay_is_truncation (st : CppAudioEngine α) (pad : Int) (s : List α)
    (hst : st.samples_ pad = some s) (v r d off : α) :
    ((play_sound st pad v r d off).pending_voices_ = st.pending_voices_ ++
        [{ pad_id := pad, pos := 0, velocity := v, reverb_send := r, delay_send := d,
           active := true,
           start_delay_frames :=
             toInt32 (roundF32 (off * roundF32 (st.sample_rate_ : α))) }]) ∧
    (0 ≤ off → 0 ≤ st.sample_rate_ →
      roundF32 (off * roundF32 (st.sample_rate_ : α)) < 2 ^ 31 →
      0 ≤ roundF32 (off * roundF32 (st.sample_rate_ : α)) ∧
      (play_sound st pad v r d off).pending_voices_ = st.pending_voices_ ++
        [{ pad_id := pad, pos := 0, velocity := v, reverb_send := r, delay_send := d,
           active := true,
           start_delay_frames :=
             Int.floor (roundF32 (off * roundF32 (st.sample_rate_ : α))) }]) ∧
    (roundF32 (off * roundF32 (st.sample_rate_ : α)) < 0 →
      -2 ^ 31 - 1 < roundF32 (off * roundF32 (st.sample_rate_ : α)) →
      (play_sound st pad v r d off).pending_voices_ = st.pending_voices_ ++
        [{ pad_id := pad, pos := 0, velocity := v, reverb_send := r, delay_send := d,
           active := true,
           start_delay_frames :=
             Int.ceil (roundF32 (off * roundF32 (st.sample_rate_ : α))) }]) := by
  rw [play_sound_registered st pad s hst]
  refine ⟨rfl, fun h1 h2 h3 => ?_, fun h1 h2 => ?_⟩
  · have h4 : (0 : α) ≤ roundF32 (st.sample_rate_ : α) :=
      roundF32_nonneg _ (by exact_mod_cast h2)
    have h5 : (0 : α) ≤ roundF32 (off * roundF32 (st.sample_rate_ : α)) :=
      roundF32_nonneg _ (mul_nonneg h1 h4)
    rw [toInt32_of_range _ h5 h3]
    exact ⟨h5, rfl⟩
  · have h3 : ¬ ((0 : α) ≤ roundF32 (off * roundF32 (st.sample_rate_ : α))) := not_le.mpr h1
    have h4 : toInt (roundF32 (off * roundF32 (st.sample_rate_ : α))) =
        Int.ceil (roundF32 (off * roundF32 (st.sample_rate_ : α))) := by
      simp only [toInt, h3, if_false]
    have h5 : Int.ceil (roundF32 (off * roundF32 (st.sample_rate_ : α))) ≤ 0 :=
      Int.ceil_le.mpr (by push_cast; exact le_of_lt h1)
    have h6 : -2 ^ 31 - 1 < Int.ceil (roundF32 (off * roundF32 (st.sample_rate_ : α))) := by
      have h7 := Int.le_ceil (roundF32 (off * roundF32 (st.sample_rate_ : α)))
      have h8 : (((-2 ^ 31 - 1 : Int)) : α) <
          ((Int.ceil (roundF32 (off * roundF32 (st.sample_rate_ : α))) : Int) : α) := by
        push_cast
        linarith
      exact_mod_cast h8
    unfold toInt32
    rw [h4, if_pos ⟨by unfold INT_MIN; omega, by omega⟩]

/-- C5 (counterexample): at 44100 Hz the `float` nearest to `1/73500` s,
`14959342 / 2 ^ 40`, is an offset worth 0.6 frames; `play_sound` stores a start
delay of 0 frames although `round (seconds * sample_rate) = 1`. -/
theorem start_delay_is_not_round :
    (((2 : ℚ) ^ 23 ≤ 14959342 ∧ (14959342 : ℚ) < 2 ^ 24) ∧
      |(1 / 73500 : ℚ) - 14959342 / 2 ^ 40| < 1 / 2 ^ 41) ∧
    (play_sound (load_sample (new 44100) 0 [1, 1]) 0 1 0 0
        (14959342 / 2 ^ 40 : ℚ)).pending_voices_.map (fun x => x.start_delay_frames) = [0] ∧
    round ((14959342 / 2 ^ 40 : ℚ) * ((44100 : Int) : ℚ)) = 1 ∧
    round (roundF32 ((14959342 / 2 ^ 40 : ℚ) * roundF32 (((44100 : Int) : ℚ)))) = 1 := by
  have hs : (load_sample (new 44100 : CppAudioEngine ℚ) 0 [1, 1]).samples_ 0
      = some [1, 1] := by simp [load_sample]
  have h1 : roundF32 ((14959342 / 2 ^ 40 : ℚ) * 44100) = 5033165 / 2 ^ 23 := by
    rw [roundF32_eq _ (-1) (by norm_num)
      (by rw [abs_of_pos (by norm_num)]; norm_num)
      (by rw [abs_of_pos (by norm_num)]; norm_num)]
    rw [roundHalfEven_eq _ 10066330 (by norm_num) (by norm_num)]
    norm_num
  refine ⟨⟨⟨by norm_num, by norm_num⟩, ?_⟩, ?_, ?_, ?_⟩
  · rw [abs_lt]
    constructor <;> norm_num
  · rw [play_sound_registered _ 0 [1, 1] hs]
    have e1 : (load_sample (new 44100 : CppAudioEngine ℚ) 0 [1, 1]).sample_rate_
        = 44100 := rfl
    have e2 : (load_sample (new 44100 : CppAudioEngine ℚ) 0 [1, 1]).pending_voices_
        = [] := rfl
    rw [e1, e2, roundF32_sample_rate_44100, h1]
    have e3 : toInt32 (5033165 / 2 ^ 23 : ℚ) = 0 := by
      rw [toInt32_of_range _ (by norm_num) (by norm_num), Int.floor_eq_iff]
      constructor <;> norm_num
    simp [e3]
  · rw [round_eq, Int.floor_eq_iff]
    constructor <;> norm_num
  · rw [roundF32_sample_rate_44100, h1, round_eq, Int.floor_eq_iff]
    constructor <;> norm_num

/-- C5 (witness): 0.25 s at 10 Hz on a registered pad: the binary32 product is
`5/2` and the start delay is its floor, 2 frames. -/
theorem start_delay_is_truncation_witness :
    ((load_sample (new 10) 0 [1, 1] : CppAudioEngine ℚ).samples_ 0 = some [1, 1] ∧
      (0 : ℚ) ≤ 1 / 4 ∧ 0 ≤ (load_sample (new 10) 0 [1, 1] : CppAudioEngine ℚ).sample_rate_ ∧
      roundF32 ((1 / 4 : ℚ) *
        roundF32 (((load_sample (new 10) 0 [1, 1] : CppAudioEngine ℚ).sample_rate_ : ℚ)))
        = 5 / 2) ∧
    (play_sound (load_sample (new 10) 0 [1, 1]) 0 1 0 0 (1 / 4 : ℚ)).pending_voices_ =
      (load_sample (new 10) 0 [1, 1] : CppAudioEngine ℚ).pending_voices_ ++
      [{ pad_id := 0, pos := 0, velocity := 1, reverb_send := 0, delay_send := 0,
         active := true,
         start_delay_frames := Int.floor (roundF32 ((1 / 4 : ℚ) *
           roundF32 (((load_sample (new 10) 0 [1, 1] : CppAudioEngine ℚ).sample_rate_ : ℚ)))) }] := by
  have e1 : (load_sample (new 10 : CppAudioEngine ℚ) 0 [1, 1]).sample_rate_ = 10 := rfl
  have h10 : roundF32 (((10 : Int) : ℚ)) = 10 := by
    have h : roundF32 ((((10485760 : Int)) : ℚ) * 2 ^ ((3 : Int) - 23)) = _ :=
      roundF32_exact 10485760 3 (by norm_num) (by norm_num) (by norm_num)
    norm_num at h ⊢
    exact h
  have h52 : roundF32 ((1 / 4 : ℚ) * 10) = 5 / 2 := by
    have h : roundF32 ((((10485760 : Int)) : ℚ) * 2 ^ ((1 : Int) - 23)) = _ :=
      roundF32_exact 10485760 1 (by norm_num) (by norm_num) (by norm_num)
    norm_num at h ⊢
    exact h
  have hval : roundF32 ((1 / 4 : ℚ) *
      roundF32 (((load_sample (new 10) 0 [1, 1] : CppAudioEngine ℚ).sample_rate_ : ℚ)))
      = 5 / 2 := by
    rw [e1, h10, h52]
  exact ⟨⟨by simp [load_sample], by norm_num, by decide, hval⟩,
    ((start_delay_is_truncation (load_sample (new 10) 0 [1, 1]) 0 [1, 1]
      (by simp [load_sample]) 1 0 0 (1 / 4)).2.1 (by norm_num) (by decide)
      (by rw [hval]; norm_num)).2⟩

/-- Remark on the conversion with a `float` argument: the single-precision
number nearest to `7 / 44100` is `10907853 / 2 ^ 36`, and already its exact
product with 44100 is below 7 and truncates to 6 (the binary32 product that
`play_sound` computes is treated in `startDelay_nearest_7`). -/
theorem start_delay_of_nearest_single :
    ((2 : ℚ) ^ 23 ≤ 10907853 ∧ (10907853 : ℚ) < 2 ^ 24) ∧
    |(7 / 44100 : ℚ) - 10907853 / 2 ^ 36| < 1 / 2 ^ 37 ∧
    toInt ((10907853 / 2 ^ 36 : ℚ) * ((44100 : Int) : ℚ)) = 6 := by
  refine ⟨⟨by norm_num, by norm_num⟩, ?_, ?_⟩
  · rw [abs_lt]
    constructor <;> norm_num
  · rw [toInt_of_nonneg _ (by norm_num), Int.floor_eq_iff]
    constructor <;> norm_num

/-! ## Stale and sample-less voices -/

/-- C10 (the code at the failing inputs): a voice on a pad that holds an empty
sample, a voice whose pad was reloaded with an empty buffer after the trigger,
and a voice whose pad has no sample all make the render loop read
`sample[pos]` out of range: `process` (resp. the voice loop body) faults
instead of retiring the voice without a read. -/
theorem stale_voice_reads_out_of_range :
    process Real.tanh (play_sound (load_sample (new 44100) 3 []) 3 1 0 0 0) 256 = none ∧
    process Real.tanh
      (load_sample (play_sound (load_sample (new 44100) 3 [1, 1, 1, 1]) 3 1 0 0 0) 3 [])
      256 = none ∧
    renderVoice 256
      ({ pad_id := 3, pos := 0, velocity := 1, reverb_send := 0, delay_send := 0,
         active := true, start_delay_frames := 0 } : Voice ℝ)
      (fun _ => none) zeroBuses = none :=
  ⟨empty_sample_fault Real.tanh 44100 3 1 0 0 256 (by decide),
   reload_empty_fault Real.tanh 44100 3 [1, 1, 1, 1] 1 0 0 256 (by decide),
   renderVoice_empty_fault 256 _ _ _ rfl (by decide) (by decide) (by decide) rfl⟩


/-! ## The block-size ceiling -/

theorem process_length (tanh : α → α) (st st1 : CppAudioEngine α) (frames : Nat)
    (out : List α) (h : process tanh st frames = some (st1, out)) :
    out.length = frames * 2 := by
  rw [process_eq] at h
  rcases hm : mixStage st (safeFrames frames) with _ | ⟨st2, mix_l, mix_r⟩
  · rw [hm] at h
    cases h
  · rw [hm] at h
    simp only [Option.map_some', Option.some.injEq, Prod.mk.injEq] at h
    rw [← h.2, writeOut_length, List.length_replicate]

/-- C9: for `F > 1024` frames `process` does what a 1024-frame call does, with
the same resulting engine state and the same first 2048 output values, and
leaves the output values `2048 … 2F-1` at 0; for `F ≤ 1024` it mixes `F` frames
and writes the limited mix of every frame `i < F`. -/
theorem block_size_ceiling (tanh : α → α) (st : CppAudioEngine α) (F : Nat) :
    (1024 < F →
      process tanh st F = (process tanh st 1024).map
        (fun r => (r.1, r.2 ++ List.replicate (2 * F - 2048) 0)) ∧
      (∀ r, process tanh st 1024 = some r → r.2.length = 2048) ∧
      (∀ st1 out, process tanh st F = some (st1, out) →
        ∀ j, 2048 ≤ j → j < 2 * F → out[j]? = some 0)) ∧
    (F ≤ 1024 →
      safeFrames F = F ∧
      (mixStage st F = none → process tanh st F = none) ∧
      ∀ st1 mix_l mix_r, mixStage st F = some (st1, mix_l, mix_r) →
        ∃ out, process tanh st F = some (st1, out) ∧ out.length = 2 * F ∧
          ∀ i, i < F →
            out[2 * i]? = some (tanh (mix_l i)) ∧ out[2 * i + 1]? = some (tanh (mix_r i))) := by
  constructor
  · intro hF
    have e1 : safeFrames F = 1024 := by
      unfold safeFrames MAX_BLOCK
      split_ifs <;> omega
    have e2 : safeFrames 1024 = 1024 := safeFrames_of_le 1024 (le_refl _)
    have key : process tanh st F = (process tanh st 1024).map
        (fun r => (r.1, r.2 ++ List.replicate (2 * F - 2048) 0)) := by
      rw [process_eq, process_eq, e1, e2]
      rcases mixStage st 1024 with _ | ⟨st1, mix_l, mix_r⟩
      · rfl
      · simp only [Option.map_some', Option.some.injEq, Prod.mk.injEq, true_and]
        apply List.ext_getElem?
        intro j
        rw [writeOut_getElem?, List.getElem?_append]
        simp only [writeOut_length, List.length_replicate, writeOut_getElem?,
          List.getElem?_replicate]
        split_ifs <;> first | rfl | omega
    refine ⟨key, fun r hr => ?_, fun st1 out hout j hj1 hj2 => ?_⟩
    · obtain ⟨r1, r2⟩ := r
      exact process_length tanh st r1 1024 r2 hr
    · rw [key] at hout
      rcases hp : process tanh st 1024 with _ | ⟨st2, out2⟩
      · rw [hp] at hout
        cases hout
      · rw [hp] at hout
        simp only [Option.map_some', Option.some.injEq, Prod.mk.injEq] at hout
        have hl := process_length tanh st st2 1024 out2 hp
        rw [← hout.2, List.getElem?_append_right (by omega), List.getElem?_replicate]
        have h5 : j - out2.length < 2 * F - 2048 := by omega
        simp only [h5, if_true]
  · intro hF
    have e1 := safeFrames_of_le F hF
    refine ⟨e1, fun h => ?_, fun st1 mix_l mix_r h => ?_⟩
    · rw [process_eq, e1, h]
      rfl
    · rw [← e1] at h
      obtain ⟨out, h1, h2, h3, -⟩ := process_out tanh st st1 mix_l mix_r F h
      exact ⟨out, h1, by omega, fun i hi => h3 i (by omega)⟩

/-- C9 (witness): a call with 2000 frames on a fresh engine. -/
theorem block_size_ceiling_witness :
    1024 < 2000 ∧
    process (fun x : ℚ => x) (new 44100) 2000 = (process (fun x : ℚ => x) (new 44100) 1024).map
      (fun r => (r.1, r.2 ++ List.replicate (2 * 2000 - 2048) 0)) :=
  ⟨by decide, ((block_size_ceiling (fun x : ℚ => x) (new 44100) 2000).1 (by decide)).1⟩


/-! ## Mix linearity -/

theorem renderVoice_now (N : Nat) (voice : Voice α) (samples : Int → Option (List α))
    (s : List α) (b : Buses α) (hact : voice.active = true)
    (hsd : voice.start_delay_frames = 0) (hs : samples voice.pad_id = some s)
    (hne : s.length ≠ 0) :
    renderVoice N voice samples b =
      some ({ voice with
                pos := voice.pos + 2 * min N (framesLeft s.length voice.pos)
                active := decide (N ≤ framesLeft s.length voice.pos) },
            samples,
            accumBuses s voice 0 (min N (framesLeft s.length voice.pos)) b) := by
  unfold renderVoice
  have h1 : ¬ (voice.start_delay_frames > 0 ∧ voice.start_delay_frames ≥ (N : Int)) := by
    omega
  have h2 : ¬ (voice.start_delay_frames > 0) := by omega
  simp only [hact, h2, hs, Bool.not_true, Bool.false_eq_true, if_false,
    Option.getD_some, Nat.sub_zero, false_and]
  rw [renderLoop_eq s hne]
  simp only [Option.map_some', hact, Bool.true_and]

theorem add_mod_small (W t L : Nat) (hW : W < L) (ht : t < L) :
    (W + t) % L = if W + t < L then W + t else W + t - L := by
  split_ifs with h
  · exact Nat.mod_eq_of_lt h
  · rw [Nat.mod_eq_sub_mod (by omega), Nat.mod_eq_of_lt (by omega)]

theorem lineStep_hist (L D W : Nat) (g : α) (buf : List α) (Yl Yr : Nat → α) (m : Nat)
    (x_l x_r : α) (hD1 : 1 ≤ D) (hDL : D ≤ L) (hh : LineHist L buf W Yl Yr m)
    (hl : Yl (m + L) = x_l + Yl (m + L - D) * g)
    (hr : Yr (m + L) = x_r + Yr (m + L - D) * g) :
    ∃ buf1, lineStep (L : Int) (D : Int) g buf (W : Int) x_l x_r =
        some (buf1, (((W + 1) % L : Nat) : Int), Yl (m + L - D), Yr (m + L - D)) ∧
      LineHist L buf1 ((W + 1) % L) Yl Yr (m + 1) := by
  obtain ⟨hlen, hW, hslots⟩ := hh
  have hL : 0 < L := by omega
  have hne : (L : Int) ≠ 0 := by omega
  have hrp : Int.tmod ((W : Int) - (D : Int) + (L : Int)) (L : Int)
      = (((W + (L - D)) % L : Nat) : Int) := by
    rw [Int.tmod_eq_emod (by omega) (by omega), Int.natCast_mod]
    congr 1
    omega
  have hwp : Int.tmod ((W : Int) + 1) (L : Int) = (((W + 1) % L : Nat) : Int) := by
    rw [Int.tmod_eq_emod (by omega) (by omega), Int.natCast_mod]
    congr 1
  have hR : (W + (L - D)) % L < L := Nat.mod_lt _ hL
  obtain ⟨r1, r2⟩ := hslots (L - D) (by omega)
  have e1 : m + (L - D) = m + L - D := by omega
  rw [e1] at r1 r2
  have hrd1 : readAt buf ((((W + (L - D)) % L : Nat) : Int) * 2)
      = some (Yl (m + L - D)) := by
    have : ((((W + (L - D)) % L : Nat) : Int) * 2).toNat = 2 * ((W + (L - D)) % L) := by
      omega
    simp only [readAt, this]
    rw [if_pos (by omega), r1]
  have hrd2 : readAt buf ((((W + (L - D)) % L : Nat) : Int) * 2 + 1)
      = some (Yr (m + L - D)) := by
    have : ((((W + (L - D)) % L : Nat) : Int) * 2 + 1).toNat
        = 2 * ((W + (L - D)) % L) + 1 := by omega
    simp only [readAt, this]
    rw [if_pos (by omega), r2]
  have hw1 := writeAt_of_lt buf ((W : Int) * 2) (x_l + Yl (m + L - D) * g) (by omega)
    (by omega)
  have hw2 := writeAt_of_lt (buf.set ((W : Int) * 2).toNat (x_l + Yl (m + L - D) * g))
    ((W : Int) * 2 + 1) (x_r + Yr (m + L - D) * g) (by omega)
    (by rw [List.length_set]; omega)
  have t1 : ((W : Int) * 2).toNat = 2 * W := by omega
  have t2 : ((W : Int) * 2 + 1).toNat = 2 * W + 1 := by omega
  rw [t1] at hw1 hw2
  rw [t2] at hw2
  refine ⟨(buf.set (2 * W) (x_l + Yl (m + L - D) * g)).set (2 * W + 1)
    (x_r + Yr (m + L - D) * g), ?_, ?_, Nat.mod_lt _ hL, ?_⟩
  · simp only [lineStep, hne, if_false, hrp, hrd1, hrd2, hw1, hw2, hwp]
  · rw [List.length_set, List.length_set]
    exact hlen
  · intro t ht
    have hq : ((W + 1) % L + t) % L = (W + (t + 1)) % L := by
      rw [Nat.add_mod, Nat.mod_mod, ← Nat.add_mod]
      congr 1
      omega
    rw [hq]
    simp only [List.getElem?_set, List.length_set]
    by_cases hlast : t + 1 = L
    · have hq2 : (W + (t + 1)) % L = W := by
        rw [hlast, Nat.add_mod_right, Nat.mod_eq_of_lt hW]
      have e2 : m + 1 + t = m + L := by omega
      rw [hq2, e2, hl, hr]
      have c1 : ¬ (2 * W + 1 = 2 * W) := by omega
      have c2 : 2 * W < buf.length := by omega
      have c3 : 2 * W + 1 < buf.length := by omega
      simp only [c1, c2, c3, if_true, if_false, and_self]
    · obtain ⟨s1, s2⟩ := hslots (t + 1) (by omega)
      have e2 : m + (t + 1) = m + 1 + t := by omega
      rw [e2] at s1 s2
      have hq3 := add_mod_small W (t + 1) L hW (by omega)
      have c1 : ¬ (2 * W + 1 = 2 * ((W + (t + 1)) % L)) := by omega
      have c2 : ¬ (2 * W = 2 * ((W + (t + 1)) % L)) := by
        rw [hq3]
        split_ifs <;> omega
      have c3 : ¬ (2 * W + 1 = 2 * ((W + (t + 1)) % L) + 1) := by omega
      have c4 : ¬ (2 * W = 2 * ((W + (t + 1)) % L) + 1) := by omega
      simp only [c1, c2, c3, c4, if_false, s1, s2, and_self]


theorem effectLoop_hist (L D : Nat) (g : α) (wet : α → α) (in_l in_r : Nat → α)
    (Yl Yr : Nat → α) (hD1 : 1 ≤ D) (hDL : D ≤ L) :
    ∀ (n i W : Nat) (buf : List α) (m : Nat) (mix_l mix_r : Nat → α),
      LineHist L buf W Yl Yr m →
      (∀ s, s < n → Yl (m + s + L) = in_l (i + s) + Yl (m + s + L - D) * g ∧
        Yr (m + s + L) = in_r (i + s) + Yr (m + s + L - D) * g) →
      ∃ (buf1 : List α) (W1 : Nat),
        effectLoop (L : Int) (D : Int) g wet in_l in_r n i buf (W : Int) mix_l mix_r =
          some (buf1, (W1 : Int),
            addRange mix_l i n (fun s => wet (Yl (m + s + L - D))),
            addRange mix_r i n (fun s => wet (Yr (m + s + L - D)))) ∧
        LineHist L buf1 W1 Yl Yr (m + n) := by
  intro n
  induction n with
  | zero =>
    intro i W buf m mix_l mix_r hh _
    exact ⟨buf, W, by simp [effectLoop, addRange_zero], hh⟩
  | succ n ih =>
    intro i W buf m mix_l mix_r hh hrec
    obtain ⟨h0l, h0r⟩ := hrec 0 (by omega)
    simp only [Nat.add_zero] at h0l h0r
    obtain ⟨buf1, hstep, hh1⟩ :=
      lineStep_hist L D W g buf Yl Yr m (in_l i) (in_r i) hD1 hDL hh h0l h0r
    obtain ⟨buf2, W2, hrun, hh2⟩ := ih (i + 1) ((W + 1) % L) buf1 (m + 1)
      (Function.update mix_l i (mix_l i + wet (Yl (m + L - D))))
      (Function.update mix_r i (mix_r i + wet (Yr (m + L - D)))) hh1
      (fun s hs => by
        have h := hrec (s + 1) (by omega)
        rw [show m + 1 + s + L = m + (s + 1) + L by omega,
          show i + 1 + s = i + (s + 1) by omega]
        exact h)
    refine ⟨buf2, W2, ?_, by rw [show m + (n + 1) = m + 1 + n by omega]; exact hh2⟩
    rw [effectLoop]
    simp only [hstep]
    rw [hrun]
    refine congrArg some (Prod.ext rfl (Prod.ext rfl (Prod.ext ?_ ?_)))
    · exact addRange_step mix_l i n (fun s => wet (Yl (m + s + L - D)))
        (fun s => wet (Yl (m + 1 + s + L - D))) (wet (Yl (m + L - D))) (by simp)
        (fun t => by
          show wet (Yl (m + 1 + t + L - D)) = wet (Yl (m + (t + 1) + L - D))
          rw [show m + 1 + t + L = m + (t + 1) + L by omega])
    · exact addRange_step mix_r i n (fun s => wet (Yr (m + s + L - D)))
        (fun s => wet (Yr (m + 1 + s + L - D))) (wet (Yr (m + L - D))) (by simp)
        (fun t => by
          show wet (Yr (m + 1 + t + L - D)) = wet (Yr (m + (t + 1) + L - D))
          rw [show m + 1 + t + L = m + (t + 1) + L by omega])

theorem effectBlocks_hist (L D : Nat) (g : α) (Yl Yr : Nat → α) (hD1 : 1 ≤ D)
    (hDL : D ≤ L) :
    ∀ (blocks : List (List (α × α))) (W : Nat) (buf : List α) (m : Nat),
      LineHist L buf W Yl Yr m →
      (∀ t, t < blocks.flatten.length →
        Yl (m + t + L) = (blocks.flatten.getD t (0, 0)).1 + Yl (m + t + L - D) * g ∧
        Yr (m + t + L) = (blocks.flatten.getD t (0, 0)).2 + Yr (m + t + L - D) * g) →
      ∃ (buf1 : List α) (W1 : Nat) (outs : List (List (α × α))),
        effectBlocks (L : Int) (D : Int) g (fun d => d) blocks buf (W : Int) =
          some (buf1, (W1 : Int), outs) ∧
        outs.flatten = (List.range blocks.flatten.length).map
          (fun t => (Yl (m + t + L - D), Yr (m + t + L - D))) ∧
        LineHist L buf1 W1 Yl Yr (m + blocks.flatten.length) := by
  intro blocks
  induction blocks with
  | nil =>
    intro W buf m hh _
    exact ⟨buf, W, [], rfl, by simp, by simpa using hh⟩
  | cons blk rest ih =>
    intro W buf m hh hrec
    simp only [List.flatten_cons, List.length_append] at hrec ⊢
    obtain ⟨buf1, W1, hrun, hh1⟩ :=
      effectLoop_hist L D g (fun d => d) (fun i => (blk.getD i (0, 0)).1)
        (fun i => (blk.getD i (0, 0)).2) Yl Yr hD1 hDL blk.length 0 W buf m
        (fun _ => 0) (fun _ => 0) hh
        (fun s hs => by
          have h := hrec s (by omega)
          rw [List.getD_append _ _ _ _ hs] at h
          simpa using h)
    obtain ⟨buf2, W2, outs, hrest, hout, hh2⟩ := ih W1 buf1 (m + blk.length) hh1
      (fun t ht => by
        have h := hrec (blk.length + t) (by omega)
        rw [List.getD_append_right _ _ _ _ (by omega)] at h
        rw [show m + blk.length + t + L = m + (blk.length + t) + L by omega]
        simpa using h)
    refine ⟨buf2, W2,
      (List.range blk.length).map (fun i =>
        (addRange (fun _ => (0 : α)) 0 blk.length (fun s => Yl (m + s + L - D)) i,
         addRange (fun _ => (0 : α)) 0 blk.length (fun s => Yr (m + s + L - D)) i)) :: outs,
      by simp only [effectBlocks, hrun, hrest], ?_,
      by rw [show m + (blk.length + rest.flatten.length)
        = m + blk.length + rest.flatten.length by omega]; exact hh2⟩
    rw [List.flatten_cons, hout, List.range_add, List.map_append, List.map_map]
    congr 1
    · apply List.map_congr_left
      intro t ht
      have ht' : t < blk.length := List.mem_range.mp ht
      simp [addRange, ht']
    · apply List.map_congr_left
      intro t _
      simp only [Function.comp]
      rw [show m + blk.length + t + L = m + (blk.length + t) + L by omega]


theorem impulseHist_out (g : α) (L D t : Nat) (hD1 : 1 ≤ D) (hDL : D ≤ L) :
    impulseHist g L D (t + L - D) = echo g D t := by
  unfold impulseHist echo
  by_cases ht : t < D
  · have h1 : ¬ (L ≤ t + L - D ∧ D ∣ (t + L - D - L)) := by omega
    have h2 : ¬ (t ≠ 0 ∧ D ∣ t) := by
      rintro ⟨h0, hd⟩
      have := Nat.le_of_dvd (by omega) hd
      omega
    simp only [h1, h2, if_false]
  · have e : t + L - D - L = t - D := by omega
    rw [e]
    by_cases hd : D ∣ t
    · obtain ⟨q, rfl⟩ := hd
      have hq : 1 ≤ q := by
        rcases Nat.eq_zero_or_pos q with h0 | h0
        · subst h0
          omega
        · exact h0
      have e2 : D * q - D = D * (q - 1) := by
        rw [Nat.mul_sub, Nat.mul_one]
      have h1 : L ≤ D * q + L - D ∧ D ∣ (D * q - D) :=
        ⟨by omega, by rw [e2]; exact ⟨_, rfl⟩⟩
      have h2 : D * q ≠ 0 ∧ D ∣ D * q := ⟨by
        have : 0 < D * q := Nat.mul_pos (by omega) hq
        omega, ⟨_, rfl⟩⟩
      rw [if_pos h1, if_pos h2, e2, Nat.mul_div_cancel_left _ (by omega : 0 < D),
        Nat.mul_div_cancel_left _ (by omega : 0 < D)]
    · have h1 : ¬ (L ≤ t + L - D ∧ D ∣ (t - D)) := by
        rintro ⟨_, h⟩
        have e3 : t = (t - D) + D := by omega
        have h3 : D ∣ (t - D) + D := dvd_add h (dvd_refl D)
        rw [← e3] at h3
        exact hd h3
      have h2 : ¬ (t ≠ 0 ∧ D ∣ t) := fun h => hd h.2
      simp only [h1, h2, if_false]

theorem impulseHist_rec (g : α) (L D t : Nat) (hD1 : 1 ≤ D) (hDL : D ≤ L) :
    impulseHist g L D (t + L) =
      (if t = 0 then 1 else 0) + impulseHist g L D (t + L - D) * g := by
  rw [impulseHist_out g L D t hD1 hDL]
  unfold impulseHist echo
  have e : t + L - L = t := by omega
  rw [e]
  by_cases h0 : t = 0
  · subst h0
    simp
  · by_cases hd : D ∣ t
    · have hq : 1 ≤ t / D := by
        obtain ⟨q, rfl⟩ := hd
        rw [Nat.mul_div_cancel_left _ (by omega : 0 < D)]
        rcases Nat.eq_zero_or_pos q with hq0 | hq0
        · subst hq0
          simp at h0
        · exact hq0
      have h1 : L ≤ t + L ∧ D ∣ t := ⟨by omega, hd⟩
      have h2 : t ≠ 0 ∧ D ∣ t := ⟨h0, hd⟩
      rw [if_pos h1, if_pos h2, if_neg h0, zero_add, ← pow_succ, Nat.sub_add_cancel hq]
    · have h1 : ¬ (L ≤ t + L ∧ D ∣ t) := fun h => hd h.2
      have h2 : ¬ (t ≠ 0 ∧ D ∣ t) := fun h => hd h.2
      rw [if_neg h1, if_neg h2, if_neg h0, zero_mul, add_zero]

theorem impulse_getD (n t : Nat) :
    (((1, 1) :: List.replicate n (0, 0) : List (α × α)).getD t (0, 0))
      = if t = 0 then (1, 1) else (0, 0) := by
  cases t with
  | zero => rfl
  | succ t =>
    rw [if_neg (Nat.succ_ne_zero t), List.getD_cons_succ, List.getD_eq_getElem?_getD,
      List.getElem?_replicate]
    split_ifs <;> rfl

theorem lineHist_silent (g : α) (L D W : Nat) (hW : W < L) :
    LineHist L (List.replicate (2 * L) (0 : α)) W (impulseHist g L D) (impulseHist g L D)
      0 := by
  refine ⟨List.length_replicate _ _, hW, fun t ht => ?_⟩
  have hq : (W + t) % L < L := Nat.mod_lt _ (by omega)
  have h1 : ¬ (L ≤ 0 + t ∧ D ∣ (0 + t - L)) := by omega
  simp only [impulseHist, h1, if_false, List.getElem?_replicate]
  constructor
  · rw [if_pos (by omega)]
  · rw [if_pos (by omega)]

/-- C7: a feedback line of `L` frames with tap offset `1 ≤ D < L` and feedback
gain `g`, started from an all-zero buffer at any write cursor and fed, in any
split into blocks, a unit impulse followed by `n` zero frames, emits at frame
`m` the wet value (tapped before the write) `g ^ (k - 1)` when `m = k * D` with
`k ≥ 1` and 0 at every other frame; and the delay line of a constructed engine
has `L = 2 * sample_rate`, `D = floor (0.375 * sample_rate)`, `g = 0.5` and a
zero buffer. -/
theorem delay_tap_impulse_response (L D w : Int) (g : α) (hD1 : 1 ≤ D) (hDL : D < L)
    (hw0 : 0 ≤ w) (hw : w < L) (blocks : List (List (α × α))) (n : Nat)
    (hblocks : blocks.flatten = (1, 1) :: List.replicate n (0, 0)) :
    (∃ buf1 w1 outs,
      effectBlocks L D g (fun d => d) blocks (List.replicate (L * 2).toNat 0) w =
        some (buf1, w1, outs) ∧
      outs.flatten.length = n + 1 ∧
      ∀ m, m ≤ n → outs.flatten[m]? = some (echo g D.toNat m, echo g D.toNat m)) ∧
    (∀ sample_rate : Int, 0 ≤ sample_rate →
      (new sample_rate : CppAudioEngine α).delay_len_ = 2 * sample_rate ∧
      (new sample_rate : CppAudioEngine α).delay_time_samples_ =
        Int.floor (0.375 * (sample_rate : α)) ∧
      (new sample_rate : CppAudioEngine α).delay_feedback_ = 0.5 ∧
      (new sample_rate : CppAudioEngine α).delay_write_pos_ = 0 ∧
      (new sample_rate : CppAudioEngine α).delay_buffer_ =
        List.replicate ((new sample_rate : CppAudioEngine α).delay_len_ * 2).toNat 0) := by
  constructor
  · obtain ⟨L', rfl⟩ := Int.eq_ofNat_of_zero_le (by omega : 0 ≤ L)
    obtain ⟨D', rfl⟩ := Int.eq_ofNat_of_zero_le (by omega : 0 ≤ D)
    obtain ⟨W, rfl⟩ := Int.eq_ofNat_of_zero_le hw0
    have hD1' : 1 ≤ D' := by omega
    have hDL' : D' ≤ L' := by omega
    have hW : W < L' := by omega
    have e : ((L' : Int) * 2).toNat = 2 * L' := by omega
    rw [e, Int.toNat_ofNat]
    obtain ⟨buf1, W1, outs, hrun, hout, -⟩ :=
      effectBlocks_hist L' D' g (impulseHist g L' D') (impulseHist g L' D') hD1' hDL'
        blocks W (List.replicate (2 * L') 0) 0 (lineHist_silent g L' D' W hW)
        (fun t _ => by
          rw [hblocks, impulse_getD, Nat.zero_add, impulseHist_rec g L' D' t hD1' hDL']
          split_ifs <;> exact ⟨rfl, rfl⟩)
    refine ⟨buf1, W1, outs, hrun, ?_, fun m hm => ?_⟩
    · rw [hout, List.length_map, List.length_range, hblocks]
      simp
    · rw [hout, List.getElem?_map, List.getElem?_range (by rw [hblocks]; simp; omega)]
      simp only [Option.map_some', Nat.zero_add, impulseHist_out g L' D' m hD1' hDL']
  · intro sample_rate hsr
    have hpos : (0 : α) ≤ (sample_rate : α) * 0.375 :=
      mul_nonneg (by exact_mod_cast hsr) (by norm_num)
    refine ⟨by simp only [new]; ring, ?_, rfl, rfl, ?_⟩
    · simp only [new]
      rw [toInt_of_nonneg _ hpos, mul_comm]
    · simp only [new]


/-- C7 (witness): the engine's delay line at 44100 Hz (`L = 88200`,
`D = 16537`, `g = 1/2`), an impulse and 33074 zero frames split into two
blocks: the wet output is 0 at frame 16536, the impulse at frame 16537 and half
the impulse at frame 33074. -/
theorem delay_tap_impulse_response_witness :
    ((1 : Int) ≤ 16537 ∧ (16537 : Int) < 88200 ∧ (0 : Int) ≤ 0 ∧ (0 : Int) < 88200 ∧
      ([[(1, 1)], List.replicate 33074 (0, 0)] : List (List (ℚ × ℚ))).flatten =
        (1, 1) :: List.replicate 33074 (0, 0)) ∧
    ∃ buf1 w1 outs,
      effectBlocks 88200 16537 (1 / 2 : ℚ) (fun d => d)
        [[(1, 1)], List.replicate 33074 (0, 0)]
        (List.replicate ((88200 : Int) * 2).toNat 0) 0 = some (buf1, w1, outs) ∧
      outs.flatten.length = 33074 + 1 ∧
      outs.flatten[16536]? = some (0, 0) ∧
      outs.flatten[16537]? = some (1, 1) ∧
      outs.flatten[33074]? = some (1 / 2, 1 / 2) := by
  have hb : ([[(1, 1)], List.replicate 33074 (0, 0)] : List (List (ℚ × ℚ))).flatten =
      (1, 1) :: List.replicate 33074 (0, 0) := by
    rw [List.flatten_cons, List.flatten_cons, List.flatten_nil, List.append_nil]
    rfl
  obtain ⟨buf1, w1, outs, hrun, hlen, hout⟩ :=
    (delay_tap_impulse_response 88200 16537 0 (1 / 2 : ℚ) (by decide) (by decide) (by decide)
      (by decide) [[(1, 1)], List.replicate 33074 (0, 0)] 33074 hb).1
  have e0 : echo (1 / 2 : ℚ) (16537 : Int).toNat 16536 = 0 := by
    have hc : ¬ (16536 ≠ 0 ∧ (16537 : Int).toNat ∣ 16536) := by decide
    unfold echo
    rw [if_neg hc]
  have e1 : echo (1 / 2 : ℚ) (16537 : Int).toNat 16537 = 1 := by
    have hc : 16537 ≠ 0 ∧ (16537 : Int).toNat ∣ 16537 := by decide
    have hd : 16537 / (16537 : Int).toNat - 1 = 0 := by decide
    unfold echo
    rw [if_pos hc, hd, pow_zero]
  have e2 : echo (1 / 2 : ℚ) (16537 : Int).toNat 33074 = 1 / 2 := by
    have hc : 33074 ≠ 0 ∧ (16537 : Int).toNat ∣ 33074 := by decide
    have hd : 33074 / (16537 : Int).toNat - 1 = 1 := by decide
    unfold echo
    rw [if_pos hc, hd, pow_one]
  refine ⟨⟨by decide, by decide, by decide, by decide, hb⟩, buf1, w1, outs, hrun, hlen, ?_, ?_, ?_⟩
  · rw [hout 16536 (by decide), e0]
  · rw [hout 16537 (by decide), e1]
  · rw [hout 33074 (by decide), e2]

/-- C11: for a `pad_id` without a registered sample `play_sound` returns the
engine unchanged: pending queue, active voices, sample store and both effect
lines are as before and no voice is created. -/
theorem play_sound_unknown_pad (st : CppAudioEngine α) (pad_id : Int)
    (velocity reverb delay off : α) (h : st.samples_ pad_id = none) :
    play_sound st pad_id velocity reverb delay off = st := by
  simp [play_sound, h]

/-- C11 (witness): pad 5 on a fresh 44100 Hz engine that only has pad 0 loaded. -/
theorem play_sound_unknown_pad_witness :
    (load_sample (new 44100) 0 [1, 1] : CppAudioEngine ℚ).samples_ 5 = none ∧
    play_sound (load_sample (new 44100) 0 [1, 1] : CppAudioEngine ℚ) 5 1 (1 / 2) (1 / 4) 0
      = load_sample (new 44100) 0 [1, 1] :=
  ⟨rfl, play_sound_unknown_pad _ 5 1 (1 / 2) (1 / 4) 0 rfl⟩

/-- C12: for a `pad_id` that has a sample `play_sound` appends exactly one voice
at the end of the pending queue, with that pad, cursor 0, `active = true`, the
given velocity and sends (and the converted start delay); the earlier pending
entries, the active voices, the sample store and both effect lines are
unchanged. -/
theorem play_sound_appends_one_voice (st : CppAudioEngine α) (pad_id : Int) (s : List α)
    (velocity reverb delay off : α) (h : st.samples_ pad_id = some s) :
    play_sound st pad_id velocity reverb delay off =
      { st with
        pending_voices_ := st.pending_voices_ ++
          [{ pad_id := pad_id, pos := 0, velocity := velocity, reverb_send := reverb,
             delay_send := delay, active := true,
             start_delay_frames :=
               toInt32 (roundF32 (off * roundF32 (st.sample_rate_ : α))) }] } ∧
    (play_sound st pad_id velocity reverb delay off).pending_voices_.length =
      st.pending_voices_.length + 1 ∧
    (play_sound st pad_id velocity reverb delay off).voices_ = st.voices_ ∧
    (play_sound st pad_id velocity reverb delay off).samples_ = st.samples_ ∧
    (play_sound st pad_id velocity reverb delay off).delay_buffer_ = st.delay_buffer_ ∧
    (play_sound st pad_id velocity reverb delay off).delay_write_pos_ = st.delay_write_pos_ ∧
    (play_sound st pad_id velocity reverb delay off).reverb_buffer_ = st.reverb_buffer_ ∧
    (play_sound st pad_id velocity reverb delay off).reverb_write_pos_ =
      st.reverb_write_pos_ := by
  rw [play_sound_registered st pad_id s h]
  simp

/-- C12 (witness): pad 0 of a fresh 44100 Hz engine holding a one-frame sample. -/
theorem play_sound_appends_one_voice_witness :
    (load_sample (new 44100) 0 [1, 1] : CppAudioEngine ℚ).samples_ 0 = some [1, 1] ∧
    (play_sound (load_sample (new 44100) 0 [1, 1] : CppAudioEngine ℚ) 0 1 (1 / 2) (1 / 4)
        0).pending_voices_.length =
      (load_sample (new 44100) 0 [1, 1] : CppAudioEngine ℚ).pending_voices_.length + 1 :=
  ⟨by simp [load_sample],
   (play_sound_appends_one_voice (load_sample (new 44100) 0 [1, 1]) 0 [1, 1] 1 (1 / 2) (1 / 4)
      0 (by simp [load_sample])).2.1⟩


/-! ## The structure of one `process` call -/

theorem effectLoop_eq_lineRun (len tap : Int) (g : α) (wet : α → α) (in_l in_r : Nat → α) :
    ∀ (n i : Nat) (buf : List α) (w : Int) (mix_l mix_r : Nat → α),
      effectLoop len tap g wet in_l in_r n i buf w mix_l mix_r =
        (lineRun len tap g in_l in_r n i buf w).map (fun r =>
          (r.1, r.2.1,
            addRange mix_l i n (fun s => wet (r.2.2.getD s (0, 0)).1),
            addRange mix_r i n (fun s => wet (r.2.2.getD s (0, 0)).2))) := by
  intro n
  induction n with
  | zero =>
    intro i buf w mix_l mix_r
    simp [effectLoop, lineRun, addRange_zero]
  | succ n ih =>
    intro i buf w mix_l mix_r
    rw [effectLoop, lineRun]
    rcases hstep : lineStep len tap g buf w (in_l i) (in_r i) with _ | ⟨buf1, w1, d_l, d_r⟩
    · rfl
    · simp only []
      rw [ih]
      rcases hrun : lineRun len tap g in_l in_r n (i + 1) buf1 w1 with _ | ⟨buf2, w2, taps⟩
      · rfl
      · simp only [Option.map_some']
        refine congrArg some (Prod.ext rfl (Prod.ext rfl (Prod.ext ?_ ?_)))
        · exact addRange_step mix_l i n
            (fun s => wet (((d_l, d_r) :: taps).getD s (0, 0)).1)
            (fun s => wet (taps.getD s (0, 0)).1) (wet d_l) rfl (fun t => rfl)
        · exact addRange_step mix_r i n
            (fun s => wet (((d_l, d_r) :: taps).getD s (0, 0)).2)
            (fun s => wet (taps.getD s (0, 0)).2) (wet d_r) rfl (fun t => rfl)

theorem voiceStage_eq (st : CppAudioEngine α) (n : Nat) :
    voiceStage st n =
      (voiceLoop n (st.voices_ ++ st.pending_voices_) st.samples_ zeroBuses).map (fun r =>
        ({ st with samples_ := r.2.1, voices_ := r.1.filter (fun v => v.active),
                   pending_voices_ := [] }, r.2.2)) := by
  unfold voiceStage
  rw [drainPending_eq]
  rcases hv : voiceLoop n (st.voices_ ++ st.pending_voices_) st.samples_ zeroBuses
    with _ | ⟨vs1, S1, b⟩ <;> simp [hv]

theorem process_decomp (tanh : α → α) (st st1 : CppAudioEngine α) (frames : Nat)
    (out : List α) (h : process tanh st frames = some (st1, out)) :
    ∃ (vs1 : List (Voice α)) (S1 : Int → Option (List α)) (b : Buses α) (dbuf : List α)
      (dpos : Int) (dt : List (α × α)) (rbuf : List α) (rpos : Int) (rt : List (α × α)),
      voiceLoop (safeFrames frames) (st.voices_ ++ st.pending_voices_) st.samples_ zeroBuses
        = some (vs1, S1, b) ∧
      lineRun st.delay_len_ st.delay_time_samples_ st.delay_feedback_ b.dly_l b.dly_r
        (safeFrames frames) 0 st.delay_buffer_ st.delay_write_pos_ = some (dbuf, dpos, dt) ∧
      lineRun st.reverb_len_ (toInt ((st.sample_rate_ : α) * 0.1)) st.reverb_feedback_
        b.rev_l b.rev_r (safeFrames frames) 0 st.reverb_buffer_ st.reverb_write_pos_
        = some (rbuf, rpos, rt) ∧
      st1 = { st with samples_ := S1, voices_ := vs1.filter (fun v => v.active),
                      pending_voices_ := [], delay_buffer_ := dbuf, delay_write_pos_ := dpos,
                      reverb_buffer_ := rbuf, reverb_write_pos_ := rpos } ∧
      out = writeOut tanh
        (addRange (addRange b.mix_l 0 (safeFrames frames) (fun s => (dt.getD s (0, 0)).1))
          0 (safeFrames frames) (fun s => (rt.getD s (0, 0)).1 * 0.5))
        (addRange (addRange b.mix_r 0 (safeFrames frames) (fun s => (dt.getD s (0, 0)).2))
          0 (safeFrames frames) (fun s => (rt.getD s (0, 0)).2 * 0.5))
        (safeFrames frames) 0 (List.replicate (frames * 2) 0) := by
  rw [process_eq] at h
  unfold mixStage at h
  rw [voiceStage_eq] at h
  rcases hv : voiceLoop (safeFrames frames) (st.voices_ ++ st.pending_voices_) st.samples_
    zeroBuses with _ | ⟨vs1, S1, b⟩
  · rw [hv] at h
    cases h
  · rw [hv] at h
    simp only [Option.map_some', effectLoop_eq_lineRun] at h
    rcases hd : lineRun st.delay_len_ st.delay_time_samples_ st.delay_feedback_ b.dly_l b.dly_r
      (safeFrames frames) 0 st.delay_buffer_ st.delay_write_pos_ with _ | ⟨dbuf, dpos, dt⟩
    · rw [hd] at h
      cases h
    · rw [hd] at h
      simp only [Option.map_some'] at h
      rcases hr : lineRun st.reverb_len_ (toInt ((st.sample_rate_ : α) * 0.1))
        st.reverb_feedback_ b.rev_l b.rev_r (safeFrames frames) 0 st.reverb_buffer_
        st.reverb_write_pos_ with _ | ⟨rbuf, rpos, rt⟩
      · rw [hr] at h
        cases h
      · rw [hr] at h
        simp only [Option.map_some', Option.some.injEq, Prod.mk.injEq] at h
        exact ⟨vs1, S1, b, dbuf, dpos, dt, rbuf, rpos, rt, rfl, hd, hr, h.1.symm, h.2.symm⟩


/-! ## Pending admission -/

theorem voiceLoop_append (n : Nat) :
    ∀ (xs ys : List (Voice α)) (S : Int → Option (List α)) (B : Buses α),
      voiceLoop n (xs ++ ys) S B =
        match voiceLoop n xs S B with
        | none => none
        | some (xs1, S1, B1) =>
          match voiceLoop n ys S1 B1 with
          | none => none
          | some (ys1, S2, B2) => some (xs1 ++ ys1, S2, B2) := by
  intro xs
  induction xs with
  | nil =>
    intro ys S B
    simp only [List.nil_append, voiceLoop]
    rcases voiceLoop n ys S B with _ | ⟨ys1, S2, B2⟩ <;> rfl
  | cons x xs ih =>
    intro ys S B
    rw [List.cons_append]
    rcases hx : renderVoice n x S B with _ | ⟨x1, S1, B1⟩
    · simp [voiceLoop, hx]
    · rcases hxs : voiceLoop n xs S1 B1 with _ | ⟨xs1, S2, B2⟩
      · simp [voiceLoop, hx, hxs, ih]
      · rcases hys : voiceLoop n ys S2 B2 with _ | ⟨ys1, S3, B3⟩ <;>
          simp [voiceLoop, hx, hxs, hys, ih]

theorem voiceLoop_length (n : Nat) :
    ∀ (vs vs1 : List (Voice α)) (S S1 : Int → Option (List α)) (B B1 : Buses α),
      voiceLoop n vs S B = some (vs1, S1, B1) → vs1.length = vs.length := by
  intro vs
  induction vs with
  | nil =>
    intro vs1 S S1 B B1 h
    simp only [voiceLoop, Option.some.injEq, Prod.mk.injEq] at h
    rw [← h.1]
  | cons x xs ih =>
    intro vs1 S S1 B B1 h
    simp only [voiceLoop] at h
    rcases hx : renderVoice n x S B with _ | ⟨x1, S2, B2⟩
    · rw [hx] at h
      cases h
    · rw [hx] at h
      simp only [] at h
      rcases hxs : voiceLoop n xs S2 B2 with _ | ⟨xs1, S3, B3⟩
      · rw [hxs] at h
        cases h
      · rw [hxs] at h
        simp only [Option.some.injEq, Prod.mk.injEq] at h
        rw [← h.1, List.length_cons, List.length_cons, ih xs1 S2 S3 B2 B3 hxs]

theorem renderVoice_total (n : Nat) (voice : Voice α) (S : Int → Option (List α))
    (B : Buses α)
    (h : voice.active = true → ∃ s, S voice.pad_id = some s ∧ s.length ≠ 0) :
    ∃ v1 B1, renderVoice n voice S B = some (v1, S, B1) := by
  unfold renderVoice
  by_cases hact : voice.active = true
  · obtain ⟨s, hs, hne⟩ := h hact
    simp only [hact, hs, Bool.not_true, Bool.false_eq_true, if_false, Option.getD_some]
    split_ifs
    · exact ⟨_, _, rfl⟩
    · rw [renderLoop_eq s hne]
      exact ⟨_, _, rfl⟩
    · rw [renderLoop_eq s hne]
      exact ⟨_, _, rfl⟩
  · have hf : voice.active = false := by simpa using hact
    simp only [hf, Bool.not_false, if_true]
    exact ⟨_, _, rfl⟩

theorem voiceLoop_total (n : Nat) :
    ∀ (vs : List (Voice α)) (S : Int → Option (List α)) (B : Buses α), VoicesOK S vs →
      ∃ vs1 B1, voiceLoop n vs S B = some (vs1, S, B1) := by
  intro vs
  induction vs with
  | nil =>
    intro S B _
    exact ⟨[], B, rfl⟩
  | cons x xs ih =>
    intro S B hv
    obtain ⟨x1, B1, hx⟩ := renderVoice_total n x S B (hv x (List.mem_cons_self x xs))
    obtain ⟨xs1, B2, hxs⟩ := ih S B1 (fun v hm => hv v (List.mem_cons_of_mem x hm))
    refine ⟨x1 :: xs1, B2, ?_⟩
    simp only [voiceLoop, hx, hxs]

theorem process_returns (tanh : α → α) (st : CppAudioEngine α) (frames : Nat)
    (hl : LinesOK st) (hv : VoicesOK st.samples_ (st.voices_ ++ st.pending_voices_)) :
    ∃ st1 out, process tanh st frames = some (st1, out) := by
  obtain ⟨vs1, b, hloop⟩ := voiceLoop_total (safeFrames frames) _ st.samples_ zeroBuses hv
  have hvs : voiceStage st (safeFrames frames) =
      some ({ st with samples_ := st.samples_, voices_ := vs1.filter (fun v => v.active),
                      pending_voices_ := [] }, b) := by
    rw [voiceStage_eq, hloop]
    rfl
  obtain ⟨dbuf, dpos, rbuf, rpos, dl, dr, rl, rr, hmix, -⟩ :=
    mixStage_pred (fun _ => True) st _ b (safeFrames frames) hvs hl
      (fun _ _ => trivial) (fun _ _ => trivial) (fun _ _ _ _ => ⟨trivial, trivial⟩)
      (fun _ _ _ _ => ⟨trivial, trivial⟩)
  exact ⟨_, _, by rw [process_eq, hmix]; rfl⟩

/-! ## Index validity of the effect lines -/

theorem lineRun_pred (len tap : Int) (g : α) (in_l in_r : Nat → α) (P : α → Prop) :
    ∀ (n i : Nat) (buf : List α) (w : Int),
      LineOK len tap buf w → (∀ x ∈ buf, P x) →
      (∀ j, i ≤ j → j < i + n → ∀ d, P d → P (in_l j + d * g) ∧ P (in_r j + d * g)) →
      ∃ (buf1 : List α) (w1 : Int) (taps : List (α × α)),
        lineRun len tap g in_l in_r n i buf w = some (buf1, w1, taps) ∧
        LineOK len tap buf1 w1 ∧ (∀ x ∈ buf1, P x) ∧ taps.length = n ∧
        (∀ t ∈ taps, P t.1 ∧ P t.2) := by
  intro n
  induction n with
  | zero =>
    intro i buf w hok hP _
    exact ⟨buf, w, [], rfl, hok, hP, rfl, fun t ht => absurd ht (List.not_mem_nil t)⟩
  | succ n ih =>
    intro i buf w hok hP hin
    obtain ⟨buf1, d_l, d_r, hstep, hok1, hdl, hdr, hmem⟩ :=
      lineStep_ok len tap g buf w (in_l i) (in_r i) hok
    have hPd := hin i (Nat.le_refl i) (by omega)
    have hP1 : ∀ x ∈ buf1, P x := by
      intro x hx
      rcases hmem x hx with h | h | h
      · exact hP x h
      · rw [h]
        exact (hPd d_l (hP d_l hdl)).1
      · rw [h]
        exact (hPd d_r (hP d_r hdr)).2
    obtain ⟨buf2, w2, taps, hrun, hok2, hP2, hlen, htaps⟩ :=
      ih (i + 1) buf1 (Int.tmod (w + 1) len) hok1 hP1
        (fun j hj1 hj2 => hin j (by omega) (by omega))
    refine ⟨buf2, w2, (d_l, d_r) :: taps, ?_, hok2, hP2, by rw [List.length_cons, hlen], ?_⟩
    · rw [lineRun]
      simp only [hstep, hrun]
    · intro t ht
      rcases List.mem_cons.mp ht with h | h
      · rw [h]
        exact ⟨hP d_l hdl, hP d_r hdr⟩
      · exact htaps t h

theorem play_sound_lines (st : CppAudioEngine α) (pad : Int) (v r d off : α) :
    (play_sound st pad v r d off).sample_rate_ = st.sample_rate_ ∧
    (play_sound st pad v r d off).delay_len_ = st.delay_len_ ∧
    (play_sound st pad v r d off).delay_time_samples_ = st.delay_time_samples_ ∧
    (play_sound st pad v r d off).delay_write_pos_ = st.delay_write_pos_ ∧
    (play_sound st pad v r d off).reverb_len_ = st.reverb_len_ ∧
    (play_sound st pad v r d off).reverb_write_pos_ = st.reverb_write_pos_ ∧
    (play_sound st pad v r d off).delay_buffer_ = st.delay_buffer_ ∧
    (play_sound st pad v r d off).reverb_buffer_ = st.reverb_buffer_ := by
  unfold play_sound
  split <;> exact ⟨rfl, rfl, rfl, rfl, rfl, rfl, rfl, rfl⟩

theorem linesOf_reachable (sample_rate : Int) (hsr : 1 ≤ sample_rate)
    (st : CppAudioEngine α) (h : Reachable sample_rate st) : LinesOf sample_rate st := by
  induction h with
  | init => exact ⟨rfl, rfl, rfl, rfl, new_linesOK sample_rate hsr⟩
  | load st pad data _ ih => exact ih
  | play st pad v r d off _ ih =>
    obtain ⟨h1, h2, h3, h4, h5, h6⟩ := ih
    obtain ⟨p1, p2, p3, p4, p5, p6, p7, p8⟩ := play_sound_lines st pad v r d off
    refine ⟨by rw [p1, h1], by rw [p2, h2], by rw [p3, h3], by rw [p5, h4], ?_⟩
    unfold LinesOK
    rw [p1, p2, p3, p4, p5, p6, p7, p8]
    exact ⟨h5, h6⟩
  | block tanh st st1 frames out _ hp ih =>
    obtain ⟨h1, h2, h3, h4, h5, h6⟩ := ih
    obtain ⟨vs1, S1, b, dbuf, dpos, dt, rbuf, rpos, rt, -, hd, hr, hst, -⟩ :=
      process_decomp tanh st st1 frames out hp
    obtain ⟨dbuf', dpos', dt', hd', hdok, -⟩ :=
      lineRun_pred st.delay_len_ st.delay_time_samples_ st.delay_feedback_ b.dly_l b.dly_r
        (fun _ => True) (safeFrames frames) 0 st.delay_buffer_ st.delay_write_pos_ h5
        (fun _ _ => trivial) (fun _ _ _ _ _ => ⟨trivial, trivial⟩)
    obtain ⟨rbuf', rpos', rt', hr', hrok, -⟩ :=
      lineRun_pred st.reverb_len_ (toInt ((st.sample_rate_ : α) * 0.1)) st.reverb_feedback_
        b.rev_l b.rev_r (fun _ => True) (safeFrames frames) 0 st.reverb_buffer_
        st.reverb_write_pos_ h6 (fun _ _ => trivial) (fun _ _ _ _ _ => ⟨trivial, trivial⟩)
    rw [hd] at hd'
    rw [hr] at hr'
    simp only [Option.some.injEq, Prod.mk.injEq] at hd' hr'
    obtain ⟨e1, e2, -⟩ := hd'
    obtain ⟨e3, e4, -⟩ := hr'
    subst e1 e2 e3 e4
    rw [hst]
    exact ⟨h1, h2, h3, h4, hdok, hrok⟩

/-- C14: in every state reachable from `CppAudioEngine(sample_rate)`,
`sample_rate ≥ 1`, by `process` calls (and by `load_sample` and `play_sound`
calls), for the delay line and for the reverb line: the line length is the one
set at construction and the buffer has `2 * length` floats; the write cursor
`w` satisfies `0 ≤ w < length`; the read tap `(w - tap + length) % length` lies
in `[0, length)`; the four indices `2 * index`, `2 * index + 1` used on the
buffer are within it; and the effect loops run any number of frames on any
input without an out-of-range access. -/
theorem line_index_validity (sample_rate : Int) (hsr : 1 ≤ sample_rate)
    (st : CppAudioEngine α) (h : Reachable sample_rate st) :
    (st.delay_len_ = sample_rate * 2 ∧ ((st.delay_buffer_.length : Nat) : Int) = 2 * st.delay_len_ ∧
      0 ≤ st.delay_write_pos_ ∧ st.delay_write_pos_ < st.delay_len_ ∧
      0 ≤ Int.tmod (st.delay_write_pos_ - st.delay_time_samples_ + st.delay_len_) st.delay_len_ ∧
      Int.tmod (st.delay_write_pos_ - st.delay_time_samples_ + st.delay_len_) st.delay_len_
        < st.delay_len_ ∧
      0 ≤ Int.tmod (st.delay_write_pos_ - st.delay_time_samples_ + st.delay_len_)
        st.delay_len_ * 2 ∧
      Int.tmod (st.delay_write_pos_ - st.delay_time_samples_ + st.delay_len_)
        st.delay_len_ * 2 + 1 < ((st.delay_buffer_.length : Nat) : Int) ∧
      0 ≤ st.delay_write_pos_ * 2 ∧
      st.delay_write_pos_ * 2 + 1 < ((st.delay_buffer_.length : Nat) : Int) ∧
      ∀ (in_l in_r : Nat → α) (n : Nat), ∃ r,
        lineRun st.delay_len_ st.delay_time_samples_ st.delay_feedback_ in_l in_r n 0
          st.delay_buffer_ st.delay_write_pos_ = some r) ∧
    (st.reverb_len_ = sample_rate * 3 ∧
      ((st.reverb_buffer_.length : Nat) : Int) = 2 * st.reverb_len_ ∧
      0 ≤ st.reverb_write_pos_ ∧ st.reverb_write_pos_ < st.reverb_len_ ∧
      0 ≤ Int.tmod (st.reverb_write_pos_ - toInt ((st.sample_rate_ : α) * 0.1) + st.reverb_len_)
        st.reverb_len_ ∧
      Int.tmod (st.reverb_write_pos_ - toInt ((st.sample_rate_ : α) * 0.1) + st.reverb_len_)
        st.reverb_len_ < st.reverb_len_ ∧
      0 ≤ Int.tmod (st.reverb_write_pos_ - toInt ((st.sample_rate_ : α) * 0.1) + st.reverb_len_)
        st.reverb_len_ * 2 ∧
      Int.tmod (st.reverb_write_pos_ - toInt ((st.sample_rate_ : α) * 0.1) + st.reverb_len_)
        st.reverb_len_ * 2 + 1 < ((st.reverb_buffer_.length : Nat) : Int) ∧
      0 ≤ st.reverb_write_pos_ * 2 ∧
      st.reverb_write_pos_ * 2 + 1 < ((st.reverb_buffer_.length : Nat) : Int) ∧
      ∀ (in_l in_r : Nat → α) (n : Nat), ∃ r,
        lineRun st.reverb_len_ (toInt ((st.sample_rate_ : α) * 0.1)) st.reverb_feedback_
          in_l in_r n 0 st.reverb_buffer_ st.reverb_write_pos_ = some r) := by
  obtain ⟨-, h2, -, h4, hd, hr⟩ := linesOf_reachable sample_rate hsr st h
  have key : ∀ (len tap w : Int) (buf : List α) (g : α), LineOK len tap buf w →
      ((buf.length : Nat) : Int) = 2 * len ∧ 0 ≤ w ∧ w < len ∧
      0 ≤ Int.tmod (w - tap + len) len ∧ Int.tmod (w - tap + len) len < len ∧
      0 ≤ Int.tmod (w - tap + len) len * 2 ∧
      Int.tmod (w - tap + len) len * 2 + 1 < ((buf.length : Nat) : Int) ∧
      0 ≤ w * 2 ∧ w * 2 + 1 < ((buf.length : Nat) : Int) ∧
      ∀ (in_l in_r : Nat → α) (n : Nat), ∃ r,
        lineRun len tap g in_l in_r n 0 buf w = some r := by
    intro len tap w buf g hok
    have hok' := hok
    obtain ⟨hlen, htap0, htap, hw0, hw, hbuf⟩ := hok
    have hne : len ≠ 0 := by omega
    have hrp : Int.tmod (w - tap + len) len = (w - tap + len) % len :=
      Int.tmod_eq_emod (by omega) (by omega)
    have hrp0 : 0 ≤ (w - tap + len) % len := Int.emod_nonneg _ hne
    have hrp1 : (w - tap + len) % len < len := Int.emod_lt_of_pos _ hlen
    rw [hrp]
    refine ⟨by omega, hw0, hw, hrp0, hrp1, by omega, by omega, by omega, by omega, ?_⟩
    intro in_l in_r n
    obtain ⟨buf1, w1, taps, hrun, -⟩ :=
      lineRun_pred len tap g in_l in_r (fun _ => True) n 0 buf w hok' (fun _ _ => trivial)
        (fun _ _ _ _ _ => ⟨trivial, trivial⟩)
    exact ⟨_, hrun⟩
  exact ⟨⟨h2, key _ _ _ _ _ hd⟩, ⟨h4, key _ _ _ _ _ hr⟩⟩

/-- C14 (witness): the freshly constructed 44100 Hz engine. -/
theorem line_index_validity_witness :
    ((1 : Int) ≤ 44100 ∧ Reachable 44100 (new 44100 : CppAudioEngine ℚ)) ∧
    (new 44100 : CppAudioEngine ℚ).delay_len_ = 44100 * 2 ∧
    (0 : Int) ≤ (new 44100 : CppAudioEngine ℚ).delay_write_pos_ ∧
    (new 44100 : CppAudioEngine ℚ).delay_write_pos_ < (new 44100 : CppAudioEngine ℚ).delay_len_ :=
  ⟨⟨by decide, Reachable.init⟩,
   (line_index_validity 44100 (by decide) (new 44100 : CppAudioEngine ℚ) Reachable.init).1.1,
   (line_index_validity 44100 (by decide) (new 44100 : CppAudioEngine ℚ)
      Reachable.init).1.2.2.1,
   (line_index_validity 44100 (by decide) (new 44100 : CppAudioEngine ℚ)
      Reachable.init).1.2.2.2.1⟩


/-! ## Admission of pending voices -/

/-- C13 (amended): the admission step empties the pending queue and puts the
pending voices behind the active ones in insertion order, and the voice loop of
the same block runs over exactly that list (first and second part).  In an
engine whose effect lines are index-valid and in which every active voice,
listed or pending, is on a pad with a non-empty sample, `process` returns,
leaves the pending queue empty and has rendered every listed voice once (third
part); each pending voice is rendered in that block after all voices before
it and before all voices behind it (fourth part); and a voice with zero start
delay whose cursor has a stereo pair left adds its frame at index 0 of that
block (fifth part). -/
theorem pending_admission (tanh : α → α) (st : CppAudioEngine α) (frames : Nat)
    (hl : LinesOK st) (hv : VoicesOK st.samples_ (st.voices_ ++ st.pending_voices_)) :
    ((drainPending st).pending_voices_ = [] ∧
      (drainPending st).voices_ = st.voices_ ++ st.pending_voices_) ∧
    (voiceStage st (safeFrames frames) =
      (voiceLoop (safeFrames frames) (st.voices_ ++ st.pending_voices_) st.samples_
        zeroBuses).map (fun r =>
          ({ st with samples_ := r.2.1, voices_ := r.1.filter (fun v => v.active),
                     pending_voices_ := [] }, r.2.2))) ∧
    (∃ st1 out vs1 b, process tanh st frames = some (st1, out) ∧
      st1.pending_voices_ = [] ∧
      voiceLoop (safeFrames frames) (st.voices_ ++ st.pending_voices_) st.samples_ zeroBuses
        = some (vs1, st.samples_, b) ∧
      vs1.length = st.voices_.length + st.pending_voices_.length ∧
      st1.voices_ = vs1.filter (fun v => v.active)) ∧
    (∀ pre p post, st.pending_voices_ = pre ++ p :: post →
      ∃ xs1 Ba p1 Bb ys1 b,
        voiceLoop (safeFrames frames) (st.voices_ ++ pre) st.samples_ zeroBuses
          = some (xs1, st.samples_, Ba) ∧
        renderVoice (safeFrames frames) p st.samples_ Ba = some (p1, st.samples_, Bb) ∧
        voiceLoop (safeFrames frames) post st.samples_ Bb = some (ys1, st.samples_, b) ∧
        voiceLoop (safeFrames frames) (st.voices_ ++ st.pending_voices_) st.samples_ zeroBuses
          = some (xs1 ++ p1 :: ys1, st.samples_, b)) ∧
    (∀ (p : Voice α) (S : Int → Option (List α)) (B : Buses α) (s : List α),
      p.active = true → p.start_delay_frames = 0 → S p.pad_id = some s →
      p.pos + 1 < s.length → 1 ≤ safeFrames frames →
      ∃ p1 B1, renderVoice (safeFrames frames) p S B = some (p1, S, B1) ∧
        B1.mix_l 0 = B.mix_l 0 + p.velocity * s.getD p.pos 0 ∧
        B1.mix_r 0 = B.mix_r 0 + p.velocity * s.getD (p.pos + 1) 0) := by
  refine ⟨?_, voiceStage_eq st (safeFrames frames), ?_, ?_, ?_⟩
  · rw [drainPending_eq]
    exact ⟨rfl, rfl⟩
  · obtain ⟨st1, out, h⟩ := process_returns tanh st frames hl hv
    obtain ⟨vs1, b, hloop⟩ := voiceLoop_total (safeFrames frames) _ st.samples_ zeroBuses hv
    obtain ⟨vs2, S2, b2, dbuf, dpos, dt, rbuf, rpos, rt, hv2, -, -, hst, -⟩ :=
      process_decomp tanh st st1 frames out h
    rw [hloop] at hv2
    simp only [Option.some.injEq, Prod.mk.injEq] at hv2
    obtain ⟨e1, -, -⟩ := hv2
    subst e1
    refine ⟨st1, out, vs1, b, h, by rw [hst], hloop, ?_, by rw [hst]⟩
    rw [voiceLoop_length _ _ _ _ _ _ _ hloop, List.length_append]
  · intro pre p post hp
    have hv1 : VoicesOK st.samples_ (st.voices_ ++ pre) := by
      intro v hm
      apply hv v
      rw [hp]
      rcases List.mem_append.mp hm with h | h
      · exact List.mem_append_left _ h
      · exact List.mem_append_right _ (List.mem_append_left _ h)
    have hv2 : p.active = true → ∃ s, st.samples_ p.pad_id = some s ∧ s.length ≠ 0 := by
      apply hv p
      rw [hp]
      exact List.mem_append_right _ (List.mem_append_right _ (List.mem_cons_self p post))
    have hv3 : VoicesOK st.samples_ post := by
      intro v hm
      apply hv v
      rw [hp]
      exact List.mem_append_right _ (List.mem_append_right _ (List.mem_cons_of_mem p hm))
    obtain ⟨xs1, Ba, hx⟩ := voiceLoop_total (safeFrames frames) _ st.samples_ zeroBuses hv1
    obtain ⟨p1, Bb, hr⟩ := renderVoice_total (safeFrames frames) p st.samples_ Ba hv2
    obtain ⟨ys1, b, hy⟩ := voiceLoop_total (safeFrames frames) post st.samples_ Bb hv3
    refine ⟨xs1, Ba, p1, Bb, ys1, b, hx, hr, hy, ?_⟩
    rw [hp, ← List.append_assoc, voiceLoop_append, hx]
    simp only [voiceLoop, hr, hy]
  · intro p S B s hact hsd hS hpos hn
    have hne : s.length ≠ 0 := by omega
    refine ⟨_, _, renderVoice_now (safeFrames frames) p S s B hact hsd hS hne, ?_, ?_⟩
    · have hm : 0 < min (safeFrames frames) (framesLeft s.length p.pos) := by
        unfold framesLeft
        omega
      simp only [accumBuses, addRange, Nat.zero_le, Nat.zero_add, hm, and_self, if_true,
        Nat.sub_zero, Nat.mul_zero, Nat.add_zero]
      ring
    · have hm : 0 < min (safeFrames frames) (framesLeft s.length p.pos) := by
        unfold framesLeft
        omega
      simp only [accumBuses, addRange, Nat.zero_le, Nat.zero_add, hm, and_self, if_true,
        Nat.sub_zero, Nat.mul_zero, Nat.add_zero]
      ring

/-- C13 (counterexample): the claim as stated covers every engine state.  With
a pending voice on a pad that holds an empty sample, and with a pending voice
in an engine constructed with sample rate 0, `process` faults (an out-of-range
sample read, resp. a modulo by the zero line length): the call does not leave
an engine with an empty pending queue and the pending voice is not rendered. -/
theorem pending_voice_in_faulting_block :
    (play_sound (load_sample (new 44100) 1 []) 1 1 0 0
        (0 : ℚ)).pending_voices_.length = 1 ∧
    process (fun x : ℚ => x) (play_sound (load_sample (new 44100) 1 []) 1 1 0 0 0) 256
      = none ∧
    (play_sound (load_sample (new 0) 1 [1, 1, 1 / 2, 1 / 2]) 1 1 0 0
        (0 : ℚ)).pending_voices_.length = 1 ∧
    process (fun x : ℚ => x) (play_sound (load_sample (new 0) 1 [1, 1, 1 / 2, 1 / 2]) 1 1 0 0 0)
      256 = none := by
  refine ⟨?_, empty_sample_fault (fun x : ℚ => x) 44100 1 1 0 0 256 (by decide), ?_,
    zero_rate_fault (fun x : ℚ => x) 1 [1, 1, 1 / 2, 1 / 2] 2 (by decide) rfl 1 0 0 256
      (by decide)⟩
  · rw [play_sound_registered _ 1 [] (by simp [load_sample])]
    rfl
  · rw [play_sound_registered _ 1 [1, 1, 1 / 2, 1 / 2] (by simp [load_sample])]
    rfl

/-- C13 (witness): two triggers on a fresh 44100 Hz engine, one block of 256
frames: the second pending voice is rendered after the first. -/
theorem pending_admission_witness :
    (LinesOK (play_sound (play_sound (load_sample (new 44100) 0
        [1, 1, 1 / 2, 1 / 2, 0, 0, -1 / 2, -1 / 2]) 0 1 0 0 0) 0 (1 / 2) 0 0 (0 : ℚ)) ∧
      VoicesOK (play_sound (play_sound (load_sample (new 44100) 0
        [1, 1, 1 / 2, 1 / 2, 0, 0, -1 / 2, -1 / 2]) 0 1 0 0 0) 0 (1 / 2) 0 0 (0 : ℚ)).samples_
        ((play_sound (play_sound (load_sample (new 44100) 0
          [1, 1, 1 / 2, 1 / 2, 0, 0, -1 / 2, -1 / 2]) 0 1 0 0 0) 0 (1 / 2) 0 0
          (0 : ℚ)).voices_ ++
         (play_sound (play_sound (load_sample (new 44100) 0
          [1, 1, 1 / 2, 1 / 2, 0, 0, -1 / 2, -1 / 2]) 0 1 0 0 0) 0 (1 / 2) 0 0
          (0 : ℚ)).pending_voices_)) ∧
    ∃ st1 out vs1 b,
      process (fun x : ℚ => x)
        (play_sound (play_sound (load_sample (new 44100) 0
          [1, 1, 1 / 2, 1 / 2, 0, 0, -1 / 2, -1 / 2]) 0 1 0 0 0) 0 (1 / 2) 0 0 0) 256
        = some (st1, out) ∧
      st1.pending_voices_ = [] ∧
      voiceLoop (safeFrames 256)
        ((play_sound (play_sound (load_sample (new 44100) 0
          [1, 1, 1 / 2, 1 / 2, 0, 0, -1 / 2, -1 / 2]) 0 1 0 0 0) 0 (1 / 2) 0 0
          (0 : ℚ)).voices_ ++
         (play_sound (play_sound (load_sample (new 44100) 0
          [1, 1, 1 / 2, 1 / 2, 0, 0, -1 / 2, -1 / 2]) 0 1 0 0 0) 0 (1 / 2) 0 0
          (0 : ℚ)).pending_voices_)
        (play_sound (play_sound (load_sample (new 44100) 0
          [1, 1, 1 / 2, 1 / 2, 0, 0, -1 / 2, -1 / 2]) 0 1 0 0 0) 0 (1 / 2) 0 0 (0 : ℚ)).samples_
        zeroBuses
        = some (vs1, (play_sound (play_sound (load_sample (new 44100) 0
          [1, 1, 1 / 2, 1 / 2, 0, 0, -1 / 2, -1 / 2]) 0 1 0 0 0) 0 (1 / 2) 0 0
          (0 : ℚ)).samples_, b) ∧
      vs1.length =
        (play_sound (play_sound (load_sample (new 44100) 0
          [1, 1, 1 / 2, 1 / 2, 0, 0, -1 / 2, -1 / 2]) 0 1 0 0 0) 0 (1 / 2) 0 0
          (0 : ℚ)).voices_.length +
        (play_sound (play_sound (load_sample (new 44100) 0
          [1, 1, 1 / 2, 1 / 2, 0, 0, -1 / 2, -1 / 2]) 0 1 0 0 0) 0 (1 / 2) 0 0
          (0 : ℚ)).pending_voices_.length ∧
      st1.voices_ = vs1.filter (fun v => v.active) := by
  have hs0 : (load_sample (new 44100 : CppAudioEngine ℚ) 0
      [1, 1, 1 / 2, 1 / 2, 0, 0, -1 / 2, -1 / 2]).samples_ 0
      = some [1, 1, 1 / 2, 1 / 2, 0, 0, -1 / 2, -1 / 2] := by simp [load_sample]
  have hl : LinesOK (play_sound (play_sound (load_sample (new 44100) 0
      [1, 1, 1 / 2, 1 / 2, 0, 0, -1 / 2, -1 / 2]) 0 1 0 0 0) 0 (1 / 2) 0 0 (0 : ℚ)) :=
    (linesOf_reachable 44100 (by decide) _
      (Reachable.play _ 0 (1 / 2) 0 0 0 (Reachable.play _ 0 1 0 0 0
        (Reachable.load _ 0 _ Reachable.init)))).2.2.2.2
  have hsamp : (play_sound (play_sound (load_sample (new 44100) 0
      [1, 1, 1 / 2, 1 / 2, 0, 0, -1 / 2, -1 / 2]) 0 1 0 0 0) 0 (1 / 2) 0 0
      (0 : ℚ)).samples_ 0 = some [1, 1, 1 / 2, 1 / 2, 0, 0, -1 / 2, -1 / 2] := by
    rw [(play_sound_appends_state _ _ _ _ _ _).2, (play_sound_appends_state _ _ _ _ _ _).2]
    exact hs0
  have hv : VoicesOK (play_sound (play_sound (load_sample (new 44100) 0
        [1, 1, 1 / 2, 1 / 2, 0, 0, -1 / 2, -1 / 2]) 0 1 0 0 0) 0 (1 / 2) 0 0 (0 : ℚ)).samples_
        ((play_sound (play_sound (load_sample (new 44100) 0
          [1, 1, 1 / 2, 1 / 2, 0, 0, -1 / 2, -1 / 2]) 0 1 0 0 0) 0 (1 / 2) 0 0
          (0 : ℚ)).voices_ ++
         (play_sound (play_sound (load_sample (new 44100) 0
          [1, 1, 1 / 2, 1 / 2, 0, 0, -1 / 2, -1 / 2]) 0 1 0 0 0) 0 (1 / 2) 0 0
          (0 : ℚ)).pending_voices_) := by
    intro v hm _
    have hpad : v.pad_id = 0 := by
      rw [play_sound_registered _ 0 _ (by
        rw [(play_sound_appends_state _ _ _ _ _ _).2]
        exact hs0), play_sound_registered _ 0 _ hs0] at hm
      simp only [List.mem_append, List.mem_singleton] at hm
      rcases hm with hm | hm | hm
      · exact absurd hm (List.not_mem_nil v)
      · rcases hm with hm | hm
        · exact absurd hm (List.not_mem_nil v)
        · rw [hm]
      · rw [hm]
    rw [hpad]
    exact ⟨_, hsamp, by decide⟩
  exact ⟨⟨hl, hv⟩, (pending_admission (fun x : ℚ => x) _ 256 hl hv).2.2.1⟩

/-! ## Send routing -/

/-- C19: for a sample of length `len ≥ 1` and any cursor `pos`, the guard
`pos >= len - 1` is false exactly when `pos + 1 < len`; in that case both reads
`sample[pos]` and `sample[pos + 1]` are within the sample and the frame is
rendered; otherwise the voice is marked inactive, the buses stay as they were
and nothing is read.  Hence neither the frame loop nor the rendering of a voice
whose pad holds this sample ever reads outside it, whatever the cursor. -/
theorem sample_reads_in_bounds (sample : List α) (hlen : 1 ≤ sample.length)
    (n i : Nat) (voice : Voice α) (b : Buses α) :
    (voice.pos ≥ (if sample.length = 0 then SIZE_MAX else sample.length - 1) ↔
      ¬ voice.pos + 1 < sample.length) ∧
    (voice.pos + 1 < sample.length →
      ∃ (s_l s_r : α) (b1 : Buses α), sample[voice.pos]? = some s_l ∧
        sample[voice.pos + 1]? = some s_r ∧
        renderLoop sample (n + 1) i voice b =
          renderLoop sample n (i + 1) { voice with pos := voice.pos + 2 } b1) ∧
    (¬ voice.pos + 1 < sample.length →
      renderLoop sample (n + 1) i voice b = some ({ voice with active := false }, b)) ∧
    (∃ r, renderLoop sample n i voice b = some r) ∧
    (∀ (safe_frames : Nat) (samples : Int → Option (List α)),
      samples voice.pad_id = some sample →
      ∃ r, renderVoice safe_frames voice samples b = some r) := by
  have hne : sample.length ≠ 0 := by omega
  have hguard : (voice.pos ≥ (if sample.length = 0 then SIZE_MAX else sample.length - 1) ↔
      ¬ voice.pos + 1 < sample.length) := by
    rw [if_neg hne]
    omega
  refine ⟨hguard, ?_, ?_, ⟨_, renderLoop_eq sample hne n i voice b⟩, ?_⟩
  · intro hlt
    have h0 : sample[voice.pos]? = some (sample.get ⟨voice.pos, by omega⟩) :=
      List.getElem?_eq_getElem (by omega)
    have h1 : sample[voice.pos + 1]? = some (sample.get ⟨voice.pos + 1, hlt⟩) :=
      List.getElem?_eq_getElem hlt
    refine ⟨_, _,
      { mix_l := Function.update b.mix_l i (b.mix_l i + sample.get ⟨voice.pos, by omega⟩ *
          voice.velocity)
        mix_r := Function.update b.mix_r i (b.mix_r i + sample.get ⟨voice.pos + 1, hlt⟩ *
          voice.velocity)
        rev_l := Function.update b.rev_l i (b.rev_l i + sample.get ⟨voice.pos, by omega⟩ *
          voice.velocity * voice.reverb_send)
        rev_r := Function.update b.rev_r i (b.rev_r i + sample.get ⟨voice.pos + 1, hlt⟩ *
          voice.velocity * voice.reverb_send)
        dly_l := Function.update b.dly_l i (b.dly_l i + sample.get ⟨voice.pos, by omega⟩ *
          voice.velocity * voice.delay_send)
        dly_r := Function.update b.dly_r i (b.dly_r i + sample.get ⟨voice.pos + 1, hlt⟩ *
          voice.velocity * voice.delay_send) }, h0, h1, ?_⟩
    rw [renderLoop]
    simp only [h0, h1]
    rw [if_neg (fun hg => hguard.mp hg hlt)]
  · intro hge
    rw [renderLoop]
    simp only
    rw [if_pos (hguard.mpr hge)]
  · intro safe_frames samples hs
    unfold renderVoice
    simp only [hs, Option.getD_some]
    split_ifs
    · exact ⟨_, rfl⟩
    · exact ⟨_, rfl⟩
    · rw [renderLoop_eq sample hne]
      exact ⟨_, rfl⟩
    · rw [renderLoop_eq sample hne]
      exact ⟨_, rfl⟩

/-- C19 (witness): a stale cursor 6 on a sample of odd length 3. -/
theorem sample_reads_in_bounds_witness :
    1 ≤ ([1, 2, 3] : List ℚ).length ∧
    renderLoop ([1, 2, 3] : List ℚ) (4 + 1) 0
      { pad_id := 0, pos := 6, velocity := 1, reverb_send := 0, delay_send := 0,
        active := true, start_delay_frames := 0 } zeroBuses =
      some ({ pad_id := 0, pos := 6, velocity := 1, reverb_send := 0, delay_send := 0,
              active := false, start_delay_frames := 0 }, zeroBuses) :=
  ⟨by decide,
   (sample_reads_in_bounds ([1, 2, 3] : List ℚ) (by decide) 4 0
      { pad_id := 0, pos := 6, velocity := 1, reverb_send := 0, delay_send := 0,
        active := true, start_delay_frames := 0 } zeroBuses).2.2.1 (by decide)⟩


/-! ## Retirement of finished voices -/

theorem reachable_active (sample_rate : Int) (st : CppAudioEngine α)
    (h : Reachable sample_rate st) :
    ∀ v ∈ st.voices_ ++ st.pending_voices_, v.active = true := by
  induction h with
  | init =>
    intro v hv
    exact absurd hv (List.not_mem_nil v)
  | load st pad data _ ih => exact ih
  | play st pad vel r d off _ ih =>
    intro v hv
    unfold play_sound at hv
    rcases hs : st.samples_ pad with _ | s
    · rw [hs] at hv
      exact ih v hv
    · rw [hs] at hv
      simp only [List.mem_append, List.mem_singleton] at hv
      rcases hv with hv | hv | hv
      · exact ih v (List.mem_append_left _ hv)
      · exact ih v (List.mem_append_right _ hv)
      · rw [hv]
  | block tanh st st1 frames out _ hp _ =>
    obtain ⟨vs1, S1, b, dbuf, dpos, dt, rbuf, rpos, rt, -, -, -, hst, -⟩ :=
      process_decomp tanh st st1 frames out hp
    intro v hv
    rw [hst] at hv
    simp only [List.append_nil] at hv
    simpa using (List.mem_filter.mp hv).2

/-- C18: when `process` returns, the active list is the list `vs1` of voices
as the voice loop left them, restricted to those whose `active` flag is still
set: no voice with `active = false` remains, every voice of `vs1` that is still
active is in the list, as often as in `vs1`, and the survivors keep the order
they had in `vs1`, which is the order of the previous active list followed by
the pending queue.  Hence in every state reachable from construction every
voice in the active list and in the pending queue has `active = true`. -/
theorem retirement_keeps_active_voices (tanh : α → α) (st st1 : CppAudioEngine α)
    (frames : Nat) (out : List α)
    (h : process tanh st frames = some (st1, out)) :
    (∃ (vs1 : List (Voice α)) (S1 : Int → Option (List α)) (b : Buses α),
      voiceLoop (safeFrames frames) (st.voices_ ++ st.pending_voices_) st.samples_ zeroBuses
        = some (vs1, S1, b) ∧
      vs1.length = st.voices_.length + st.pending_voices_.length ∧
      st1.voices_ = vs1.filter (fun v => v.active) ∧
      (∀ v ∈ st1.voices_, v.active = true) ∧
      (∀ v ∈ vs1, v.active = true → v ∈ st1.voices_) ∧
      (∀ v ∈ st1.voices_, v ∈ vs1) ∧
      st1.voices_.length = vs1.countP (fun v => v.active) ∧
      List.Sublist st1.voices_ vs1) ∧
    (∀ (sample_rate : Int) (st2 : CppAudioEngine α), Reachable sample_rate st2 →
      ∀ v ∈ st2.voices_ ++ st2.pending_voices_, v.active = true) := by
  refine ⟨?_, fun sr st2 hr => reachable_active sr st2 hr⟩
  obtain ⟨vs1, S1, b, dbuf, dpos, dt, rbuf, rpos, rt, hv, -, -, hst, -⟩ :=
    process_decomp tanh st st1 frames out h
  have hvs : st1.voices_ = vs1.filter (fun v => v.active) := by rw [hst]
  refine ⟨vs1, S1, b, hv, ?_, hvs, ?_, ?_, ?_, ?_, ?_⟩
  · rw [voiceLoop_length _ _ _ _ _ _ _ hv, List.length_append]
  · intro v hm
    rw [hvs] at hm
    simpa using (List.mem_filter.mp hm).2
  · intro v hm ha
    rw [hvs]
    exact List.mem_filter.mpr ⟨hm, by simpa using ha⟩
  · intro v hm
    rw [hvs] at hm
    exact (List.mem_filter.mp hm).1
  · rw [hvs, List.countP_eq_length_filter]
  · rw [hvs]
    exact List.filter_sublist vs1

/-- C18 (witness): a four-frame voice rendered in a block of 256 frames. -/
theorem retirement_keeps_active_voices_witness :
    ∃ st1 out,
      process (fun x : ℚ => x)
        (play_sound (load_sample (new 44100) 0 [1, 1, 1 / 2, 1 / 2, 0, 0, -1 / 2, -1 / 2])
          0 1 0 0 0) 256 = some (st1, out) ∧
      (∀ v ∈ st1.voices_, v.active = true) ∧ st1.voices_ = [] := by
  have hk := startDelay_zero (roundF32 ((44100 : Int) : ℚ))
  obtain ⟨st1, out, hp, -, hvoices⟩ := process_solo (fun x : ℚ => x) 0
    [1, 1, 1 / 2, 1 / 2, 0, 0, -1 / 2, -1 / 2] 1 0 0 0 4 0 (by decide) rfl _
    (soloInv_trigger 44100 (by decide) 0 _ 1 0 0 0 0 4 hk) 256
  obtain ⟨vs1, S1, b, -, -, -, hact, -⟩ :=
    (retirement_keeps_active_voices (fun x : ℚ => x) _ st1 256 out hp).1
  refine ⟨st1, out, hp, hact, ?_⟩
  rw [hvoices]
  exact if_neg (by decide)


/-! ## The tapped values of a line with a known history -/

theorem lineRun_length (len tap : Int) (g : α) (in_l in_r : Nat → α) :
    ∀ (n i : Nat) (buf : List α) (w : Int) (buf1 : List α) (w1 : Int) (taps : List (α × α)),
      lineRun len tap g in_l in_r n i buf w = some (buf1, w1, taps) → taps.length = n := by
  intro n
  induction n with
  | zero =>
    intro i buf w buf1 w1 taps h
    simp only [lineRun, Option.some.injEq, Prod.mk.injEq] at h
    rw [← h.2.2]
    rfl
  | succ n ih =>
    intro i buf w buf1 w1 taps h
    rw [lineRun] at h
    rcases hs : lineStep len tap g buf w (in_l i) (in_r i) with _ | ⟨b1, p1, d_l, d_r⟩
    · rw [hs] at h
      cases h
    · rw [hs] at h
      simp only at h
      rcases hr : lineRun len tap g in_l in_r n (i + 1) b1 p1 with _ | ⟨b2, p2, t2⟩
      · rw [hr] at h
        cases h
      · rw [hr] at h
        simp only [Option.some.injEq, Prod.mk.injEq] at h
        rw [← h.2.2, List.length_cons, ih _ _ _ _ _ _ hr]

theorem lineRun_hist (L D : Nat) (g : α) (in_l in_r : Nat → α) (Yl Yr : Nat → α)
    (hD1 : 1 ≤ D) (hDL : D ≤ L) (n W : Nat) (buf : List α) (m : Nat)
    (hh : LineHist L buf W Yl Yr m)
    (hrec : ∀ s, s < n → Yl (m + s + L) = in_l (0 + s) + Yl (m + s + L - D) * g ∧
      Yr (m + s + L) = in_r (0 + s) + Yr (m + s + L - D) * g) :
    ∃ (buf1 : List α) (W1 : Nat) (taps : List (α × α)),
      lineRun (L : Int) (D : Int) g in_l in_r n 0 buf (W : Int) = some (buf1, (W1 : Int), taps) ∧
      LineHist L buf1 W1 Yl Yr (m + n) ∧ taps.length = n ∧
      ∀ s, s < n → taps.getD s (0, 0) = (Yl (m + s + L - D), Yr (m + s + L - D)) := by
  obtain ⟨buf1, W1, hrun, hfin⟩ :=
    effectLoop_hist L D g (fun d => d) in_l in_r Yl Yr hD1 hDL n 0 W buf m
      (fun _ => 0) (fun _ => 0) hh hrec
  rw [effectLoop_eq_lineRun] at hrun
  rcases hl : lineRun (L : Int) (D : Int) g in_l in_r n 0 buf (W : Int)
    with _ | ⟨b1, p1, taps⟩
  · rw [hl] at hrun
    cases hrun
  · rw [hl] at hrun
    simp only [Option.map_some', Option.some.injEq, Prod.mk.injEq] at hrun
    obtain ⟨e1, e2, e3, e4⟩ := hrun
    subst e1
    refine ⟨b1, W1, taps, by rw [e2], hfin, lineRun_length _ _ _ _ _ _ _ _ _ _ _ _ hl, ?_⟩
    intro s hs
    have h3 := congrFun e3 s
    have h4 := congrFun e4 s
    simp only [addRange, Nat.sub_zero, zero_add, Nat.zero_le, true_and, hs, if_true]
      at h3 h4
    exact Prod.ext h3 h4

/-! ## Feedback stability -/

theorem effectBlocks_hist_wet (L D : Nat) (g : α) (wet : α → α) (Yl Yr : Nat → α) (hD1 : 1 ≤ D)
    (hDL : D ≤ L) :
    ∀ (blocks : List (List (α × α))) (W : Nat) (buf : List α) (m : Nat),
      LineHist L buf W Yl Yr m →
      (∀ t, t < blocks.flatten.length →
        Yl (m + t + L) = (blocks.flatten.getD t (0, 0)).1 + Yl (m + t + L - D) * g ∧
        Yr (m + t + L) = (blocks.flatten.getD t (0, 0)).2 + Yr (m + t + L - D) * g) →
      ∃ (buf1 : List α) (W1 : Nat) (outs : List (List (α × α))),
        effectBlocks (L : Int) (D : Int) g wet blocks buf (W : Int) =
          some (buf1, (W1 : Int), outs) ∧
        outs.flatten = (List.range blocks.flatten.length).map
          (fun t => (wet (Yl (m + t + L - D)), wet (Yr (m + t + L - D)))) ∧
        LineHist L buf1 W1 Yl Yr (m + blocks.flatten.length) := by
  intro blocks
  induction blocks with
  | nil =>
    intro W buf m hh _
    exact ⟨buf, W, [], rfl, by simp, by simpa using hh⟩
  | cons blk rest ih =>
    intro W buf m hh hrec
    simp only [List.flatten_cons, List.length_append] at hrec ⊢
    obtain ⟨buf1, W1, hrun, hh1⟩ :=
      effectLoop_hist L D g wet (fun i => (blk.getD i (0, 0)).1)
        (fun i => (blk.getD i (0, 0)).2) Yl Yr hD1 hDL blk.length 0 W buf m
        (fun _ => 0) (fun _ => 0) hh
        (fun s hs => by
          have h := hrec s (by omega)
          rw [List.getD_append _ _ _ _ hs] at h
          simpa using h)
    obtain ⟨buf2, W2, outs, hrest, hout, hh2⟩ := ih W1 buf1 (m + blk.length) hh1
      (fun t ht => by
        have h := hrec (blk.length + t) (by omega)
        rw [List.getD_append_right _ _ _ _ (by omega)] at h
        rw [show m + blk.length + t + L = m + (blk.length + t) + L by omega]
        simpa using h)
    refine ⟨buf2, W2,
      (List.range blk.length).map (fun i =>
        (addRange (fun _ => (0 : α)) 0 blk.length (fun s => wet (Yl (m + s + L - D))) i,
         addRange (fun _ => (0 : α)) 0 blk.length (fun s => wet (Yr (m + s + L - D))) i)) :: outs,
      by simp only [effectBlocks, hrun, hrest], ?_,
      by rw [show m + (blk.length + rest.flatten.length)
        = m + blk.length + rest.flatten.length by omega]; exact hh2⟩
    rw [List.flatten_cons, hout, List.range_add, List.map_append, List.map_map]
    congr 1
    · apply List.map_congr_left
      intro t ht
      have ht' : t < blk.length := List.mem_range.mp ht
      simp [addRange, ht']
    · apply List.map_congr_left
      intro t _
      simp only [Function.comp]
      rw [show m + blk.length + t + L = m + (blk.length + t) + L by omega]

theorem reverb_tap_floor (sample_rate : Int)
    (hsr : 1 ≤ Int.floor ((0.1 : α) * (sample_rate : α))) :
    1 ≤ sample_rate ∧
    toInt ((sample_rate : α) * 0.1) = Int.floor ((0.1 : α) * (sample_rate : α)) ∧
    Int.floor ((0.1 : α) * (sample_rate : α)) ≤ 3 * sample_rate := by
  have hx1 : (1 : α) ≤ 0.1 * (sample_rate : α) := by
    have h := Int.floor_le ((0.1 : α) * (sample_rate : α))
    have h2 : ((1 : Int) : α) ≤ ((Int.floor ((0.1 : α) * (sample_rate : α)) : Int) : α) := by
      exact_mod_cast hsr
    push_cast at h2
    linarith
  have hsrpos : (0 : α) < (sample_rate : α) := by
    by_contra hneg
    have : (0.1 : α) * (sample_rate : α) ≤ 0 :=
      mul_nonpos_of_nonneg_of_nonpos (by norm_num) (not_lt.mp hneg)
    linarith
  have hsr1 : 1 ≤ sample_rate := by
    have : (0 : Int) < sample_rate := by exact_mod_cast hsrpos
    omega
  refine ⟨hsr1, by rw [toInt_of_nonneg _ (by linarith), mul_comm], ?_⟩
  have h := Int.floor_le ((0.1 : α) * (sample_rate : α))
  have h2 : ((Int.floor ((0.1 : α) * (sample_rate : α)) : Int) : α)
      ≤ (((3 * sample_rate : Int)) : α) := by
    push_cast
    linarith
  exact_mod_cast h2

theorem reverb_impulse_blocks (sample_rate : Int)
    (hsr : 1 ≤ Int.floor ((0.1 : α) * (sample_rate : α))) (wet : α → α)
    (blocks : List (List (α × α))) (n : Nat)
    (hblocks : blocks.flatten = (1, 1) :: List.replicate n (0, 0)) :
    ∃ buf1 w1 outs,
      effectBlocks (new sample_rate : CppAudioEngine α).reverb_len_
        (toInt ((((new sample_rate : CppAudioEngine α).sample_rate_ : Int) : α) * 0.1))
        (new sample_rate : CppAudioEngine α).reverb_feedback_ wet blocks
        (new sample_rate : CppAudioEngine α).reverb_buffer_
        (new sample_rate : CppAudioEngine α).reverb_write_pos_ = some (buf1, w1, outs) ∧
      outs.flatten.length = n + 1 ∧
      ∀ m, m ≤ n → outs.flatten[m]? =
        some (wet (echo (13421773 / 16777216)
                (Int.floor ((0.1 : α) * (sample_rate : α))).toNat m),
              wet (echo (13421773 / 16777216)
                (Int.floor ((0.1 : α) * (sample_rate : α))).toNat m)) := by
  obtain ⟨hsr1, htap, hDL⟩ := reverb_tap_floor sample_rate hsr
  show ∃ buf1 w1 outs,
      effectBlocks (sample_rate * 3) (toInt ((sample_rate : α) * 0.1))
        (13421773 / 16777216 : α) wet blocks
        (List.replicate (sample_rate * 3 * 2).toNat 0) 0 = some (buf1, w1, outs) ∧ _
  rw [htap]
  obtain ⟨D', hD'⟩ := Int.eq_ofNat_of_zero_le
    (by omega : 0 ≤ Int.floor ((0.1 : α) * (sample_rate : α)))
  obtain ⟨R, rfl⟩ := Int.eq_ofNat_of_zero_le (by omega : 0 ≤ sample_rate)
  rw [hD'] at hsr hDL ⊢
  have hD1' : 1 ≤ D' := by omega
  have hDL' : D' ≤ R * 3 := by omega
  have e : ((R : Int) * 3 * 2).toNat = 2 * (R * 3) := by omega
  have e2 : ((R : Int) * 3) = ((R * 3 : Nat) : Int) := by push_cast; rfl
  rw [e, e2, Int.toNat_ofNat]
  obtain ⟨buf1, W1, outs, hrun, hout, -⟩ :=
    effectBlocks_hist_wet (R * 3) D' (13421773 / 16777216 : α) wet
      (impulseHist (13421773 / 16777216 : α) (R * 3) D')
      (impulseHist (13421773 / 16777216 : α) (R * 3) D') hD1' hDL'
      blocks 0 (List.replicate (2 * (R * 3)) 0) 0
      (lineHist_silent (13421773 / 16777216 : α) (R * 3) D' 0 (by omega))
      (fun t _ => by
        rw [hblocks, impulse_getD, Nat.zero_add,
          impulseHist_rec (13421773 / 16777216 : α) (R * 3) D' t hD1' hDL']
        split_ifs <;> exact ⟨rfl, rfl⟩)
  refine ⟨buf1, W1, outs, hrun, ?_, fun m hm => ?_⟩
  · rw [hout, List.length_map, List.length_range, hblocks]
    simp
  · rw [hout, List.getElem?_map, List.getElem?_range (by rw [hblocks]; simp; omega)]
    simp only [Option.map_some', Nat.zero_add,
      impulseHist_out (13421773 / 16777216 : α) (R * 3) D' m hD1' hDL']

/-- C17 (amended): for a sample rate with `1 ≤ floor (0.1 * sample_rate)` the
reverb line of the constructed engine has length `3 * sample_rate` frames, tap
offset `floor (0.1 * sample_rate)`, feedback gain `0.8f = 13421773 / 2 ^ 24`,
write cursor 0 and a zero buffer (first part); fed, in any split into blocks, a
unit impulse followed by `n` zero frames it taps at frame `m` the value
`0.8f ^ (k - 1)` when `m = k * tap` with `k ≥ 1` and 0 at every other frame,
`wet` of which is added to the mix, `wet r = r * 0.5` in `process` (second
part); whenever `process` returns, with `b` the buses after the voice loop,
`dt` the values tapped by the delay loop and `rt` those tapped by the reverb
loop, every rendered output frame `i` is `tanh (dry + delay tap + reverb tap *
0.5)` on each channel (third part); and `process` does return when the effect
lines are index-valid and every active voice is on a pad with a non-empty
sample (fourth part). -/
theorem reverb_line_and_output_sum (sample_rate : Int)
    (hsr : 1 ≤ Int.floor ((0.1 : α) * (sample_rate : α))) :
    ((new sample_rate : CppAudioEngine α).reverb_len_ = 3 * sample_rate ∧
      toInt ((((new sample_rate : CppAudioEngine α).sample_rate_ : Int) : α) * 0.1) =
        Int.floor ((0.1 : α) * (sample_rate : α)) ∧
      (new sample_rate : CppAudioEngine α).reverb_feedback_ = 13421773 / 16777216 ∧
      (new sample_rate : CppAudioEngine α).reverb_write_pos_ = 0 ∧
      (new sample_rate : CppAudioEngine α).reverb_buffer_ =
        List.replicate ((new sample_rate : CppAudioEngine α).reverb_len_ * 2).toNat 0) ∧
    (∀ (wet : α → α) (blocks : List (List (α × α))) (n : Nat),
      blocks.flatten = (1, 1) :: List.replicate n (0, 0) →
      ∃ buf1 w1 outs,
        effectBlocks (new sample_rate : CppAudioEngine α).reverb_len_
          (toInt ((((new sample_rate : CppAudioEngine α).sample_rate_ : Int) : α) * 0.1))
          (new sample_rate : CppAudioEngine α).reverb_feedback_ wet blocks
          (new sample_rate : CppAudioEngine α).reverb_buffer_
          (new sample_rate : CppAudioEngine α).reverb_write_pos_ = some (buf1, w1, outs) ∧
        outs.flatten.length = n + 1 ∧
        ∀ m, m ≤ n → outs.flatten[m]? =
          some (wet (echo (13421773 / 16777216)
                  (Int.floor ((0.1 : α) * (sample_rate : α))).toNat m),
                wet (echo (13421773 / 16777216)
                  (Int.floor ((0.1 : α) * (sample_rate : α))).toNat m))) ∧
    (∀ (tanh : α → α) (st st1 : CppAudioEngine α) (frames : Nat) (out : List α),
      process tanh st frames = some (st1, out) →
      ∃ (vs1 : List (Voice α)) (S1 : Int → Option (List α)) (b : Buses α) (dbuf : List α)
        (dpos : Int) (dt : List (α × α)) (rbuf : List α) (rpos : Int) (rt : List (α × α)),
        voiceLoop (safeFrames frames) (st.voices_ ++ st.pending_voices_) st.samples_ zeroBuses
          = some (vs1, S1, b) ∧
        lineRun st.delay_len_ st.delay_time_samples_ st.delay_feedback_ b.dly_l b.dly_r
          (safeFrames frames) 0 st.delay_buffer_ st.delay_write_pos_ = some (dbuf, dpos, dt) ∧
        lineRun st.reverb_len_ (toInt ((st.sample_rate_ : α) * 0.1)) st.reverb_feedback_
          b.rev_l b.rev_r (safeFrames frames) 0 st.reverb_buffer_ st.reverb_write_pos_
          = some (rbuf, rpos, rt) ∧
        dt.length = safeFrames frames ∧ rt.length = safeFrames frames ∧
        ∀ i, i < safeFrames frames →
          out[2 * i]? = some (tanh (b.mix_l i + (dt.getD i (0, 0)).1
            + (rt.getD i (0, 0)).1 * 0.5)) ∧
          out[2 * i + 1]? = some (tanh (b.mix_r i + (dt.getD i (0, 0)).2
            + (rt.getD i (0, 0)).2 * 0.5))) ∧
    (∀ (tanh : α → α) (st : CppAudioEngine α) (frames : Nat), LinesOK st →
      VoicesOK st.samples_ (st.voices_ ++ st.pending_voices_) →
      ∃ st1 out, process tanh st frames = some (st1, out)) := by
  obtain ⟨hsr1, htap, hDL⟩ := reverb_tap_floor sample_rate hsr
  refine ⟨⟨by simp only [new]; ring, htap, rfl, rfl, by simp only [new]⟩,
    fun wet blocks n hb => reverb_impulse_blocks sample_rate hsr wet blocks n hb, ?_,
    fun tanh st frames hl hv => process_returns tanh st frames hl hv⟩
  intro tanh st st1 frames out hp
  obtain ⟨vs1, S1, b, dbuf, dpos, dt, rbuf, rpos, rt, hv, hd, hr, -, hout⟩ :=
    process_decomp tanh st st1 frames out hp
  refine ⟨vs1, S1, b, dbuf, dpos, dt, rbuf, rpos, rt, hv, hd, hr,
    lineRun_length _ _ _ _ _ _ _ _ _ _ _ _ hd, lineRun_length _ _ _ _ _ _ _ _ _ _ _ _ hr, ?_⟩
  intro i hi
  have hle := safeFrames_le frames
  have h1 : 2 * 0 ≤ 2 * i ∧ 2 * i < 2 * (0 + safeFrames frames) ∧ 2 * i < frames * 2 := by
    omega
  have h2 : 2 * 0 ≤ 2 * i + 1 ∧ 2 * i + 1 < 2 * (0 + safeFrames frames) ∧
      2 * i + 1 < frames * 2 := by omega
  have h3 : 0 ≤ i ∧ i < 0 + safeFrames frames := by omega
  rw [hout]
  simp only [writeOut_getElem?, List.length_replicate]
  rw [if_pos h1, if_pos h2]
  have e1 : 2 * i % 2 = 0 := by omega
  have e2 : (2 * i + 1) % 2 ≠ 0 := by omega
  have e3 : 2 * i / 2 = i := by omega
  have e4 : (2 * i + 1) / 2 = i := by omega
  rw [if_pos e1, if_neg e2, e3, e4]
  simp only [addRange, if_pos h3, Nat.sub_zero]
  exact ⟨trivial, trivial⟩

theorem floor_tenth_of_ten : Int.floor ((0.1 : ℚ) * ((10 : Int) : ℚ)) = 1 := by
  rw [Int.floor_eq_iff]
  constructor <;> norm_num

/-- C17 (counterexample): the reverb line of the engine constructed with
sample rate 10 (tap offset 1), fed a unit impulse and two zero frames: the value
tapped at frame 2, the second echo, is `13421773 / 2 ^ 24`, the stored gain,
which is not `0.8`. -/
theorem reverb_gain_is_not_four_fifths :
    (new 10 : CppAudioEngine ℚ).reverb_feedback_ ≠ 0.8 ∧
    ∃ buf1 w1 outs,
      effectBlocks (new 10 : CppAudioEngine ℚ).reverb_len_
        (toInt ((((new 10 : CppAudioEngine ℚ).sample_rate_ : Int) : ℚ) * 0.1))
        (new 10 : CppAudioEngine ℚ).reverb_feedback_ (fun r => r)
        [[(1, 1)], [(0, 0), (0, 0)]]
        (new 10 : CppAudioEngine ℚ).reverb_buffer_
        (new 10 : CppAudioEngine ℚ).reverb_write_pos_ = some (buf1, w1, outs) ∧
      outs.flatten[2]? = some (13421773 / 16777216, 13421773 / 16777216) ∧
      (13421773 / 16777216 : ℚ) ≠ 0.8 ^ (2 - 1) := by
  have hf := floor_tenth_of_ten
  refine ⟨?_, ?_⟩
  · show (13421773 / 16777216 : ℚ) ≠ 0.8
    norm_num
  · obtain ⟨buf1, w1, outs, hrun, -, hout⟩ :=
      reverb_impulse_blocks (10 : Int) (by rw [hf]) (fun r : ℚ => r)
        [[(1, 1)], [(0, 0), (0, 0)]] 2 rfl
    refine ⟨buf1, w1, outs, hrun, ?_, by norm_num⟩
    rw [hout 2 (by decide), hf]
    have hc : 2 ≠ 0 ∧ (1 : Int).toNat ∣ 2 := by decide
    have hd : 2 / (1 : Int).toNat - 1 = 1 := by decide
    unfold echo
    rw [if_pos hc, hd, pow_one]

theorem toInt_delay_tap_of_ten : toInt ((((10 : Int) : ℚ)) * 0.375) = ((3 : Nat) : Int) := by
  rw [toInt_of_nonneg _ (by norm_num), Int.floor_eq_iff]
  constructor <;> norm_num

theorem toInt_reverb_tap_of_ten : toInt ((((10 : Int) : ℚ)) * 0.1) = ((1 : Nat) : Int) := by
  rw [toInt_of_nonneg _ (by norm_num), Int.floor_eq_iff]
  constructor <;> norm_num

theorem impulse_bus (i : Nat) (hi : i < 4) :
    ((if i < 4 ∧ 0 ≤ 0 + i ∧ 0 + i - 0 < 1
        then (0 : ℚ) + 1 * 1 * ([1, 1] : List ℚ).getD (2 * (0 + i - 0)) 0 else 0)
      = if i = 0 then 1 else 0) ∧
    ((if i < 4 ∧ 0 ≤ 0 + i ∧ 0 + i - 0 < 1
        then (0 : ℚ) + 1 * 1 * ([1, 1] : List ℚ).getD (2 * (0 + i - 0) + 1) 0 else 0)
      = if i = 0 then 1 else 0) ∧
    ((if i < 4 ∧ 0 ≤ 0 + i ∧ 0 + i - 0 < 1
        then (0 : ℚ) + 1 * ([1, 1] : List ℚ).getD (2 * (0 + i - 0)) 0 else 0)
      = if i = 0 then 1 else 0) := by
  rcases Nat.eq_zero_or_pos i with h | h
  · subst h
    norm_num
  · have hc : ¬ (i < 4 ∧ 0 ≤ 0 + i ∧ 0 + i - 0 < 1) := by omega
    have h0 : i ≠ 0 := by omega
    simp only [hc, h0, if_false, and_self]

/-- C17 (witness): sample rate 10 (reverb tap offset 1, delay tap offset 3).
The reverb line fed an impulse and two zero frames adds `1 * 0.5` to the mix at
frame 1 and `0.8f * 0.5` at frame 2.  A one-frame sample `(1, 1)` triggered with
velocity 1 and both sends 1, rendered in a block of 4 frames without a limiter
(`tanh` replaced by the identity): the left output is the dry frame at frame 0,
the first reverb echo `1 * 0.5` at frame 1, the second `0.8f * 0.5` at frame 2,
and the delay echo `1` plus the third reverb echo `0.8f ^ 2 * 0.5` at
frame 3. -/
theorem reverb_line_and_output_sum_witness :
    1 ≤ Int.floor ((0.1 : ℚ) * ((10 : Int) : ℚ)) ∧
    (∃ buf1 w1 outs,
      effectBlocks (new 10 : CppAudioEngine ℚ).reverb_len_
        (toInt ((((new 10 : CppAudioEngine ℚ).sample_rate_ : Int) : ℚ) * 0.1))
        (new 10 : CppAudioEngine ℚ).reverb_feedback_ (fun r => r * 0.5)
        [[(1, 1)], [(0, 0), (0, 0)]]
        (new 10 : CppAudioEngine ℚ).reverb_buffer_
        (new 10 : CppAudioEngine ℚ).reverb_write_pos_ = some (buf1, w1, outs) ∧
      outs.flatten[1]? = some ((1 : ℚ) * (1 / 2), (1 : ℚ) * (1 / 2)) ∧
      outs.flatten[2]? =
        some ((13421773 / 16777216 : ℚ) * (1 / 2), (13421773 / 16777216 : ℚ) * (1 / 2))) ∧
    ∃ st1 out,
      process (fun x : ℚ => x) (play_sound (load_sample (new 10) 0 [1, 1]) 0 1 1 1 0) 4
        = some (st1, out) ∧
      out[0]? = some ((1 : ℚ) + 0 + 0 * (1 / 2)) ∧
      out[2]? = some ((0 : ℚ) + 0 + 1 * (1 / 2)) ∧
      out[4]? = some ((0 : ℚ) + 0 + 13421773 / 16777216 * (1 / 2)) ∧
      out[6]? = some ((0 : ℚ) + 1 + (13421773 / 16777216) ^ 2 * (1 / 2)) := by
  have hf := floor_tenth_of_ten
  have hsr : 1 ≤ Int.floor ((0.1 : ℚ) * ((10 : Int) : ℚ)) := by rw [hf]
  obtain ⟨-, himp, hsum, hret⟩ := reverb_line_and_output_sum (10 : Int) hsr
  have ec0 : echo (13421773 / 16777216 : ℚ) 1 0 = 0 := by
    have hc : ¬ (0 ≠ 0 ∧ 1 ∣ 0) := by decide
    unfold echo
    rw [if_neg hc]
  have ec1 : echo (13421773 / 16777216 : ℚ) 1 1 = 1 := by
    have hc : 1 ≠ 0 ∧ 1 ∣ 1 := by decide
    have hd : 1 / 1 - 1 = 0 := by decide
    unfold echo
    rw [if_pos hc, hd, pow_zero]
  have ec2 : echo (13421773 / 16777216 : ℚ) 1 2 = 13421773 / 16777216 := by
    have hc : 2 ≠ 0 ∧ 1 ∣ 2 := by decide
    have hd : 2 / 1 - 1 = 1 := by decide
    unfold echo
    rw [if_pos hc, hd, pow_one]
  have ec3 : echo (13421773 / 16777216 : ℚ) 1 3 = (13421773 / 16777216) ^ 2 := by
    have hc : 3 ≠ 0 ∧ 1 ∣ 3 := by decide
    have hd : 3 / 1 - 1 = 2 := by decide
    unfold echo
    rw [if_pos hc, hd]
  have ed : ∀ i, i < 4 → echo (0.5 : ℚ) 3 i = if i = 3 then 1 else 0 := by
    intro i hi
    unfold echo
    interval_cases i
    · rw [if_neg (by decide)]
      rfl
    · rw [if_neg (by decide)]
      rfl
    · rw [if_neg (by decide)]
      rfl
    · rw [if_pos (by decide)]
      norm_num
  refine ⟨hsr, ?_, ?_⟩
  · obtain ⟨buf1, w1, outs, hrun, -, hout⟩ :=
      himp (fun r => r * 0.5) [[(1, 1)], [(0, 0), (0, 0)]] 2 rfl
    rw [hf] at hout
    refine ⟨buf1, w1, outs, hrun, ?_, ?_⟩
    · have h := hout 1 (by decide)
      rw [show (1 : Int).toNat = 1 from rfl, ec1] at h
      refine h.trans ?_
      norm_num
    · have h := hout 2 (by decide)
      rw [show (1 : Int).toNat = 1 from rfl, ec2] at h
      refine h.trans ?_
      norm_num
  · obtain ⟨hsamp, hlist, hlines⟩ :=
      soloInv_trigger (10 : Int) (by decide) 0 ([1, 1] : List ℚ) 1 1 1 0 0 1
        (startDelay_zero _)
    have hvok : VoicesOK (play_sound (load_sample (new 10) 0 [1, 1]) 0 1 1 1 (0 : ℚ)).samples_
        ((play_sound (load_sample (new 10) 0 [1, 1]) 0 1 1 1 (0 : ℚ)).voices_ ++
          (play_sound (load_sample (new 10) 0 [1, 1]) 0 1 1 1 (0 : ℚ)).pending_voices_) := by
      rw [hlist]
      intro v hm _
      have hv : v = voiceAt 0 1 1 1 0 1 0 := by simpa using hm
      rw [hv]
      exact ⟨[1, 1], hsamp, by decide⟩
    obtain ⟨st1, out, hp⟩ := hret (fun x : ℚ => x) _ 4 hlines hvok
    obtain ⟨vs1, S1, b, dbuf, dpos, dt, rbuf, rpos, rt, hv, hd, hr, -, -, hout⟩ :=
      hsum _ _ st1 4 out hp
    have hsf : safeFrames 4 = 4 := safeFrames_of_le 4 (by decide)
    rw [hsf] at hv hd hr hout
    have hvs := voiceStage_solo 0 ([1, 1] : List ℚ) 1 1 1 0 1 0 (by decide) rfl _ hsamp hlist 4
    rw [voiceStage_eq, hv] at hvs
    simp only [Option.map_some', Option.some.injEq, Prod.mk.injEq] at hvs
    obtain ⟨-, hb⟩ := hvs
    have hbus : ∀ i, i < 4 →
        b.mix_l i = (if i = 0 then 1 else 0) ∧ b.rev_l i = (if i = 0 then 1 else 0) ∧
        b.rev_r i = (if i = 0 then 1 else 0) ∧ b.dly_l i = (if i = 0 then 1 else 0) ∧
        b.dly_r i = (if i = 0 then 1 else 0) := by
      intro i hi
      have h := accumBuses_voiceAt ([1, 1] : List ℚ) 0 1 1 1 0 1 0 4 zeroBuses i
      simp only [] at h
      rw [← hb] at h
      obtain ⟨h1, -, h3, h4, h5, h6⟩ := h
      obtain ⟨i1, i2, i3⟩ := impulse_bus i hi
      simp only [zeroBuses] at h1 h3 h4 h5 h6
      exact ⟨h1.trans i3, h3.trans i1, h4.trans i2, h5.trans i1, h6.trans i2⟩
    have hd2 : lineRun ((20 : Nat) : Int) ((3 : Nat) : Int) (0.5 : ℚ) b.dly_l b.dly_r 4 0
        (List.replicate (2 * 20) 0) ((0 : Nat) : Int) = some (dbuf, dpos, dt) := by
      rw [← toInt_delay_tap_of_ten]
      exact hd
    have hr2 : lineRun ((30 : Nat) : Int) ((1 : Nat) : Int) (13421773 / 16777216 : ℚ)
        b.rev_l b.rev_r 4 0 (List.replicate (2 * 30) 0) ((0 : Nat) : Int)
        = some (rbuf, rpos, rt) := by
      rw [← toInt_reverb_tap_of_ten]
      exact hr
    obtain ⟨dbuf1, W1, dt1, hdrun, -, -, hdt⟩ :=
      lineRun_hist 20 3 (0.5 : ℚ) b.dly_l b.dly_r (impulseHist 0.5 20 3)
        (impulseHist 0.5 20 3) (by decide) (by decide) 4 0 (List.replicate (2 * 20) 0) 0
        (lineHist_silent (0.5 : ℚ) 20 3 0 (by decide))
        (fun s hs => by
          simp only [Nat.zero_add]
          rw [impulseHist_rec (0.5 : ℚ) 20 3 s (by decide) (by decide),
            (hbus s hs).2.2.2.1, (hbus s hs).2.2.2.2]
          exact ⟨rfl, rfl⟩)
    obtain ⟨rbuf1, W2, rt1, hrrun, -, -, hrt⟩ :=
      lineRun_hist 30 1 (13421773 / 16777216 : ℚ) b.rev_l b.rev_r
        (impulseHist (13421773 / 16777216) 30 1) (impulseHist (13421773 / 16777216) 30 1)
        (by decide) (by decide) 4 0 (List.replicate (2 * 30) 0) 0
        (lineHist_silent (13421773 / 16777216 : ℚ) 30 1 0 (by decide))
        (fun s hs => by
          simp only [Nat.zero_add]
          rw [impulseHist_rec (13421773 / 16777216 : ℚ) 30 1 s (by decide) (by decide),
            (hbus s hs).2.1, (hbus s hs).2.2.1]
          exact ⟨rfl, rfl⟩)
    rw [hdrun] at hd2
    rw [hrrun] at hr2
    simp only [Option.some.injEq, Prod.mk.injEq] at hd2 hr2
    obtain ⟨-, -, edt⟩ := hd2
    obtain ⟨-, -, ert⟩ := hr2
    subst edt ert
    have hD : ∀ i, i < 4 → (dt1.getD i (0, 0)).1 = if i = 3 then 1 else 0 := by
      intro i hi
      rw [hdt i hi, ← ed i hi]
      show impulseHist (0.5 : ℚ) 20 3 (0 + i + 20 - 3) = _
      rw [Nat.zero_add, impulseHist_out (0.5 : ℚ) 20 3 i (by decide) (by decide)]
    have hR : ∀ i, i < 4 → (rt1.getD i (0, 0)).1 = echo (13421773 / 16777216 : ℚ) 1 i := by
      intro i hi
      rw [hrt i hi]
      show impulseHist (13421773 / 16777216 : ℚ) 30 1 (0 + i + 30 - 1) = _
      rw [Nat.zero_add, impulseHist_out (13421773 / 16777216 : ℚ) 30 1 i (by decide)
        (by decide)]
    refine ⟨st1, out, hp, ?_, ?_, ?_, ?_⟩
    · have h := (hout 0 (by decide)).1
      rw [(hbus 0 (by decide)).1, hD 0 (by decide), hR 0 (by decide), ec0] at h
      refine h.trans ?_
      norm_num
    · have h := (hout 1 (by decide)).1
      rw [(hbus 1 (by decide)).1, hD 1 (by decide), hR 1 (by decide), ec1] at h
      refine h.trans ?_
      norm_num
    · have h := (hout 2 (by decide)).1
      rw [(hbus 2 (by decide)).1, hD 2 (by decide), hR 2 (by decide), ec2] at h
      refine h.trans ?_
      norm_num
    · have h := (hout 3 (by decide)).1
      rw [(hbus 3 (by decide)).1, hD 3 (by decide), hR 3 (by decide), ec3] at h
      refine h.trans ?_
      norm_num

end Engine

/-! ## The output bound -/

end GrooveBox
